import Mathlib

/-!
Verification development for a multi-objective two-echelon vehicle-routing
system (2E-VRP): an exhaustive Pareto search, an NSGA-II driver, a candidate
solution model with repair/crossover/mutation operators, a branch-and-bound
TSP subroutine, and instance-file parsing.

The Python source is shallowly embedded: Python floats are modelled as exact
rationals (all arithmetic relevant to the verified statements is exact in
binary floating point on the inputs considered), Python ints as `ℕ`/`ℤ`,
in-place mutation as explicit state passing, `random.choice`/`randint`/
`shuffle` as functions of an explicit oracle stream of naturals, exceptions
and index errors as `Option`/`Except`, and unbounded `while` loops as
fuel-indexed recursion (a `none` result means the fuel ran out or the Python
would have raised; theorems are conditioned on a `some` result).
-/

namespace VRP

/-! ## Random-oracle primitives

`random.choice`, `random.randint` and `random.shuffle` are modelled as
deterministic functions of an oracle stream of naturals.  `choice` fails
(`none`) exactly when Python raises `IndexError` on an empty sequence.
`shuffle` is modelled as oracle-driven selection without replacement; any
permutation is reachable, matching the in-place Fisher-Yates of the source. -/

abbrev Rand := List ℕ

def next_nat : Rand → ℕ × Rand
  | [] => (0, [])
  | n :: r => (n, r)

def choice (l : List α) (r : Rand) : Option (α × Rand) :=
  match l with
  | [] => none
  | a :: as =>
    let p := next_nat r
    some ((a :: as).getD (p.1 % (a :: as).length) a, p.2)

def randint (a b : ℕ) (r : Rand) : ℕ × Rand :=
  let p := next_nat r
  (a + p.1 % (b + 1 - a), p.2)

/-- Selection-without-replacement driven by the oracle.  The fuel equals the
list length on entry (each step erases the picked element, shortening the
list by one), making the recursion structural; the fuel-exhausted arm is
unreachable from `shuffle`. -/
def shuffle_go [DecidableEq α] : ℕ → List α → Rand → List α × Rand
  | _, [], r => ([], r)
  | 0, a :: as, r => (a :: as, r)
  | fuel + 1, a :: as, r =>
    let p := next_nat r
    let pick := (a :: as).getD (p.1 % (a :: as).length) a
    let rest := shuffle_go fuel ((a :: as).erase pick) p.2
    (pick :: rest.1, rest.2)

def shuffle [DecidableEq α] (l : List α) (r : Rand) : List α × Rand :=
  shuffle_go l.length l r

/-- Stable ascending insertion sort: the embedding of Python's stable
`list.sort` (a later element is inserted after any equal earlier one, and
`Timsort` is likewise stable).  Structural, hence kernel-evaluable. -/
def insort (le : α → α → Bool) (x : α) : List α → List α
  | [] => [x]
  | y :: ys => if le y x then y :: insort le x ys else x :: y :: ys

def sort_by (le : α → α → Bool) (l : List α) : List α :=
  l.foldl (fun acc x => insort le x acc) []

/-! ## tools.py -/

/-- Matrix of rationals: the shallow embedding of a Python list-of-lists of
floats.  Out-of-range reads use default `0`; every verified statement only
reads in range. -/
abbrev Mat := List (List ℚ)

def dget (d : Mat) (i j : ℕ) : ℚ := ((d.getD i []).getD j 0)

/-- tools.make_submatrix: the matrix restricted to the given rows/columns,
preserving index order. -/
def make_submatrix (matrix : Mat) (indices : List ℕ) : Mat :=
  indices.map (fun row => indices.map (fun column => dget matrix row column))

/-! ## tsptools.py

`compute_lower_bound` reads `edges[0]` and `edges[1]`; with fewer than two
incident edges (n ≤ 2) Python raises `IndexError`, modelled by `none`.
The diagonal of the distance matrix (set to `float('inf')` by the callers)
is never read by any of these functions for n ≥ 2, so the matrix is modelled
over `ℚ` with an arbitrary diagonal. -/

def compute_lower_bound (distance : Mat) (n : ℕ) : Option (List (ℚ × ℚ) × ℚ) :=
  let step := fun (acc : Option (List (ℚ × ℚ) × ℚ)) (v : ℕ) =>
    match acc with
    | none => none
    | some me =>
      let edges := ((List.range n).filter (fun i => i ≠ v)).map (fun i => dget distance v i)
      match sort_by (fun a b => decide (a ≤ b)) edges with
      | e0 :: e1 :: _ => some (me.1 ++ [(e0, e1)], me.2 + e0 + e1)
      | _ => none
  match (List.range n).foldl step (some ([], 0)) with
  | some me => some (me.1, me.2 / 2)
  | none => none

/-- The `for v in vertices` loop of tsp_search, including the early `break`
taken as soon as one candidate's bound reaches the incumbent cost.  `search`
is the recursive continuation (tsp_search at one less fuel). -/
def tsp_loop_go (distance : Mat)
    (search : List ℕ → ℚ → ℚ → List ℕ → WithTop ℚ → List ℕ × WithTop ℚ)
    (tour : List ℕ) (curr_cost : ℚ) (min_edge : List (ℚ × ℚ)) (curr_bnd : ℚ) :
    List ℕ → List ℕ → WithTop ℚ → List ℕ × WithTop ℚ
  | [], best_tour, best_cost => (best_tour, best_cost)
  | v :: rest, best_tour, best_cost =>
    let last_vertex := tour.getLastD 0
    let lcl_curr_bnd :=
      if tour.length = 1 then
        curr_bnd - ((min_edge.getD last_vertex (0, 0)).2 + (min_edge.getD v (0, 0)).2) / 2
      else
        curr_bnd - ((min_edge.getD last_vertex (0, 0)).1 + (min_edge.getD v (0, 0)).2) / 2
    if ((curr_cost + dget distance last_vertex v + lcl_curr_bnd : ℚ) : WithTop ℚ) < best_cost then
      let res := search (tour ++ [v]) (curr_cost + dget distance last_vertex v)
        lcl_curr_bnd best_tour best_cost
      if res.2 < best_cost then
        tsp_loop_go distance search tour curr_cost min_edge curr_bnd rest res.1 res.2
      else
        tsp_loop_go distance search tour curr_cost min_edge curr_bnd rest best_tour best_cost
    else (best_tour, best_cost)

/-- tsptools.tsp_search.  The recursion depth is bounded by `n - tour.length`;
`fuel` (set to `n` at the top) makes this structural and is never exhausted
on the calls the embedding performs. -/
def tsp_search : ℕ → Mat → ℕ → List ℕ → ℚ → List (ℚ × ℚ) → ℚ → List ℕ → WithTop ℚ →
    List ℕ × WithTop ℚ
  | 0, distance, n, tour, curr_cost, _, _, best_tour, best_cost =>
    if tour.length < n then (best_tour, best_cost)
    else if n > 1 then
      (tour, ((curr_cost + dget distance (tour.getLastD 0) (tour.headD 0) : ℚ) : WithTop ℚ))
    else (best_tour, best_cost)
  | fuel + 1, distance, n, tour, curr_cost, min_edge, curr_bnd, best_tour, best_cost =>
    if tour.length < n then
      let last_vertex := tour.getLastD 0
      let vertices := (List.range n).filter (fun i => decide (i ∉ tour))
      let sorted := sort_by
        (fun a b => decide (dget distance last_vertex a ≤ dget distance last_vertex b)) vertices
      tsp_loop_go distance
        (fun t c b bt bc => tsp_search fuel distance n t c min_edge b bt bc)
        tour curr_cost min_edge curr_bnd sorted best_tour best_cost
    else if n > 1 then
      (tour, ((curr_cost + dget distance (tour.getLastD 0) (tour.headD 0) : ℚ) : WithTop ℚ))
    else (best_tour, best_cost)

/-- tsptools.tsp: the branch-and-bound entry point; the initial incumbent is
the identity tour at cost `+∞` (`⊤`). -/
def tsp (distance_matrix : Mat) : Option (List ℕ × WithTop ℚ) :=
  let n := distance_matrix.length
  let uppr_bnd_tour := List.range n
  match compute_lower_bound distance_matrix n with
  | none => none
  | some me => some (tsp_search n distance_matrix n [0] 0 me.1 me.2 uppr_bnd_tour ⊤)

/-- Length of the closed tour `tour` in matrix `d` (sum of consecutive edges
plus the edge back from the last vertex to the first). -/
def closed_cost (d : Mat) (tour : List ℕ) : ℚ :=
  (List.zip tour tour.tail).foldl (fun acc p => acc + dget d p.1 p.2) 0
    + dget d (tour.getLastD 0) (tour.headD 0)

/-! ## exhaustive.py : dominance, Pareto front, mixed-radix counter -/

/-- exhaustive.dominates, the `for f1, f2 in zip(...)` loop carrying the
`not_equal` flag. -/
def dominates_loop (ne : Bool) : List ℚ → List ℚ → Bool
  | [], _ => ne
  | _ :: _, [] => ne
  | f1 :: r1, f2 :: r2 =>
    if f1 > f2 then false
    else if f1 < f2 then dominates_loop true r1 r2
    else dominates_loop ne r1 r2

/-- exhaustive.dominates: minimization dominance on fitness tuples. -/
def dominates (sol_fitness_1 sol_fitness_2 : List ℚ) : Bool :=
  dominates_loop false sol_fitness_1 sol_fitness_2

/-- A front entry: an identifier standing for the solution object, paired
with its fitness tuple (`evaluate` is abstracted into the id ↦ fitness map
passed to `update_front`). -/
abbrev Entry := ℕ × List ℚ

/-- The `for sol_tuple in front` loop of exhaustive.update_front, with
CPython `for` semantics: the iterator keeps a position index `k` into the
list, and `front.remove` (remove the first equal element) shortens the list
under the live iterator, so the element sliding into the removed slot is
skipped.  `none` models the early `return` taken when the new solution is
dominated. -/
def update_front_loop (new_fit : List ℚ) : ℕ → List Entry → ℕ → Option (List Entry)
  | 0, front, _ => some front
  | fuel + 1, front, k =>
    if h : k < front.length then
      let sol_tuple := front.get ⟨k, h⟩
      if dominates sol_tuple.2 new_fit then none
      else if dominates new_fit sol_tuple.2 then
        update_front_loop new_fit fuel (front.erase sol_tuple) (k + 1)
      else update_front_loop new_fit fuel front (k + 1)
    else some front

/-- exhaustive.update_front: test a new solution against the running Pareto
set approximation and append it unless an existing member dominates it.  The
fuel `front.length` dominates the loop measure `front.length - k`, so the
fuel-exhausted arm coincides with the loop's normal exit. -/
def update_front (evaluate_fn : ℕ → List ℚ) (front : List Entry) (new_sol : ℕ) :
    List Entry :=
  let new_sol_fitness := evaluate_fn new_sol
  match update_front_loop new_sol_fitness front.length front 0 with
  | none => front
  | some front2 => front2 ++ [(new_sol, new_sol_fitness)]

/-- exhaustive.next_combo: mixed-radix counter.  The Python loop scans
positions right-to-left; this is rendered as tail-first recursion: if the
suffix can advance it advances, otherwise the head is incremented (when below
its max) and the whole suffix is reset to its minima.  `none` models the
`NoMoreCombosError` signal. -/
def next_combo : List ℤ → List ℤ → List ℤ → Option (List ℤ)
  | c :: cs, m :: ms, _mn :: ns =>
    match next_combo cs ms ns with
    | some rest => some (c :: rest)
    | none => if c < m then some ((c + 1) :: ns) else none
  | _, _, _ => none

/-! ## dataprocess.py : instance parsing

The file after `re.split` by tabs is modelled as a table of numeric tokens
(`List (List ℚ)`); Python `int(tok)` on an integer token is modelled by
`⌊·⌋`, which agrees with it on every well-formed file.  Out-of-range reads
(IndexError in Python) read default `0`; the round-trip statements only
concern well-formed tables where no default is ever read. -/

structure VehicleData where
  l2_capacity : List ℤ
  l2_cpk : List ℚ
  l2_emissions : List ℤ
  l1_cpk : ℚ
  l1_emissions : ℤ
deriving Repr, DecidableEq

/-- dataprocess.obtain_input_data on the tab-split token table. -/
def obtain_input_data (data : List (List ℚ)) :
    List (List ℚ) × List (List ℚ) × List (List ℤ) × VehicleData :=
  let row := fun x => data.getD x []
  let nr_depots := (⌊(row 0).getD 0 0⌋).toNat
  let nr_satellites := (⌊(row 0).getD 1 0⌋).toNat
  let nr_clients := (⌊(row 0).getD 2 0⌋).toNat
  let e1_nr := nr_depots + nr_satellites
  let e2_nr := nr_satellites + nr_clients
  let e1 := (List.range e1_nr).map (fun x =>
    (List.range e1_nr).map (fun y => (row (1 + x)).getD (1 + y) 0))
  let e2 := (List.range e2_nr).map (fun x =>
    (List.range e2_nr).map (fun y => (row (1 + e1_nr + x)).getD (1 + y) 0))
  let dmd_start := 1 + e1_nr + e2_nr
  let dmd_end := dmd_start + nr_clients
  let demand := (List.range nr_clients).map (fun x =>
    (List.range nr_depots).map (fun y => ⌊(row (dmd_start + x)).getD y 0⌋))
  let l1_cpk := (row dmd_end).getD 2 0
  let l1_emissions := ⌊(row dmd_end).getD 3 0⌋
  let rest := data.drop (dmd_end + 1)
  let l2_capacity := rest.flatMap (fun line =>
    List.replicate (⌊line.getD 4 0⌋).toNat ⌊line.getD 1 0⌋)
  let l2_cpk := rest.flatMap (fun line =>
    List.replicate (⌊line.getD 4 0⌋).toNat (line.getD 2 0))
  let l2_emissions := rest.flatMap (fun line =>
    List.replicate (⌊line.getD 4 0⌋).toNat ⌊line.getD 3 0⌋)
  (e1, e2, demand, ⟨l2_capacity, l2_cpk, l2_emissions, l1_cpk, l1_emissions⟩)

/-! ## solution.py : environment and candidate solution -/

/-- The class-level problem environment set once by Solution.set_environment.
Vehicle emissions are parsed as ints but only ever multiplied with rational
distances, so they are carried as `ℚ` here. -/
structure Env where
  capacity : List ℤ
  cost_per_km : List ℚ
  emissions : List ℚ
  l1_cpk : ℚ
  l1_emissions : ℚ
  demand : List (List ℤ)
  first_echelon : Mat
  second_echelon : Mat
deriving Repr, DecidableEq

/-- Solution.set_environment: vehicle_nr = len(capacity). -/
def Env.vehicle_nr (env : Env) : ℕ := env.capacity.length

/-- Solution.set_environment: client_nr = len(demand). -/
def Env.client_nr (env : Env) : ℕ := env.demand.length

/-- Solution.set_environment: satellite_nr = len(second_echelon) - client_nr. -/
def Env.satellite_nr (env : Env) : ℕ := env.second_echelon.length - env.client_nr

/-- Solution.set_environment: product_nr = len(first_echelon) - satellite_nr. -/
def Env.product_nr (env : Env) : ℕ := env.first_echelon.length - env.satellite_nr

/-- A Solution object.  `sat_demand = none` models the `[False]` placeholder
set by `__init__`, which in Python never compares equal to a real
satellites-by-products boolean matrix. -/
structure Sol where
  starting_points : List ℕ
  client_order : List (List ℕ)
  product_delivery : List (List ℕ)
  l1_distance : ℚ
  l1_routes : List (List ℕ)
  l2_distance : List ℚ
  l2_clients : List (List ℕ)
  sat_demand : Option (List (List Bool))
  log : List String
deriving Repr, DecidableEq

/-- Solution.__init__. -/
def Sol.init (env : Env) (starting_points : List ℕ) (client_order : List (List ℕ))
    (product_delivery : List (List ℕ)) (initial_log : String) : Sol :=
  { starting_points := starting_points
    client_order := client_order
    product_delivery := product_delivery
    l1_distance := 0
    l1_routes := []
    l2_distance := []
    l2_clients := List.replicate env.vehicle_nr []
    sat_demand := none
    log := [initial_log] }

/-- Solution.__eq__: structural equality on (starting_points, product_delivery). -/
def solEq (a b : Sol) : Bool :=
  a.starting_points == b.starting_points && a.product_delivery == b.product_delivery

/-- Solution.empty_solution. -/
def empty_solution (env : Env) (i_log : String) : Sol :=
  Sol.init env (List.replicate env.vehicle_nr 0)
    (List.replicate env.client_nr (List.replicate env.vehicle_nr 0))
    (List.replicate env.client_nr (List.replicate env.product_nr 0)) i_log

/-- The `[[cl for cl in range(client_nr) if ve + 1 in pd[cl]] for ve in
range(vehicle_nr)]` comprehension used by correct, exhaustive_search and
second_echelon_distances. -/
def clients_served_of (env : Env) (pd : List (List ℕ)) : List (List ℕ) :=
  (List.range env.vehicle_nr).map (fun ve =>
    (List.range env.client_nr).filter (fun cl => (pd.getD cl []).contains (ve + 1)))

/-- Update one product-delivery cell (`pd[client][product] = v`); a no-op out
of range, where Python would raise IndexError — the verified statements carry
dimension hypotheses under which every write is in range. -/
def set2 (pd : List (List ℕ)) (client product v : ℕ) : List (List ℕ) :=
  pd.set client ((pd.getD client []).set product v)

/-- The row-major `(client, product)` iteration common to several loops
(`for client in range(client_nr): for product in range(product_nr)`). -/
def cp_pairs (env : Env) : List (ℕ × ℕ) :=
  (List.range env.client_nr).flatMap (fun client =>
    (List.range env.product_nr).map (fun product => (client, product)))

/-- Solution.determine_overflow: remaining capacity per vehicle. -/
def determine_overflow (env : Env) (s : Sol) : List ℤ :=
  (cp_pairs env).foldl
    (fun rc cp =>
      let veh := (s.product_delivery.getD cp.1 []).getD cp.2 0
      if veh ≠ 0 then
        rc.set (veh - 1) (rc.getD (veh - 1) 0 - (env.demand.getD cp.1 []).getD cp.2 0)
      else rc)
    env.capacity

/-- Solution.satellite_demand: boolean matrix of satellites × products.  The
Python writes `sat_demand[sp[veh] - 1][product]`; when `sp[veh] = 0` the
index -1 wraps to the LAST row (Python negative indexing), modelled here
explicitly. -/
def satellite_demand (env : Env) (s : Sol) : List (List Bool) :=
  (cp_pairs env).foldl
    (fun sd cp =>
      let veh := (s.product_delivery.getD cp.1 []).getD cp.2 0
      if veh ≠ 0 then
        let sp := s.starting_points.getD (veh - 1) 0
        let sat := if sp = 0 then env.satellite_nr - 1 else sp - 1
        sd.set sat ((sd.getD sat []).set cp.2 true)
      else sd)
    (List.replicate env.satellite_nr (List.replicate env.product_nr false))

/-- Solution.compute_first_echelon_indices: per depot, the depot index
followed by the first-echelon indices of the satellites it must serve. -/
def compute_first_echelon_indices (env : Env) (sat_demand : List (List Bool)) :
    List (List ℕ) :=
  (List.range env.product_nr).map (fun product =>
    product :: ((List.range env.satellite_nr).filter (fun sat =>
      (sat_demand.getD sat []).getD product false)).map (env.product_nr + ·))

/-- The per-depot body of the routing loop in
Solution.first_echelon_distances: distance contributed and route recorded.
In the `> 3` branch the solver's `⊤` cost cannot occur (the instance has
≥ 4 vertices), and `tsp = none` is unreachable there; junk values stand in. -/
def first_echelon_step (env : Env) (i : ℕ) (idx : List ℕ) : ℚ × List ℕ :=
  if idx.length = 2 then
    let tspdist := dget env.first_echelon (idx.getD 0 0) (idx.getD 1 0) * 2
    (tspdist, (([0, 1] : List ℕ).map (fun k => idx.getD k 0 - env.product_nr + 1)).set 0 i)
  else if idx.length = 3 then
    let tspdist := dget env.first_echelon (idx.getD 0 0) (idx.getD 1 0)
      + dget env.first_echelon (idx.getD 1 0) (idx.getD 2 0)
      + dget env.first_echelon (idx.getD 2 0) (idx.getD 0 0)
    (tspdist, (([0, 1, 2] : List ℕ).map (fun k => idx.getD k 0 - env.product_nr + 1)).set 0 i)
  else
    match tsp (make_submatrix env.first_echelon idx) with
    | some tc =>
      (tc.2.untop' 0, (tc.1.map (fun k => idx.getD k 0 - env.product_nr + 1)).set 0 i)
    | none => (0, [i])

/-- The body of the per-depot routing loop in
Solution.first_echelon_distances: distance accumulated and route appended
(the `else` arm is Python's `routes.append([i]); continue`). -/
def fed_body (env : Env) (sd : List (List Bool)) (acc : ℚ × List (List ℕ)) (i : ℕ) :
    ℚ × List (List ℕ) :=
  let idx := (compute_first_echelon_indices env sd).getD i []
  if idx.length > 1 then
    let st := first_echelon_step env i idx
    (acc.1 + st.1, acc.2 ++ [st.2])
  else (acc.1, acc.2 ++ [[i]])

/-- What the loop body adds to `dist` for depot `i`. -/
def fed_contrib (env : Env) (sd : List (List Bool)) (i : ℕ) : ℚ :=
  let idx := (compute_first_echelon_indices env sd).getD i []
  if idx.length > 1 then (first_echelon_step env i idx).1 else 0

/-- Solution.first_echelon_distances: lazily cached on the satellite-demand
matrix; on a miss, per-depot routing distances are accumulated and the cache
fields are refreshed. -/
def first_echelon_distances (env : Env) (s : Sol) : ℚ × Sol :=
  let curr_sat_demand := satellite_demand env s
  if s.sat_demand = some curr_sat_demand then (s.l1_distance, s)
  else
    let dr := (List.range env.product_nr).foldl (fed_body env curr_sat_demand) (0, [])
    (dr.1, { s with sat_demand := some curr_sat_demand, l1_routes := dr.2,
                    l1_distance := dr.1 })

/-- The satellites (as first-echelon indices, offset by the depot count) that
depot `product` must serve, read off a satellite-demand matrix;
`compute_first_echelon_indices` lists the depot itself followed by exactly
these. -/
def sats_serving (env : Env) (sd : List (List Bool)) (product : ℕ) : List ℕ :=
  ((List.range env.satellite_nr).filter (fun sat =>
    (sd.getD sat []).getD product false)).map (env.product_nr + ·)

/-- A depot's actual contribution to the first-echelon distance as a function
of the satellites it serves: nothing for 0 satellites, a round trip
2·d(depot, sat) for exactly 1, the depot–satellite–satellite triangle for
exactly 2, and the solver's tour cost over the depot-plus-satellites
submatrix for 3 or more. -/
def depot_contribution (env : Env) (depot : ℕ) (sats : List ℕ) : ℚ :=
  match sats with
  | [] => 0
  | [a] => 2 * dget env.first_echelon depot a
  | [a, b] => dget env.first_echelon depot a + dget env.first_echelon a b
      + dget env.first_echelon b depot
  | _ => ((tsp (make_submatrix env.first_echelon (depot :: sats))).map
      (fun tc => tc.2.untop' 0)).getD 0

/-- A depot's contribution as the claim words it: 0 satellites and exactly 1
satellite contribute 0; exactly 2 satellites contribute twice the distance
between the two satellites; exactly 3 the triangle among them; more than 3
the solver's tour cost over the depot-plus-satellites submatrix. -/
def claimed_depot_contribution (env : Env) (depot : ℕ) (sats : List ℕ) : ℚ :=
  match sats with
  | [] => 0
  | [_] => 0
  | [a, b] => 2 * dget env.first_echelon a b
  | [a, b, c] => dget env.first_echelon a b + dget env.first_echelon b c
      + dget env.first_echelon c a
  | _ => ((tsp (make_submatrix env.first_echelon (depot :: sats))).map
      (fun tc => tc.2.untop' 0)).getD 0

/-- The total first-echelon distance as the claim describes it. -/
def claimed_first_echelon_distance (env : Env) (s : Sol) : ℚ :=
  ((List.range env.product_nr).map (fun i =>
    claimed_depot_contribution env i
      (sats_serving env (satellite_demand env s) i))).sum

/-- The per-vehicle body of Solution.second_echelon_distances.  `none` models
the IndexErrors the Python can raise: reading a stale cache entry past the
end of `l2_distance`, or `serve_order[0]` for a used vehicle serving no
client.  The unchanged-cache short-circuit tests `self.starting_points > 0`,
a Python 2 comparison of a list against an int that is always True — kept
faithfully as no condition at all. -/
def second_echelon_veh (env : Env) (s : Sol) (cs : List (List ℕ)) (veh : ℕ) :
    Option ℚ :=
  if cs.getD veh [] = s.l2_clients.getD veh [] ∧ (cs.getD veh []).length > 0 then
    s.l2_distance.get? veh
  else if s.starting_points.getD veh 0 > 0 then
    let serve_order := (cs.getD veh []).map (fun client =>
      (client, (s.client_order.getD client []).getD veh 0))
    let sorted := sort_by (fun x y => decide (x.2 ≤ y.2)) serve_order
    match sorted with
    | [] => none
    | first :: _ =>
      let origin_index := s.starting_points.getD veh 0 - 1
      let between := (List.zip sorted sorted.tail).foldl
        (fun acc p => acc + dget env.second_echelon (p.1.1 + env.satellite_nr)
          (p.2.1 + env.satellite_nr)) 0
      some (dget env.second_echelon origin_index (first.1 + env.satellite_nr)
        + between
        + dget env.second_echelon ((sorted.getLastD (0, 0)).1 + env.satellite_nr) origin_index)
  else some 0

/-- Solution.second_echelon_distances: per-vehicle distances, cached on the
served-client sets. -/
def second_echelon_distances (env : Env) (s : Sol) : Option (List ℚ × Sol) :=
  let cs := clients_served_of env s.product_delivery
  match (List.range env.vehicle_nr).mapM (second_echelon_veh env s cs) with
  | none => none
  | some dist => some (dist, { s with l2_distance := dist, l2_clients := cs })

/-- Solution.first_echelon_cost (objective function 1). -/
def first_echelon_cost (env : Env) (s : Sol) : ℚ × Sol :=
  let ds := first_echelon_distances env s
  (ds.1 * env.l1_cpk, ds.2)

/-- Solution.second_echelon_cost (objective function 2). -/
def second_echelon_cost (env : Env) (s : Sol) : Option (ℚ × Sol) :=
  match second_echelon_distances env s with
  | none => none
  | some vs => some ((List.range env.vehicle_nr).foldl
      (fun acc veh => acc + vs.1.getD veh 0 * env.cost_per_km.getD veh 0) 0, vs.2)

/-- Solution.nr_vehicles_used (objective function 3): one first-echelon
vehicle per depot plus the second-echelon vehicles with a starting satellite. -/
def nr_vehicles_used (env : Env) (s : Sol) : ℕ :=
  env.product_nr +
    ((List.range env.vehicle_nr).filter (fun veh => s.starting_points.getD veh 0 > 0)).length

/-- Solution.total_emissions (objective function 4). -/
def total_emissions (env : Env) (s : Sol) : Option (ℚ × Sol) :=
  let ds := first_echelon_distances env s
  match second_echelon_distances env ds.2 with
  | none => none
  | some vs => some (ds.1 * env.l1_emissions + (List.range env.vehicle_nr).foldl
      (fun acc veh => acc + vs.1.getD veh 0 * env.emissions.getD veh 0) 0, vs.2)

/-- exhaustive.evaluate: the 4-tuple of fitness values, with the lazily
cached state threaded through the four objective functions. -/
def evaluate (env : Env) (s : Sol) : Option (List ℚ × Sol) :=
  let as1 := first_echelon_cost env s
  match second_echelon_cost env as1.2 with
  | none => none
  | some bs2 =>
    let c := nr_vehicles_used env bs2.2
    match total_emissions env bs2.2 with
    | none => none
    | some ds3 => some ([as1.1, bs2.1, (c : ℚ), ds3.1], ds3.2)

/-! ## solution.py : routing -/

/-- Solution.find_nearest_satellite: the satellite minimising the (combined)
distance to one or two clients; `none` models the NameError raised when no
satellite exists (`sat` unbound). -/
def find_nearest_satellite (env : Env) (clients_served : List ℕ) : Option ℕ :=
  let dist_to := fun (sat_index : ℕ) =>
    if clients_served.length = 1 then
      dget env.second_echelon (clients_served.getD 0 0 + env.satellite_nr) sat_index
    else
      dget env.second_echelon (clients_served.getD 0 0 + env.satellite_nr) sat_index
        + dget env.second_echelon (clients_served.getD 1 0 + env.satellite_nr) sat_index
  let best := (List.range env.satellite_nr).foldl
    (fun (acc : WithTop ℚ × Option ℕ) sat_index =>
      if ((dist_to sat_index : ℚ) : WithTop ℚ) < acc.1
      then (((dist_to sat_index : ℚ) : WithTop ℚ), some (sat_index + 1))
      else acc)
    (⊤, none)
  best.2

/-- Solution.min_distance_tour: optimal route over a fixed satellite plus the
served clients, or — when no satellite is fixed — over the best satellite
tried exhaustively.  `none` models the exceptions of the Python (tsp failing,
or `min_tour` left unbound). -/
def min_distance_tour (env : Env) (starting_point : ℕ) (clients_served : List ℕ) :
    Option (ℕ × List ℕ) :=
  let client_indices := clients_served.map (· + env.satellite_nr)
  if starting_point > 0 then
    match tsp (make_submatrix env.second_echelon ((starting_point - 1) :: client_indices)) with
    | none => none
    | some tc =>
      some (starting_point,
        (tc.1.filter (0 < ·)).map (fun i => clients_served.getD (i - 1) 0))
  else
    match (List.range env.satellite_nr).foldl
      (fun (acc : Option (WithTop ℚ × List ℕ × ℕ)) sat_index =>
        match acc with
        | none => none
        | some best =>
          match tsp (make_submatrix env.second_echelon (sat_index :: client_indices)) with
          | none => none
          | some tc =>
            if tc.2 < best.1 then some (tc.2, tc.1, sat_index + 1) else some best)
      (some (⊤, [], 0)) with
    | none => none
    | some best =>
      if best.2.2 = 0 then none
      else some (best.2.2, (best.2.1.filter (0 < ·)).map (fun i => clients_served.getD (i - 1) 0))

/-- The per-vehicle body of Solution.order_client_visits: recompute the
vehicle's route unless its served-client set is unchanged, nonempty, and the
vehicle has a starting satellite. -/
def order_client_visits_veh (env : Env) (s : Sol) (veh : ℕ) (veh_clients : List ℕ) :
    Option Sol :=
  if veh_clients = s.l2_clients.getD veh [] ∧ veh_clients.length > 0 ∧
      s.starting_points.getD veh 0 > 0 then
    some s
  else
    let co := (List.range env.client_nr).foldl
      (fun (co : List (List ℕ)) client => co.set client ((co.getD client []).set veh 0))
      s.client_order
    let sat_order : Option (ℕ × List ℕ) :=
      if veh_clients.length = 0 then some (0, [])
      else if veh_clients.length ≤ 2 then
        let so := sort_by (fun a b => decide (a ≤ b)) veh_clients
        if s.starting_points.getD veh 0 = 0 then
          match find_nearest_satellite env veh_clients with
          | none => none
          | some sat => some (sat, so)
        else some (s.starting_points.getD veh 0, so)
      else min_distance_tour env (s.starting_points.getD veh 0) veh_clients
    match sat_order with
    | none => none
    | some so =>
      let co2 := (List.enumFrom 1 so.2).foldl
        (fun (co : List (List ℕ)) p => co.set p.2 ((co.getD p.2 []).set veh p.1))
        co
      some { s with starting_points := s.starting_points.set veh so.1, client_order := co2 }

/-- Solution.order_client_visits: sets routing (starting satellites and
client visiting order) for every second-echelon vehicle. -/
def order_client_visits (env : Env) (s : Sol) (clients_served : List (List ℕ)) :
    Option Sol :=
  (clients_served.enum).foldl
    (fun acc p =>
      match acc with
      | none => none
      | some s => order_client_visits_veh env s p.1 p.2)
    (some s)

/-! ## solution.py : repair pipeline -/

/-- The `for product in range(product_nr)` loop inside Solution.limit_clients:
every product the excess client receives from the overloaded vehicle is
reassigned to a vehicle chosen from `available` (`none` models the
IndexError of `choice` on an empty list). -/
def limit_products (env : Env) (veh client : ℕ) (available : List ℕ) :
    List ℕ → Sol × List (List ℕ) × Rand → Option (Sol × List (List ℕ) × Rand)
  | [], st => some st
  | product :: rest, st =>
    let (s, cs, r) := st
    if (s.product_delivery.getD client []).getD product 0 = veh + 1 then
      match choice available r with
      | none => none
      | some (new_veh, r2) =>
        let s2 := { s with
          product_delivery := set2 s.product_delivery client product (new_veh + 1) }
        let cs2 := if (cs.getD new_veh []).contains client then cs
          else cs.set new_veh ((cs.getD new_veh []) ++ [client])
        limit_products env veh client available rest (s2, cs2, r2)
    else limit_products env veh client available rest st

/-- The `while len(clients_served[veh]) > max_nr` loop of
Solution.limit_clients for one vehicle.  Each iteration removes one client
from the vehicle, so the vehicle's current client count bounds the number of
iterations and serves as structural fuel. -/
def limit_one (env : Env) (max_nr veh : ℕ) :
    ℕ → Sol × List (List ℕ) × Rand → Option (Sol × List (List ℕ) × Rand)
  | 0, _ => none
  | fuelL + 1, (s, cs, r) =>
    if (cs.getD veh []).length > max_nr then
      match choice (cs.getD veh []) r with
      | none => none
      | some (client_to_remove, r2) =>
        let available := (List.range env.vehicle_nr).filter (fun ve =>
          decide (ve ≠ veh) &&
            (decide ((cs.getD ve []).length < max_nr) ||
              (cs.getD ve []).contains client_to_remove))
        match limit_products env veh client_to_remove available
            (List.range env.product_nr) (s, cs, r2) with
        | none => none
        | some (s2, cs2, r3) =>
          limit_one env max_nr veh fuelL
            (s2, cs2.set veh ((cs2.getD veh []).erase client_to_remove), r3)
    else some (s, cs, r)

/-- Solution.limit_clients: cap every vehicle at `max_nr` (12) served
clients. -/
def limit_clients (env : Env) (max_nr : ℕ) (s : Sol) (cs : List (List ℕ)) (r : Rand) :
    Option (Sol × List (List ℕ) × Rand) :=
  let too_many := (List.range env.vehicle_nr).filter
    (fun ve => decide ((cs.getD ve []).length > max_nr))
  too_many.foldl (fun acc veh =>
    match acc with
    | none => none
    | some (s, cs, r) => limit_one env max_nr veh ((cs.getD veh []).length) (s, cs, r))
    (some (s, cs, r))

/-- The body of the innermost reassignment in Solution.correct_overflow: one
`(client, product)` cell currently delivered by an over-capacity vehicle is
handed to the first vehicle in the shuffled eligible list that is already in
use (or any eligible vehicle from the third pass on), updating the served
lists, the remaining capacities and the overflow counter. -/
def overflow_step (env : Env) (i client product : ℕ)
    (st : Sol × List (List ℕ) × List ℤ × ℤ × Rand) :
    Sol × List (List ℕ) × List ℤ × ℤ × Rand :=
  let (s, cs, rc, overflow, r) := st
  let veh := (s.product_delivery.getD client []).getD product 0
  if veh ≠ 0 ∧ rc.getD (veh - 1) 0 < 0 then
    let dmd := (env.demand.getD client []).getD product 0
    let vehicle_list := (List.range env.vehicle_nr).filter (fun ve =>
      decide (rc.getD ve 0 ≥ dmd) &&
        (decide ((cs.getD ve []).length < 12) || (cs.getD ve []).contains client))
    let sh := shuffle vehicle_list r
    match sh.1.find? (fun k => decide (s.starting_points.getD k 0 > 0) || decide (i ≥ 2)) with
    | none => (s, cs, rc, overflow, sh.2)
    | some k =>
      let s2 := { s with product_delivery := set2 s.product_delivery client product (k + 1) }
      let cs2 := if (cs.getD k []).contains client then cs
        else cs.set k ((cs.getD k []) ++ [client])
      let cs3 := if (s2.product_delivery.getD client []).contains veh then cs2
        else cs2.set (veh - 1) ((cs2.getD (veh - 1) []).erase client)
      let rc2 := rc.set (veh - 1) (rc.getD (veh - 1) 0 + dmd)
      let rc3 := rc2.set k (rc2.getD k 0 - dmd)
      let overflow2 := if rc3.getD (veh - 1) 0 ≥ 0 then overflow - 1 else overflow
      (s2, cs3, rc3, overflow2, sh.2)
  else st

/-- One client of a correction pass: iterate the shuffled product list. -/
def overflow_client (env : Env) (i client : ℕ)
    (st : Sol × List (List ℕ) × List ℤ × ℤ × Rand) :
    Sol × List (List ℕ) × List ℤ × ℤ × Rand :=
  let (s, cs, rc, overflow, r) := st
  let sh := shuffle (List.range env.product_nr) r
  sh.1.foldl (fun st2 product => overflow_step env i client product st2)
    (s, cs, rc, overflow, sh.2)

/-- One full pass of Solution.correct_overflow over the shuffled client list. -/
def overflow_pass (env : Env) (i : ℕ) :
    List ℕ → Sol × List (List ℕ) × List ℤ × ℤ × Rand →
      Sol × List (List ℕ) × List ℤ × ℤ × Rand
  | [], st => st
  | client :: rest, st => overflow_pass env i rest (overflow_client env i client st)

/-- Signals of the chaotic-generation assignment loop: `retry` models the
`return cls.generate_chaos()` restart (carrying the oracle position), `crash`
an unreachable IndexError. -/
inductive GcErr
  | retry (r : Rand)
  | crash

/-- The client × product assignment loop of Solution.generate_chaos. -/
def chaos_assign (env : Env) :
    List (ℕ × ℕ) → Sol × List (List ℕ) × List ℕ × Rand →
      Except GcErr (Sol × List (List ℕ) × List ℕ × Rand)
  | [], st => .ok st
  | (client, product) :: rest, st =>
    let (sol, cs, available, r) := st
    if (env.demand.getD client []).getD product 0 > 0 then
      let refill : Except GcErr (Sol × List ℕ × Rand) :=
        if available.isEmpty ∧ sol.starting_points.contains 0 ∧
            sol.starting_points.sum > 0 then
          let remaining_vehicles := (List.range env.vehicle_nr).filter
            (fun ve => decide (sol.starting_points.getD ve 0 = 0))
          match choice remaining_vehicles r with
          | none => .error .crash
          | some (next_vehicle, r2) =>
            let sat_r := randint 1 env.satellite_nr r2
            .ok ({ sol with starting_points :=
                    sol.starting_points.set next_vehicle sat_r.1 },
                 available ++ [next_vehicle], sat_r.2)
        else if available.isEmpty then .error (.retry r)
        else .ok (sol, available, r)
      match refill with
      | .error e => .error e
      | .ok (sol2, available2, r2) =>
        match choice available2 r2 with
        | none => .error .crash
        | some (veh, r3) =>
          let sol3 := { sol2 with
            product_delivery := set2 sol2.product_delivery client product (veh + 1) }
          let cs2 := if (cs.getD veh []).contains client then cs
            else cs.set veh ((cs.getD veh []) ++ [client])
          let available3 := if (cs2.getD veh []).length = 12 then available2.erase veh
            else available2
          chaos_assign env rest (sol3, cs2, available3, r3)
    else chaos_assign env rest st

/-- The `while overflow > 0` loop of Solution.correct_overflow: passes of
random reassignment; if a pass past the second produced no capacity change,
the solution is abandoned and wholesale replaced by a fresh chaotic one
(log gains "Regenerated", caches reset, clients_served rebuilt).  `gcf` is
the chaotic-regeneration continuation (generate_chaos at the enclosing
fuel), keeping the recursion structural in the loop fuel. -/
def correct_overflow_loop_go (env : Env) (gcf : Rand → Option (Sol × Rand)) :
    ℕ → ℕ → Sol → List (List ℕ) → List ℤ → ℤ → Rand →
      Option (Sol × List (List ℕ) × Rand)
  | 0, _, s, cs, _, overflow, r =>
    if overflow > 0 then none else some (s, cs, r)
  | fuel + 1, i, s, cs, rc, overflow, r =>
    if overflow > 0 then
      let rc_old := rc
      let sh := shuffle (List.range env.client_nr) r
      let st := overflow_pass env i sh.1 (s, cs, rc, overflow, sh.2)
      let (s2, cs2, rc2, overflow2, r2) := st
      if i + 1 > 2 ∧ rc2 = rc_old then
        match gcf r2 with
        | none => none
        | some (sol, r3) =>
          let s3 : Sol :=
            { starting_points := sol.starting_points
              client_order := sol.client_order
              product_delivery := sol.product_delivery
              l1_distance := 0
              l1_routes := s2.l1_routes
              l2_distance := []
              l2_clients := sol.l2_clients
              sat_demand := none
              log := s2.log ++ ["Regenerated"] }
          some (s3, clients_served_of env s3.product_delivery, r3)
      else correct_overflow_loop_go env gcf fuel (i + 1) s2 cs2 rc2 overflow2 r2
    else some (s, cs, r)

/-- Solution.correct_overflow: count the over-capacity vehicles and run the
correction passes. -/
def correct_overflow_go (env : Env) (gcf : Rand → Option (Sol × Rand)) (fuel : ℕ)
    (s : Sol) (rc : List ℤ) (cs : List (List ℕ)) (r : Rand) :
    Option (Sol × List (List ℕ) × Rand) :=
  let overflow : ℤ :=
    (((List.range rc.length).filter (fun idx => decide (rc.getD idx 0 < 0))).length : ℤ)
  correct_overflow_loop_go env gcf fuel 0 s cs rc overflow r

/-- Solution.correct: the four-stage repair pipeline, parameterized by the
chaotic-regeneration continuation used by the anti-stall safeguard. -/
def correct_go (env : Env) (gcf : Rand → Option (Sol × Rand)) (fuel : ℕ)
    (s : Sol) (r : Rand) : Option (Sol × Rand) :=
  let cs := clients_served_of env s.product_delivery
  match limit_clients env 12 s cs r with
  | none => none
  | some (s2, cs2, r2) =>
    let rc := determine_overflow env s2
    match correct_overflow_go env gcf fuel s2 rc cs2 r2 with
    | none => none
    | some (s3, cs3, r3) =>
      match order_client_visits env s3 cs3 with
      | none => none
      | some s4 => some (s4, r3)

/-- Solution.generate_chaos: random starting satellites, random demand
assignment (with restart on dead ends), then full repair.  Fuel bounds the
restart/regeneration recursion; `none` means the fuel ran out or an
unreachable error fired. -/
def generate_chaos (env : Env) : ℕ → Rand → Option (Sol × Rand)
  | 0, _ => none
  | fuel + 1, r =>
    let init := (List.range env.vehicle_nr).foldl
      (fun (acc : Sol × List ℕ × Rand) veh =>
        let (sol, available, r) := acc
        let prob_r := randint 0 (max 4 env.vehicle_nr) r
        if prob_r.1 > 0 then
          let sat_r := randint 1 env.satellite_nr prob_r.2
          ({ sol with starting_points := sol.starting_points.set veh sat_r.1 },
           available ++ [veh], sat_r.2)
        else
          ({ sol with starting_points := sol.starting_points.set veh 0 },
           available, prob_r.2))
      (empty_solution env "Chaos", [], r)
    let available := if init.2.1.isEmpty then List.range env.vehicle_nr else init.2.1
    match chaos_assign env (cp_pairs env)
        (init.1, List.replicate env.vehicle_nr [], available, init.2.2) with
    | .error .crash => none
    | .error (.retry r2) => generate_chaos env fuel r2
    | .ok (sol2, _, _, r2) =>
      correct_go env (fun r' => generate_chaos env fuel r') (fuel + 1) sol2 r2

/-- Solution.correct with the regeneration continuation instantiated. -/
def correct (env : Env) (fuel : ℕ) (s : Sol) (r : Rand) : Option (Sol × Rand) :=
  correct_go env (fun r' => generate_chaos env fuel r') fuel s r

/-! ## solution.py : crossover -/

/-- One client of Solution.crossover: with probability 1/2
(randint(1,2) == 2), both children take the other parent's product-delivery
row for that client. -/
def cx_body (parent_1 parent_2 : Sol) (acc : (Sol × Sol) × Rand) (client : ℕ) :
    (Sol × Sol) × Rand :=
  let kr := randint 1 2 acc.2
  if kr.1 = 2 then
    ((({ acc.1.1 with product_delivery :=
          acc.1.1.product_delivery.set client (parent_2.product_delivery.getD client []) }),
      ({ acc.1.2 with product_delivery :=
          acc.1.2.product_delivery.set client (parent_1.product_delivery.getD client []) })),
     kr.2)
  else (acc.1, kr.2)

/-- Solution.crossover: the per-client swap loop over deep copies of the
parents. -/
def crossover (env : Env) (parent_1 parent_2 : Sol) (r : Rand) : (Sol × Sol) × Rand :=
  (List.range env.client_nr).foldl (cx_body parent_1 parent_2) ((parent_1, parent_2), r)

/-- Solution.cx_wrapper: crossover, install the children's product-delivery
matrices into the parents, repair both, log "Crossover". -/
def cx_wrapper (env : Env) (fuel : ℕ) (parent_1 parent_2 : Sol) (r : Rand) :
    Option (Sol × Sol × Rand) :=
  let ch := crossover env parent_1 parent_2 r
  let p1 := { parent_1 with product_delivery := ch.1.1.product_delivery }
  let p2 := { parent_2 with product_delivery := ch.1.2.product_delivery }
  match correct env fuel p1 ch.2 with
  | none => none
  | some (p1b, r2) =>
    match correct env fuel p2 r2 with
    | none => none
    | some (p2b, r3) =>
      some ({ p1b with log := p1b.log ++ ["Crossover"] },
            { p2b with log := p2b.log ++ ["Crossover"] }, r3)

/-! ## solution.py : mutation operators -/

/-- Solution.mut_switch_trucks (mutation method 1): swap two vehicles'
satellites and every product-delivery reference to them. -/
def mut_switch_trucks (env : Env) (s : Sol) (r : Rand) : Option (Sol × Rand) :=
  match choice (List.range env.vehicle_nr) r with
  | none => none
  | some (a, r2) =>
    match choice ((List.range env.vehicle_nr).erase a) r2 with
    | none => none
    | some (b, r3) =>
      let spa := s.starting_points.getD a 0
      let spb := s.starting_points.getD b 0
      let sp := (s.starting_points.set a spb).set b spa
      let pd := (cp_pairs env).foldl (fun pd cp =>
          let v := (pd.getD cp.1 []).getD cp.2 0
          if v = a + 1 then set2 pd cp.1 cp.2 (b + 1)
          else if v = b + 1 then set2 pd cp.1 cp.2 (a + 1)
          else pd)
        s.product_delivery
      some ({ s with
          starting_points := sp, product_delivery := pd,
          l2_clients := (s.l2_clients.set a []).set b [],
          log := s.log ++ ["Switch trucks"] }, r3)

/-- Solution.mut_switch_satellites (mutation method 2): swap the starting
satellites of two used vehicles, or randomize both if they coincide. -/
def mut_switch_satellites (env : Env) (s : Sol) (r : Rand) : Option (Sol × Rand) :=
  let veh_choices := (List.range env.vehicle_nr).filter
    (fun i => decide (s.starting_points.getD i 0 > 0))
  match choice veh_choices r with
  | none => none
  | some (a, r2) =>
    match choice (veh_choices.erase a) r2 with
    | none => none
    | some (b, r3) =>
      let spa := s.starting_points.getD a 0
      let spb := s.starting_points.getD b 0
      let spr :=
        if spa = spb then
          let ra := randint 1 env.satellite_nr r3
          let rb := randint 1 env.satellite_nr ra.2
          ((s.starting_points.set a ra.1).set b rb.1, rb.2)
        else ((s.starting_points.set a spb).set b spa, r3)
      some ({ s with
          starting_points := spr.1,
          l2_clients := (s.l2_clients.set a []).set b [],
          log := s.log ++ ["Switch satellites"] }, spr.2)

/-- Solution.mut_switch_products (mutation method 3): reassign one positive-
demand client-product cell to a different vehicle. -/
def mut_switch_products (env : Env) (s : Sol) (r : Rand) : Option (Sol × Rand) :=
  let cp_choices := (cp_pairs env).filter
    (fun cp => decide ((env.demand.getD cp.1 []).getD cp.2 0 > 0))
  match choice cp_choices r with
  | none => none
  | some (cp, r2) =>
    let veh_choices := ((List.range env.vehicle_nr).map (· + 1)).filter
      (fun v => decide (v ≠ (s.product_delivery.getD cp.1 []).getD cp.2 0))
    match choice veh_choices r2 with
    | none => none
    | some (veh, r3) =>
      some ({ s with
          product_delivery := set2 s.product_delivery cp.1 cp.2 veh,
          log := s.log ++ ["Switch products"] }, r3)

/-- Solution.mut_swap_clients (mutation method 4): hand one served client of
a random serving vehicle `a` to another vehicle `b` and vice versa for a
second (possibly unserved, possibly identical) client.  The retry loop that
redraws `a` until it serves someone is fuel-bounded. -/
def mut_swap_clients (env : Env) : ℕ → Sol → Rand → Option (Sol × Rand)
  | 0, _, _ => none
  | fuelW + 1, s, r =>
    let ar := randint 1 env.vehicle_nr r
    let a := ar.1
    let client_choices := (List.range env.client_nr).filter
      (fun cl => (s.product_delivery.getD cl []).contains a)
    if client_choices.length = 0 then mut_swap_clients env fuelW s ar.2
    else
      match choice (((List.range env.vehicle_nr).map (· + 1)).erase a) ar.2 with
      | none => none
      | some (b, r2) =>
        match choice client_choices r2 with
        | none => none
        | some (client_1, r3) =>
          let c2r := randint 0 (env.client_nr - 1) r3
          let client_2 := c2r.1
          let pd := (List.range env.product_nr).foldl (fun pd product =>
              let pd1 := if (pd.getD client_1 []).getD product 0 = a then
                  set2 pd client_1 product b
                else pd
              if (pd1.getD client_2 []).getD product 0 = b then
                set2 pd1 client_2 product a
              else pd1)
            s.product_delivery
          some ({ s with
              product_delivery := pd,
              log := s.log ++ ["Swap clients"] }, c2r.2)

/-- Solution.mut_centralize_client (mutation method 5): one vehicle takes
over every positive-demand product of a random client. -/
def mut_centralize_client (env : Env) (s : Sol) (r : Rand) : Option (Sol × Rand) :=
  let cr := randint 0 (env.client_nr - 1) r
  let vr := randint 1 env.vehicle_nr cr.2
  let pd := (List.range env.product_nr).foldl (fun pd product =>
      if (env.demand.getD cr.1 []).getD product 0 > 0 then
        set2 pd cr.1 product vr.1
      else pd)
    s.product_delivery
  some ({ s with
      product_delivery := pd,
      log := s.log ++ ["Centralize client"] }, vr.2)

/-- Solution.mutation_wrapper: dispatch on the operator id; anything outside
1..5 raises ValueError (`none`). -/
def mutation_wrapper (env : Env) (fuelW : ℕ) (mut_nr : ℕ) (s : Sol) (r : Rand) :
    Option (Sol × Rand) :=
  if mut_nr = 1 then mut_switch_trucks env s r
  else if mut_nr = 2 then mut_switch_satellites env s r
  else if mut_nr = 3 then mut_switch_products env s r
  else if mut_nr = 4 then mut_swap_clients env fuelW s r
  else if mut_nr = 5 then mut_centralize_client env s r
  else none

/-- Failure modes of Solution.mutation: `badIdx` is exactly the
`muts[i]` IndexError of the escalation loop; every other raised error or
fuel exhaustion is `fail`. -/
inductive MutErr
  | fail
  | badIdx
deriving Repr, DecidableEq

/-- The `while self == original` escalation loop of Solution.mutation:
keep applying the next shuffled operator while the solution still equals its
pre-mutation copy; running off the end of the 5-element list is the
out-of-bounds read. -/
def mutation_loop (env : Env) (fuelW : ℕ) (original : Sol) :
    List ℕ → Sol → Rand → Except MutErr (Sol × Rand × List ℕ)
  | [], s, r =>
    if solEq s original then .error .badIdx else .ok (s, r, [])
  | m :: rest', s, r =>
    if solEq s original then
      match mutation_wrapper env fuelW m s r with
      | none => .error .fail
      | some (s2, r2) => mutation_loop env fuelW original rest' s2 r2
    else .ok (s, r, m :: rest')

/-- The `for j in range(i, 5)` half of Solution.mutation: each remaining
operator is applied independently with probability 1/2. -/
def mutation_tail (env : Env) (fuelW : ℕ) :
    List ℕ → Sol → Rand → Option (Sol × Rand)
  | [], s, r => some (s, r)
  | m :: rest, s, r =>
    let kr := randint 1 2 r
    if kr.1 = 1 then
      match mutation_wrapper env fuelW m s kr.2 with
      | none => none
      | some (s2, r2) => mutation_tail env fuelW rest s2 r2
    else mutation_tail env fuelW rest s kr.2

/-- Solution.mutation: shuffle the five operator ids, apply the first, keep
escalating while nothing changed, apply each remaining operator with
probability 1/2, then repair once. -/
def mutation (env : Env) (fuel : ℕ) (s : Sol) (r : Rand) :
    Except MutErr (Sol × Rand) :=
  let sh := shuffle [1, 2, 3, 4, 5] r
  let muts := sh.1
  let original := s
  match mutation_wrapper env fuel (muts.getD 0 0) s sh.2 with
  | none => .error .fail
  | some (s1, r1) =>
    match mutation_loop env fuel original (muts.drop 1) s1 r1 with
    | .error e => .error e
    | .ok (s2, r2, rest) =>
      match mutation_tail env fuel rest s2 r2 with
      | none => .error .fail
      | some (s3, r3) =>
        match correct env fuel s3 r3 with
        | none => .error .fail
        | some (s4, r4) => .ok (s4, r4)

/-! ## Derived quantities used by the verified statements -/

/-- Total demand assigned to (1-based) vehicle `veh + 1` over every
client-product cell: the load the capacity constraint is about. -/
def vehicle_load (env : Env) (pd : List (List ℕ)) (veh : ℕ) : ℤ :=
  (cp_pairs env).foldl (fun acc cp =>
    if (pd.getD cp.1 []).getD cp.2 0 = veh + 1 then
      acc + (env.demand.getD cp.1 []).getD cp.2 0
    else acc) 0

/-- The distinct clients served by (0-based) vehicle `veh` under `pd`. -/
def clients_of (env : Env) (pd : List (List ℕ)) (veh : ℕ) : List ℕ :=
  (List.range env.client_nr).filter (fun cl => (pd.getD cl []).contains (veh + 1))

/-- Well-formed product-delivery dimensions (client_nr rows of product_nr). -/
def pd_dims (env : Env) (pd : List (List ℕ)) : Prop :=
  pd.length = env.client_nr ∧ ∀ row ∈ pd, row.length = env.product_nr

/-- The four fitness values as the specification's formulas read them off the
evaluated solution's state: first-echelon distance × cost per km, per-vehicle
second-echelon distance × cost per km summed, vehicles used (one per depot
plus the second-echelon vehicles with a nonzero starting satellite), and the
two echelons' distance × emissions summed. -/
def fitness_of (env : Env) (t : Sol) : List ℚ :=
  [t.l1_distance * env.l1_cpk,
   (List.range env.vehicle_nr).foldl
     (fun acc veh => acc + t.l2_distance.getD veh 0 * env.cost_per_km.getD veh 0) 0,
   ((nr_vehicles_used env t : ℕ) : ℚ),
   t.l1_distance * env.l1_emissions +
     (List.range env.vehicle_nr).foldl
       (fun acc veh => acc + t.l2_distance.getD veh 0 * env.emissions.getD veh 0) 0]

/-- All in-range demand cells are nonnegative (a well-formedness property of
parsed instances; out-of-range reads default to 0). -/
def nonneg_demand (env : Env) : Prop :=
  ∀ c, c < env.client_nr → ∀ p, p < env.product_nr →
    0 ≤ (env.demand.getD c []).getD p 0

/-- The repaired-solution invariant claim C3 is about: well-formed
product-delivery dimensions, every vehicle within capacity, and no vehicle
serving more than 12 distinct clients. -/
def sol_ok (env : Env) (pd : List (List ℕ)) : Prop :=
  pd_dims env pd ∧
  (∀ v, v < env.vehicle_nr → vehicle_load env pd v ≤ env.capacity.getD v 0) ∧
  (∀ v, v < env.vehicle_nr → (clients_of env pd v).length ≤ 12)

/-- The clients_served bookkeeping invariant carried through the repair: one
row per vehicle, rows hold client indices, and every client actually served
by a vehicle is listed in its row. -/
def cs_ok (env : Env) (pd cs : List (List ℕ)) : Prop :=
  cs.length = env.vehicle_nr ∧
  (∀ v c, c ∈ cs.getD v [] → c < env.client_nr) ∧
  (∀ v, v < env.vehicle_nr → ∀ c, c ∈ clients_of env pd v → c ∈ cs.getD v [])

/-- The bookkeeping invariant of the limit_clients stage: well-formed
dimensions, one clients_served row per vehicle holding client indices, and
every served client listed. -/
def lc_inv (env : Env) (pd cs : List (List ℕ)) : Prop :=
  pd_dims env pd ∧ cs.length = env.vehicle_nr ∧
  (∀ v c, c ∈ cs.getD v [] → c < env.client_nr) ∧
  (∀ v, v < env.vehicle_nr → ∀ c, c ∈ clients_of env pd v → c ∈ cs.getD v [])

/-- The full state invariant of the correct_overflow loop: bookkeeping rows
capped at 12, remaining capacity = capacity − load per vehicle, and the
overflow counter bounding the number of over-capacity vehicles from above. -/
def os_inv (env : Env) (s : Sol) (cs : List (List ℕ)) (rc : List ℤ) (ov : ℤ) : Prop :=
  pd_dims env s.product_delivery ∧
  cs_ok env s.product_delivery cs ∧
  (∀ v, (cs.getD v []).length ≤ 12) ∧
  rc.length = env.vehicle_nr ∧
  (∀ v, v < env.vehicle_nr →
    rc.getD v 0 = env.capacity.getD v 0 - vehicle_load env s.product_delivery v) ∧
  ((List.range env.vehicle_nr).map
    (fun i => if rc.getD i 0 < 0 then (1 : ℤ) else 0)).sum ≤ ov

/-! ## Instance-file construction used by the round-trip statements -/

/-- The per-vehicle arrays the parser is expected to produce: each declared
second-echelon vehicle type (capacity, cost per km, emissions, quantity)
expanded into quantity-many individual entries. -/
def expected_vehicle_data (l1cpk : ℚ) (l1e : ℤ) (vtypes : List (ℤ × ℚ × ℤ × ℕ)) :
    VehicleData :=
  { l2_capacity := vtypes.flatMap (fun t => List.replicate t.2.2.2 t.1)
    l2_cpk := vtypes.flatMap (fun t => List.replicate t.2.2.2 t.2.1)
    l2_emissions := vtypes.flatMap (fun t => List.replicate t.2.2.2 t.2.2.1)
    l1_cpk := l1cpk
    l1_emissions := l1e }

/-- A well-formed instance file (token table) built from the given data, laid
out as the code actually reads it: line 0 the three counts; the two distance
matrices with a leading label column (columns 1..n); the demand rows with NO
leading label (columns 0..depot_count-1); the first-echelon vehicle line
(columns 2 and 3); one line per second-echelon vehicle type (columns 1..4). -/
def instance_file (d s c : ℕ) (e1 e2 : List (List ℚ)) (dmd : List (List ℤ))
    (l1cpk : ℚ) (l1e : ℤ) (vtypes : List (ℤ × ℚ × ℤ × ℕ)) : List (List ℚ) :=
  [[(d : ℚ), (s : ℚ), (c : ℚ)]]
    ++ e1.map (fun row => (0 : ℚ) :: row)
    ++ e2.map (fun row => (0 : ℚ) :: row)
    ++ dmd.map (fun row => row.map (fun z => (Int.cast z : ℚ)))
    ++ [[0, 0, l1cpk, (l1e : ℚ)]]
    ++ vtypes.map (fun t => [0, (t.1 : ℚ), t.2.1, (t.2.2.1 : ℚ), (t.2.2.2 : ℚ)])

/-- The layout claimed by the specification, which differs from the code in
exactly one point: the demand matrix is said to occupy columns
1..depot_count of the demand lines (so each demand line carries a leading
label column, like the distance-matrix lines). -/
def spec_layout_instance_file (d s c : ℕ) (e1 e2 : List (List ℚ)) (dmd : List (List ℤ))
    (l1cpk : ℚ) (l1e : ℤ) (vtypes : List (ℤ × ℚ × ℤ × ℕ)) : List (List ℚ) :=
  [[(d : ℚ), (s : ℚ), (c : ℚ)]]
    ++ e1.map (fun row => (0 : ℚ) :: row)
    ++ e2.map (fun row => (0 : ℚ) :: row)
    ++ dmd.map (fun row => (0 : ℚ) :: row.map (fun z => (Int.cast z : ℚ)))
    ++ [[0, 0, l1cpk, (l1e : ℚ)]]
    ++ vtypes.map (fun t => [0, (t.1 : ℚ), t.2.1, (t.2.2.1 : ℚ), (t.2.2.2 : ℚ)])

/-! ## Concrete inputs used by the verified statements -/

/-- The id ↦ fitness map of the three-insertion scenario for update_front. -/
def front3_fitness (nn : ℕ) : List ℚ :=
  if nn = 1 then [1, 2, 2, 2] else if nn = 2 then [2, 1, 2, 2] else [1, 1, 1, 1]

/-- The front obtained by inserting solutions 1, 2, 3 into an empty front. -/
def front3 : List Entry :=
  update_front front3_fitness
    (update_front front3_fitness (update_front front3_fitness [] 1) 2) 3

/-- A symmetric 5-point distance matrix with finite off-diagonal entries (the
diagonal, `+∞` in the callers, is never read by the solver for n ≥ 2 and is
written as 0 here). -/
def tsp_bug_matrix : Mat :=
  [[0, 50, 50, 50, 50],
   [50, 0, 50, 2, 60],
   [50, 50, 0, 40, 60],
   [50, 2, 40, 0, 3],
   [50, 60, 60, 3, 0]]

/-- A one-depot, one-satellite, one-client, one-vehicle environment in which
the lone depot serves its single satellite at distance 5. -/
def envC4 : Env :=
  { capacity := [10]
    cost_per_km := [1]
    emissions := [1]
    l1_cpk := 1
    l1_emissions := 1
    demand := [[1]]
    first_echelon := [[0, 5], [5, 0]]
    second_echelon := [[0, 2], [2, 0]] }

/-- A fresh solution in `envC4`: the only client-product cell is served by
vehicle 1, which starts from satellite 1, so the depot must serve exactly
one satellite. -/
def solC4 : Sol :=
  { starting_points := [1]
    client_order := [[1]]
    product_delivery := [[1]]
    l1_distance := 0
    l1_routes := []
    l2_distance := []
    l2_clients := [[]]
    sat_demand := none
    log := [] }

/-- A one-depot, one-satellite, one-client, two-vehicle environment with
ample capacities. -/
def envC5 : Env :=
  { capacity := [5, 5]
    cost_per_km := [1, 1]
    emissions := [1, 1]
    l1_cpk := 1
    l1_emissions := 1
    demand := [[1]]
    first_echelon := [[0, 3], [3, 0]]
    second_echelon := [[0, 2], [2, 0]] }

/-- Crossover parent 1: vehicle 1 starts at satellite 1 and serves the lone
client. -/
def solC5p1 : Sol :=
  { starting_points := [1, 0]
    client_order := [[1, 0]]
    product_delivery := [[1]]
    l1_distance := 0
    l1_routes := []
    l2_distance := []
    l2_clients := [[], []]
    sat_demand := none
    log := [] }

/-- The state `evaluate envC5 solC5p1` returns: caches filled in (routing,
distances, satellite demand), everything else untouched. -/
def solC9out : Sol :=
  { starting_points := [1, 0]
    client_order := [[1, 0]]
    product_delivery := [[1]]
    l1_distance := 6
    l1_routes := [[0, 1]]
    l2_distance := [4, 0]
    l2_clients := [[0], []]
    sat_demand := some [[true]]
    log := [] }

/-- Crossover parent 2: vehicle 2 starts at satellite 1 and serves the lone
client. -/
def solC5p2 : Sol :=
  { starting_points := [0, 1]
    client_order := [[0, 1]]
    product_delivery := [[2]]
    l1_distance := 0
    l1_routes := []
    l2_distance := []
    l2_clients := [[], []]
    sat_demand := none
    log := [] }

end VRP

/-! # Verified statements -/

namespace VRP

attribute [local semireducible] Rat.add Rat.mul Rat.sub Rat.inv Rat.ofScientific

set_option maxRecDepth 100000

/-! ## Dominance (exhaustive.dominates) -/

theorem dominates_loop_iff :
    ∀ (A B : List ℚ), A.length = B.length → ∀ ne : Bool,
      (dominates_loop ne A B = true ↔
        (∀ i, i < A.length → A.getD i 0 ≤ B.getD i 0) ∧
          (ne = true ∨ ∃ i, i < A.length ∧ A.getD i 0 < B.getD i 0)) := by
  intro A
  induction A with
  | nil =>
    intro B hB ne
    have : B = [] := List.eq_nil_of_length_eq_zero hB.symm
    subst this
    simp [dominates_loop]
  | cons a A ih =>
    intro B hB ne
    match B, hB with
    | b :: B, hB =>
      have hlen : A.length = B.length := by simpa using hB
      simp only [dominates_loop]
      rcases lt_trichotomy a b with hab | hab | hab
      · rw [if_neg (by exact not_lt.mpr hab.le), if_pos hab, ih B hlen true]
        constructor
        · rintro ⟨h1, -⟩
          refine ⟨?_, Or.inr ⟨0, by simp, by simpa using hab⟩⟩
          intro i hi
          cases i with
          | zero => simpa using hab.le
          | succ j => simpa using h1 j (by simpa using hi)
        · rintro ⟨h1, -⟩
          refine ⟨?_, Or.inl rfl⟩
          intro j hj
          simpa using h1 (j + 1) (by simpa using hj)
      · subst hab
        rw [if_neg (lt_irrefl a), if_neg (lt_irrefl a), ih B hlen ne]
        constructor
        · rintro ⟨h1, h2⟩
          refine ⟨?_, ?_⟩
          · intro i hi
            cases i with
            | zero => simp
            | succ j => simpa using h1 j (by simpa using hi)
          · rcases h2 with h2 | ⟨i, hi, hlt⟩
            · exact Or.inl h2
            · exact Or.inr ⟨i + 1, by simpa using hi, by simpa using hlt⟩
        · rintro ⟨h1, h2⟩
          refine ⟨?_, ?_⟩
          · intro j hj
            simpa using h1 (j + 1) (by simpa using hj)
          · rcases h2 with h2 | ⟨i, hi, hlt⟩
            · exact Or.inl h2
            · cases i with
              | zero => simp at hlt
              | succ j => exact Or.inr ⟨j, by simpa using hi, by simpa using hlt⟩
      · rw [if_pos hab]
        constructor
        · intro h; cases h
        · rintro ⟨h1, -⟩
          exact absurd (h1 0 (by simp)) (by simpa using not_le.mpr hab)

theorem dominates_four_iff (a0 a1 a2 a3 b0 b1 b2 b3 : ℚ) :
    dominates [a0, a1, a2, a3] [b0, b1, b2, b3] = true ↔
      (a0 ≤ b0 ∧ a1 ≤ b1 ∧ a2 ≤ b2 ∧ a3 ≤ b3) ∧
        (a0 < b0 ∨ a1 < b1 ∨ a2 < b2 ∨ a3 < b3) := by
  rw [dominates, dominates_loop_iff _ _ (by simp) false]
  constructor
  · rintro ⟨h1, h2⟩
    rcases h2 with h2 | ⟨i, hi, hlt⟩
    · cases h2
    · refine ⟨⟨by simpa using h1 0 (by norm_num), by simpa using h1 1 (by norm_num),
        by simpa using h1 2 (by norm_num), by simpa using h1 3 (by norm_num)⟩, ?_⟩
      simp only [List.length_cons, List.length_nil] at hi
      interval_cases i <;> simp_all
  · rintro ⟨⟨g0, g1, g2, g3⟩, hd⟩
    refine ⟨?_, Or.inr ?_⟩
    · intro i hi
      simp only [List.length_cons, List.length_nil] at hi
      interval_cases i <;> simp_all
    · rcases hd with h | h | h | h
      exacts [⟨0, by norm_num, by simpa using h⟩, ⟨1, by norm_num, by simpa using h⟩,
        ⟨2, by norm_num, by simpa using h⟩, ⟨3, by norm_num, by simpa using h⟩]

/-- Claim C7: `dominates(A, B)` on 4-component fitness tuples is true exactly
when no component of A exceeds the corresponding component of B and at least
one is strictly smaller; consequently dominance is asymmetric and transitive
(a strict partial order). -/
theorem C7_dominates_strict_partial_order :
    (∀ a0 a1 a2 a3 b0 b1 b2 b3 : ℚ,
      dominates [a0, a1, a2, a3] [b0, b1, b2, b3] = true ↔
        (a0 ≤ b0 ∧ a1 ≤ b1 ∧ a2 ≤ b2 ∧ a3 ≤ b3) ∧
          (a0 < b0 ∨ a1 < b1 ∨ a2 < b2 ∨ a3 < b3)) ∧
    (∀ a0 a1 a2 a3 b0 b1 b2 b3 : ℚ,
      dominates [a0, a1, a2, a3] [b0, b1, b2, b3] = true →
        dominates [b0, b1, b2, b3] [a0, a1, a2, a3] = false) ∧
    (∀ a0 a1 a2 a3 b0 b1 b2 b3 c0 c1 c2 c3 : ℚ,
      dominates [a0, a1, a2, a3] [b0, b1, b2, b3] = true →
        dominates [b0, b1, b2, b3] [c0, c1, c2, c3] = true →
          dominates [a0, a1, a2, a3] [c0, c1, c2, c3] = true) := by
  refine ⟨dominates_four_iff, ?_, ?_⟩
  · intro a0 a1 a2 a3 b0 b1 b2 b3 hab
    obtain ⟨⟨l0, l1, l2, l3⟩, hstrict⟩ := (dominates_four_iff _ _ _ _ _ _ _ _).1 hab
    rw [Bool.eq_false_iff]
    intro hba
    obtain ⟨⟨m0, m1, m2, m3⟩, hstrict2⟩ := (dominates_four_iff _ _ _ _ _ _ _ _).1 hba
    rcases hstrict with h | h | h | h <;> linarith
  · intro a0 a1 a2 a3 b0 b1 b2 b3 c0 c1 c2 c3 hab hbc
    obtain ⟨⟨l0, l1, l2, l3⟩, hs1⟩ := (dominates_four_iff _ _ _ _ _ _ _ _).1 hab
    obtain ⟨⟨m0, m1, m2, m3⟩, -⟩ := (dominates_four_iff _ _ _ _ _ _ _ _).1 hbc
    refine (dominates_four_iff _ _ _ _ _ _ _ _).2
      ⟨⟨by linarith, by linarith, by linarith, by linarith⟩, ?_⟩
    rcases hs1 with h | h | h | h
    · exact Or.inl (by linarith)
    · exact Or.inr (Or.inl (by linarith))
    · exact Or.inr (Or.inr (Or.inl (by linarith)))
    · exact Or.inr (Or.inr (Or.inr (by linarith)))

theorem C7_witness :
    dominates [(1 : ℚ), 1, 1, 1] [2, 2, 2, 2] = true ∧
    dominates [(2 : ℚ), 2, 2, 2] [1, 1, 1, 1] = false ∧
    dominates [(1 : ℚ), 1, 1, 1] [3, 3, 3, 3] = true :=
  ⟨by decide,
   C7_dominates_strict_partial_order.2.1 1 1 1 1 2 2 2 2 (by decide),
   C7_dominates_strict_partial_order.2.2 1 1 1 1 2 2 2 2 3 3 3 3 (by decide) (by decide)⟩

/-! ## Mixed-radix counter (exhaustive.next_combo) -/

theorem next_combo_spec :
    ∀ (cur maxv minv : List ℤ),
      cur.length = maxv.length → cur.length = minv.length →
      (∀ i, i < cur.length → minv.getD i 0 ≤ cur.getD i 0 ∧ cur.getD i 0 ≤ maxv.getD i 0) →
      (next_combo cur maxv minv = none ↔ cur = maxv) ∧
      (∀ out, next_combo cur maxv minv = some out →
        ∃ p, p < cur.length ∧ cur.getD p 0 < maxv.getD p 0 ∧
          (∀ j, p < j → j < cur.length → cur.getD j 0 = maxv.getD j 0) ∧
          out = cur.take p ++ (cur.getD p 0 + 1) :: minv.drop (p + 1)) := by
  intro cur
  induction cur with
  | nil =>
    intro maxv minv h1 h2 _
    have hm : maxv = [] := List.eq_nil_of_length_eq_zero h1.symm
    have hn : minv = [] := List.eq_nil_of_length_eq_zero h2.symm
    subst hm; subst hn
    refine ⟨by simp [next_combo], ?_⟩
    intro out hout
    simp [next_combo] at hout
  | cons c cs ih =>
    intro maxv minv h1 h2 hb
    match maxv, minv, h1, h2 with
    | m :: ms, mn :: ns, h1, h2 =>
      have hlen1 : cs.length = ms.length := by simpa using h1
      have hlen2 : cs.length = ns.length := by simpa using h2
      have hbs : ∀ i, i < cs.length → ns.getD i 0 ≤ cs.getD i 0 ∧ cs.getD i 0 ≤ ms.getD i 0 := by
        intro i hi
        simpa using hb (i + 1) (by simpa using hi)
      obtain ⟨ihn, ihs⟩ := ih ms ns hlen1 hlen2 hbs
      rcases hnc : next_combo cs ms ns with _ | rest
      · have hcs : cs = ms := ihn.1 hnc
        by_cases hcm : c < m
        · have heq : next_combo (c :: cs) (m :: ms) (mn :: ns) = some ((c + 1) :: ns) := by
            simp only [next_combo, hnc]
            rw [if_pos hcm]
          refine ⟨?_, ?_⟩
          · rw [heq]
            constructor
            · intro h; cases h
            · intro hEq
              injection hEq with hc hcs2
              exact absurd hc (ne_of_lt hcm)
          · intro out hout
            rw [heq] at hout
            have hout2 : out = (c + 1) :: ns := by
              injection hout with h
              exact h.symm
            subst hout2
            refine ⟨0, by simp, by simpa using hcm, ?_, by simp⟩
            intro j hj0 hjlen
            match j, hj0 with
            | j + 1, _ =>
              have := congrArg (fun l => List.getD l j (0 : ℤ)) hcs
              simpa using this
        · have hc_le := (hb 0 (by simp)).2
          have hcm2 : c = m := le_antisymm (by simpa using hc_le) (not_lt.mp hcm)
          have heq : next_combo (c :: cs) (m :: ms) (mn :: ns) = none := by
            simp only [next_combo, hnc]
            rw [if_neg hcm]
          refine ⟨?_, ?_⟩
          · rw [heq]
            simp [hcm2, hcs]
          · intro out hout
            rw [heq] at hout
            cases hout
      · have heq : next_combo (c :: cs) (m :: ms) (mn :: ns) = some (c :: rest) := by
          simp only [next_combo, hnc]
        refine ⟨?_, ?_⟩
        · rw [heq]
          constructor
          · intro h; cases h
          · intro hEq
            injection hEq with hc hcs
            have := ihn.2 hcs
            rw [hnc] at this
            cases this
        · intro out hout
          rw [heq] at hout
          have hout2 : out = c :: rest := by
            injection hout with h
            exact h.symm
          subst hout2
          obtain ⟨p, hp, hlt, hmax, hrest⟩ := ihs rest hnc
          refine ⟨p + 1, by simpa using hp, by simpa using hlt, ?_, ?_⟩
          · intro j hj0 hjlen
            match j, hj0 with
            | j + 1, hj0 =>
              simpa using hmax j (by omega) (by simpa using hjlen)
          · simp only [List.take_succ_cons, List.drop_succ_cons, List.getD_cons_succ]
            simp [hrest]

/-- Claim C8: next_combo increments the rightmost position below its maximum,
resets every position to its right to that position's minimum, and signals
exhaustion (`none`, the NoMoreCombosError) exactly when every position is at
its maximum; for bounds min = [0,0], max = [1,2] the successive values from
[0,0] are [0,1], [0,2], [1,0], [1,1], [1,2] and then exhaustion. -/
theorem C8_next_combo_mixed_radix :
    (∀ (cur maxv minv : List ℤ),
      cur.length = maxv.length → cur.length = minv.length →
      (∀ i, i < cur.length → minv.getD i 0 ≤ cur.getD i 0 ∧ cur.getD i 0 ≤ maxv.getD i 0) →
      (next_combo cur maxv minv = none ↔ cur = maxv) ∧
      (∀ out, next_combo cur maxv minv = some out →
        ∃ p, p < cur.length ∧ cur.getD p 0 < maxv.getD p 0 ∧
          (∀ j, p < j → j < cur.length → cur.getD j 0 = maxv.getD j 0) ∧
          out = cur.take p ++ (cur.getD p 0 + 1) :: minv.drop (p + 1))) ∧
    (next_combo [0, 0] [1, 2] [0, 0] = some [0, 1] ∧
     next_combo [0, 1] [1, 2] [0, 0] = some [0, 2] ∧
     next_combo [0, 2] [1, 2] [0, 0] = some [1, 0] ∧
     next_combo [1, 0] [1, 2] [0, 0] = some [1, 1] ∧
     next_combo [1, 1] [1, 2] [0, 0] = some [1, 2] ∧
     next_combo [1, 2] [1, 2] [0, 0] = none) :=
  ⟨next_combo_spec, by decide, by decide, by decide, by decide, by decide, by decide⟩

theorem C8_witness :
    (next_combo [0, 2] [1, 2] [0, 0] = none ↔ ([0, 2] : List ℤ) = [1, 2]) ∧
    next_combo [1, 2] [1, 2] [0, 0] = none :=
  ⟨(C8_next_combo_mixed_radix.1 [0, 2] [1, 2] [0, 0] rfl rfl (by decide)).1,
   C8_next_combo_mixed_radix.2.2.2.2.2.2⟩

/-! ## Instance parsing (dataprocess.obtain_input_data) -/

theorem getD_cons_one_add {α : Type} (a : α) (l : List α) (k : ℕ) (d : α) :
    (a :: l).getD (1 + k) d = l.getD k d := by
  rw [Nat.add_comm]
  exact List.getD_cons_succ

theorem range_map_getD {α : Type} (l : List α) (dflt : α) :
    (List.range l.length).map (fun i => l.getD i dflt) = l := by
  induction l with
  | nil => simp
  | cons a l ih =>
    rw [List.length_cons, List.range_succ_eq_map, List.map_cons, List.map_map]
    refine congrArg₂ _ (by simp) ?_
    rw [show ((fun i => (a :: l).getD i dflt) ∘ Nat.succ) = (fun i => l.getD i dflt) from ?_, ih]
    funext i
    simp [Function.comp]

theorem range_map_getD_of_length {α : Type} (n : ℕ) (l : List α) (dflt : α)
    (h : l.length = n) : (List.range n).map (fun i => l.getD i dflt) = l := by
  subst h
  exact range_map_getD l dflt

theorem getD_mem_of_lt {α : Type} (l : List α) (x : ℕ) (d : α) (h : x < l.length) :
    l.getD x d ∈ l := by
  rw [List.getD_eq_getElem _ _ h]
  exact List.getElem_mem _

theorem getD_append_full {α : Type} (A B : List α) (dflt : α) (x : ℕ) :
    (A ++ B).getD (A.length + x) dflt = B.getD x dflt := by
  rw [List.getD_append_right _ _ _ _ (Nat.le_add_right _ _)]
  congr 1
  omega

theorem drop_append_add {α : Type} (A B : List α) (x : ℕ) :
    (A ++ B).drop (A.length + x) = B.drop x := by
  induction A with
  | nil => simp
  | cons a A ih =>
    rw [List.cons_append, List.length_cons,
      show A.length + 1 + x = (A.length + x) + 1 from by omega, List.drop_succ_cons, ih]

theorem getD_skip1 {α : Type} (h : α) (A B : List α) (dflt : α) (n x : ℕ)
    (hA : A.length = n) :
    (h :: (A ++ B)).getD (1 + n + x) dflt = B.getD x dflt := by
  subst hA
  rw [show 1 + A.length + x = (A.length + x) + 1 from by omega, List.getD_cons_succ,
    getD_append_full]

theorem getD_skip2 {α : Type} (h : α) (A B C : List α) (dflt : α) (n m x : ℕ)
    (hA : A.length = n) (hB : B.length = m) :
    (h :: (A ++ (B ++ C))).getD (1 + n + m + x) dflt = C.getD x dflt := by
  subst hA
  subst hB
  rw [show 1 + A.length + B.length + x = (A.length + (B.length + x)) + 1 from by omega,
    List.getD_cons_succ, getD_append_full, getD_append_full]

theorem getD_skip3_head {α : Type} (h : α) (A B C : List α) (lrow : α) (V : List α)
    (dflt : α) (n m k : ℕ)
    (hA : A.length = n) (hB : B.length = m) (hC : C.length = k) :
    (h :: (A ++ (B ++ (C ++ ([lrow] ++ V))))).getD (1 + n + m + k) dflt = lrow := by
  subst hA
  subst hB
  subst hC
  rw [show 1 + A.length + B.length + C.length
      = (A.length + (B.length + (C.length + 0))) + 1 from by omega,
    List.getD_cons_succ, getD_append_full, getD_append_full, getD_append_full]
  rfl

theorem drop_skip {α : Type} (h : α) (A B C : List α) (lrow : α) (V : List α) (n m k : ℕ)
    (hA : A.length = n) (hB : B.length = m) (hC : C.length = k) :
    (h :: (A ++ (B ++ (C ++ ([lrow] ++ V))))).drop (1 + n + m + k + 1) = V := by
  subst hA
  subst hB
  subst hC
  rw [show 1 + A.length + B.length + C.length + 1
      = (A.length + (B.length + (C.length + 1))) + 1 from by omega,
    List.drop_succ_cons, drop_append_add, drop_append_add, drop_append_add]
  simp

theorem flatMap_vt {β : Type} (vtypes : List (ℤ × ℚ × ℤ × ℕ)) (g : List ℚ → List β)
    (f : ℤ × ℚ × ℤ × ℕ → List β)
    (h : ∀ t : ℤ × ℚ × ℤ × ℕ,
      g [0, (t.1 : ℚ), t.2.1, (t.2.2.1 : ℚ), (t.2.2.2 : ℚ)] = f t) :
    (vtypes.map (fun t =>
      [0, (t.1 : ℚ), t.2.1, (t.2.2.1 : ℚ), (t.2.2.2 : ℚ)])).flatMap g
      = vtypes.flatMap f := by
  induction vtypes with
  | nil => rfl
  | cons t ts ih => rw [List.map_cons, List.flatMap_cons, List.flatMap_cons, h, ih]

theorem extract_square (orig : List (List ℚ)) (rest : List (List ℚ)) (n : ℕ)
    (hlen : orig.length = n) (hrow : ∀ row ∈ orig, row.length = n) :
    (List.range n).map (fun x => (List.range n).map (fun y =>
      ((orig.map (fun row => (0 : ℚ) :: row) ++ rest).getD x []).getD (1 + y) 0)) = orig := by
  subst hlen
  have hx : ∀ x, x < orig.length →
      (orig.map (fun row => (0 : ℚ) :: row) ++ rest).getD x [] = (0 : ℚ) :: orig.getD x [] := by
    intro x hxlt
    rw [List.getD_append _ _ _ _ (by simpa using hxlt),
        List.getD_eq_getElem _ _ (by simpa using hxlt), List.getElem_map,
        List.getD_eq_getElem _ _ hxlt]
  have hcong : ∀ x ∈ List.range orig.length,
      (List.range orig.length).map (fun y =>
        ((orig.map (fun row => (0 : ℚ) :: row) ++ rest).getD x []).getD (1 + y) 0) =
        orig.getD x [] := by
    intro x hxr
    have hxlt : x < orig.length := List.mem_range.mp hxr
    rw [hx x hxlt]
    simp only [getD_cons_one_add]
    exact range_map_getD_of_length _ _ _ (hrow _ (getD_mem_of_lt _ _ _ hxlt))
  rw [List.map_congr_left hcong]
  exact range_map_getD orig []

theorem extract_demand (dmd : List (List ℤ)) (rest : List (List ℚ)) (c d : ℕ)
    (hlen : dmd.length = c) (hrow : ∀ row ∈ dmd, row.length = d) :
    (List.range c).map (fun x => (List.range d).map (fun y =>
      ⌊((dmd.map (fun row => row.map (fun z => (Int.cast z : ℚ))) ++ rest).getD x []).getD y 0⌋)) =
      dmd := by
  subst hlen
  have hx : ∀ x, x < dmd.length →
      (dmd.map (fun row => row.map (fun z => (Int.cast z : ℚ))) ++ rest).getD x [] =
        (dmd.getD x []).map (fun z => (Int.cast z : ℚ)) := by
    intro x hxlt
    rw [List.getD_append _ _ _ _ (by simpa using hxlt),
        List.getD_eq_getElem _ _ (by simpa using hxlt), List.getElem_map,
        List.getD_eq_getElem _ _ hxlt]
  have hcong : ∀ x ∈ List.range dmd.length,
      (List.range d).map (fun y =>
        ⌊((dmd.map (fun row => row.map (fun z => (Int.cast z : ℚ))) ++ rest).getD x []).getD y 0⌋) =
        dmd.getD x [] := by
    intro x hxr
    have hxlt : x < dmd.length := List.mem_range.mp hxr
    rw [hx x hxlt]
    have hrlen : (dmd.getD x []).length = d := hrow _ (getD_mem_of_lt _ _ _ hxlt)
    have hinner : ∀ y ∈ List.range d,
        ⌊((dmd.getD x []).map (fun z => (Int.cast z : ℚ))).getD y 0⌋ = (dmd.getD x []).getD y 0 := by
      intro y hyr
      have hylt : y < (dmd.getD x []).length := hrlen ▸ List.mem_range.mp hyr
      rw [List.getD_eq_getElem _ _ (by simpa using hylt), List.getElem_map,
          List.getD_eq_getElem _ _ hylt, Int.floor_intCast]
    rw [List.map_congr_left hinner]
    exact range_map_getD_of_length _ _ _ hrlen
  rw [List.map_congr_left hcong]
  exact range_map_getD dmd []

theorem extract_square_deep (orig : List (List ℚ)) (head : List ℚ)
    (A rest : List (List ℚ)) (n j : ℕ) (hA : A.length = j)
    (hlen : orig.length = n) (hrow : ∀ row ∈ orig, row.length = n) :
    (List.range n).map (fun x => (List.range n).map (fun y =>
      ((head :: (A ++ (orig.map (fun row => (0 : ℚ) :: row) ++ rest))).getD
        (1 + j + x) []).getD (1 + y) 0)) = orig := by
  have hrw : ∀ x : ℕ,
      (head :: (A ++ (orig.map (fun row => (0 : ℚ) :: row) ++ rest))).getD (1 + j + x) []
        = (orig.map (fun row => (0 : ℚ) :: row) ++ rest).getD x [] :=
    fun x => getD_skip1 head A _ [] j x hA
  simp only [hrw]
  exact extract_square orig rest n hlen hrow

theorem extract_demand_deep (dmd : List (List ℤ)) (head : List ℚ)
    (A B rest : List (List ℚ)) (c d n m : ℕ)
    (hA : A.length = n) (hB : B.length = m)
    (hlen : dmd.length = c) (hrow : ∀ row ∈ dmd, row.length = d) :
    (List.range c).map (fun x => (List.range d).map (fun y =>
      ⌊((head :: (A ++ (B ++
          (dmd.map (fun row => row.map (fun z => (Int.cast z : ℚ))) ++ rest)))).getD
        (1 + n + m + x) []).getD y 0⌋)) = dmd := by
  have hrw : ∀ x : ℕ,
      (head :: (A ++ (B ++
          (dmd.map (fun row => row.map (fun z => (Int.cast z : ℚ))) ++ rest)))).getD
        (1 + n + m + x) []
        = (dmd.map (fun row => row.map (fun z => (Int.cast z : ℚ))) ++ rest).getD x [] :=
    fun x => getD_skip2 head A B _ [] n m x hA hB
  simp only [hrw]
  exact extract_demand dmd rest c d hlen hrow

/-- Claim C6 counterexample: on a minimal well-formed file laid out per the
specification's description — demand occupying columns 1..depot_count (a
leading label column on the demand lines) — `obtain_input_data` does not
reproduce the demand matrix used to construct the file: the code reads
columns 0..depot_count-1. -/
theorem C6_counterexample :
    (obtain_input_data (spec_layout_instance_file 1 2 2
        [[0, 1, 2], [1, 0, 3], [2, 3, 0]]
        [[0, 4, 5, 6], [4, 0, 7, 8], [5, 7, 0, 9], [6, 8, 9, 0]]
        [[7], [9]] (5/2) 3 [(10, 7/2, 2, 2)])).2.2.1 = [[0], [0]] ∧
    ([[0], [0]] : List (List ℤ)) ≠ [[7], [9]] :=
  ⟨by decide, by decide⟩

/-- Claim C6 as amended: for every well-formed instance file laid out as the
code reads it — in particular with the demand matrix occupying columns
0..depot_count-1 of the demand lines (no leading label there) —
obtain_input_data returns exactly the first-echelon distance matrix,
second-echelon distance matrix, demand matrix and vehicle data used to
construct the file, each declared second-echelon vehicle type expanded into
quantity-many per-vehicle entries of capacity, cost per km and emissions. -/
theorem C6_roundtrip (d s c : ℕ) (e1 e2 : List (List ℚ)) (dmd : List (List ℤ))
    (l1cpk : ℚ) (l1e : ℤ) (vtypes : List (ℤ × ℚ × ℤ × ℕ))
    (he1 : e1.length = d + s) (he1r : ∀ row ∈ e1, row.length = d + s)
    (he2 : e2.length = s + c) (he2r : ∀ row ∈ e2, row.length = s + c)
    (hdm : dmd.length = c) (hdr : ∀ row ∈ dmd, row.length = d) :
    obtain_input_data (instance_file d s c e1 e2 dmd l1cpk l1e vtypes) =
      (e1, e2, dmd, expected_vehicle_data l1cpk l1e vtypes) := by
  have hdata : instance_file d s c e1 e2 dmd l1cpk l1e vtypes =
      [(d : ℚ), (s : ℚ), (c : ℚ)] ::
        (e1.map (fun row => (0 : ℚ) :: row) ++
          (e2.map (fun row => (0 : ℚ) :: row) ++
            (dmd.map (fun row => row.map (fun z => (Int.cast z : ℚ))) ++
              ([[0, 0, l1cpk, (l1e : ℚ)]] ++
                vtypes.map (fun t =>
                  [0, (t.1 : ℚ), t.2.1, (t.2.2.1 : ℚ), (t.2.2.2 : ℚ)]))))) := by
    simp [instance_file, List.append_assoc]
  rw [hdata]
  unfold obtain_input_data
  simp only [List.getD_cons_zero, List.getD_cons_succ, getD_cons_one_add,
    Int.floor_natCast, Int.toNat_natCast]
  have hA : (e1.map (fun row => (0 : ℚ) :: row)).length = d + s := by
    rw [List.length_map, he1]
  have hB : (e2.map (fun row => (0 : ℚ) :: row)).length = s + c := by
    rw [List.length_map, he2]
  have hC : (dmd.map (fun row => row.map (fun z => (Int.cast z : ℚ)))).length = c := by
    rw [List.length_map, hdm]
  simp only [Prod.mk.injEq]
  refine ⟨?_, ?_, ?_, ?_⟩
  · exact extract_square e1 _ (d + s) he1 he1r
  · exact extract_square_deep e2 _ _ _ (s + c) (d + s) hA he2 he2r
  · exact extract_demand_deep dmd _ _ _ _ c d (d + s) (s + c) hA hB hdm hdr
  · rw [drop_skip _ _ _ _ _ _ (d + s) (s + c) c hA hB hC,
      getD_skip3_head _ _ _ _ _ _ _ (d + s) (s + c) c hA hB hC]
    unfold expected_vehicle_data
    simp only [VehicleData.mk.injEq]
    refine ⟨?_, ?_, ?_, rfl, ?_⟩
    · refine flatMap_vt vtypes _ _ ?_
      intro t
      show List.replicate
          (⌊([0, (t.1 : ℚ), t.2.1, (t.2.2.1 : ℚ), (t.2.2.2 : ℚ)].getD 4 0)⌋).toNat
          ⌊([0, (t.1 : ℚ), t.2.1, (t.2.2.1 : ℚ), (t.2.2.2 : ℚ)].getD 1 0)⌋
        = List.replicate t.2.2.2 t.1
      rw [show ([0, (t.1 : ℚ), t.2.1, (t.2.2.1 : ℚ), (t.2.2.2 : ℚ)].getD 4 0)
          = (t.2.2.2 : ℚ) from rfl,
        show ([0, (t.1 : ℚ), t.2.1, (t.2.2.1 : ℚ), (t.2.2.2 : ℚ)].getD 1 0)
          = (t.1 : ℚ) from rfl,
        Int.floor_natCast, Int.toNat_natCast, Int.floor_intCast]
    · refine flatMap_vt vtypes _ _ ?_
      intro t
      show List.replicate
          (⌊([0, (t.1 : ℚ), t.2.1, (t.2.2.1 : ℚ), (t.2.2.2 : ℚ)].getD 4 0)⌋).toNat
          ([0, (t.1 : ℚ), t.2.1, (t.2.2.1 : ℚ), (t.2.2.2 : ℚ)].getD 2 0)
        = List.replicate t.2.2.2 t.2.1
      rw [show ([0, (t.1 : ℚ), t.2.1, (t.2.2.1 : ℚ), (t.2.2.2 : ℚ)].getD 4 0)
          = (t.2.2.2 : ℚ) from rfl,
        show ([0, (t.1 : ℚ), t.2.1, (t.2.2.1 : ℚ), (t.2.2.2 : ℚ)].getD 2 0)
          = t.2.1 from rfl,
        Int.floor_natCast, Int.toNat_natCast]
    · refine flatMap_vt vtypes _ _ ?_
      intro t
      show List.replicate
          (⌊([0, (t.1 : ℚ), t.2.1, (t.2.2.1 : ℚ), (t.2.2.2 : ℚ)].getD 4 0)⌋).toNat
          ⌊([0, (t.1 : ℚ), t.2.1, (t.2.2.1 : ℚ), (t.2.2.2 : ℚ)].getD 3 0)⌋
        = List.replicate t.2.2.2 t.2.2.1
      rw [show ([0, (t.1 : ℚ), t.2.1, (t.2.2.1 : ℚ), (t.2.2.2 : ℚ)].getD 4 0)
          = (t.2.2.2 : ℚ) from rfl,
        show ([0, (t.1 : ℚ), t.2.1, (t.2.2.1 : ℚ), (t.2.2.2 : ℚ)].getD 3 0)
          = (t.2.2.1 : ℚ) from rfl,
        Int.floor_natCast, Int.toNat_natCast, Int.floor_intCast]
    · rw [show ([0, 0, l1cpk, (l1e : ℚ)].getD 3 0) = (l1e : ℚ) from rfl, Int.floor_intCast]

theorem C6_witness :
    obtain_input_data (instance_file 1 2 2
        [[0, 1, 2], [1, 0, 3], [2, 3, 0]]
        [[0, 4, 5, 6], [4, 0, 7, 8], [5, 7, 0, 9], [6, 8, 9, 0]]
        [[7], [9]] (5/2) 3 [(10, 7/2, 2, 2)]) =
      ([[0, 1, 2], [1, 0, 3], [2, 3, 0]],
       [[0, 4, 5, 6], [4, 0, 7, 8], [5, 7, 0, 9], [6, 8, 9, 0]],
       [[7], [9]],
       expected_vehicle_data (5/2) 3 [(10, 7/2, 2, 2)]) :=
  C6_roundtrip 1 2 2 _ _ _ _ _ _ (by decide) (by decide) (by decide) (by decide)
    (by decide) (by decide)

/-! ## First-echelon routing (Solution.first_echelon_distances) -/

theorem getD_range_map {α : Type} (n : ℕ) (f : ℕ → α) (dflt : α) (i : ℕ) (h : i < n) :
    ((List.range n).map f).getD i dflt = f i := by
  rw [List.getD_eq_getElem _ _ (by simpa using h)]
  simp

theorem foldl_fst_add {β : Type} (F : ℚ × β → ℕ → ℚ × β) (g : ℕ → ℚ)
    (hF : ∀ acc i, (F acc i).1 = acc.1 + g i) :
    ∀ (l : List ℕ) (acc : ℚ × β), (l.foldl F acc).1 = acc.1 + (l.map g).sum := by
  intro l
  induction l with
  | nil =>
    intro acc
    simp
  | cons i l ih =>
    intro acc
    rw [List.foldl_cons, ih, hF, List.map_cons, List.sum_cons]
    ring

theorem fed_body_fst (env : Env) (sd : List (List Bool)) (acc : ℚ × List (List ℕ))
    (i : ℕ) : (fed_body env sd acc i).1 = acc.1 + fed_contrib env sd i := by
  simp only [fed_body, fed_contrib]
  split
  · rfl
  · rw [add_zero]

theorem step_contribution (env : Env) (i : ℕ) (sats : List ℕ) :
    (if (i :: sats).length > 1 then (first_echelon_step env i (i :: sats)).1 else 0)
      = depot_contribution env i sats := by
  match sats with
  | [] => simp [depot_contribution]
  | [a] => simp [first_echelon_step, depot_contribution, dget, mul_comm]
  | [a, b] => simp [first_echelon_step, depot_contribution, dget]
  | a :: b :: c :: rest =>
    have h1 : (i :: a :: b :: c :: rest).length > 1 := by
      simp only [List.length_cons]
      omega
    have h2 : ¬ (i :: a :: b :: c :: rest).length = 2 := by
      simp only [List.length_cons]
      omega
    have h3 : ¬ (i :: a :: b :: c :: rest).length = 3 := by
      simp only [List.length_cons]
      omega
    rw [if_pos h1]
    unfold first_echelon_step
    rw [if_neg h2, if_neg h3]
    cases htsp : tsp (make_submatrix env.first_echelon (i :: a :: b :: c :: rest)) with
    | none => simp [depot_contribution, htsp]
    | some tc => simp [depot_contribution, htsp]

theorem fed_contrib_eq (env : Env) (sd : List (List Bool)) (i : ℕ)
    (hi : i < env.product_nr) :
    fed_contrib env sd i = depot_contribution env i (sats_serving env sd i) := by
  have hidx : (compute_first_echelon_indices env sd).getD i []
      = i :: sats_serving env sd i := by
    unfold compute_first_echelon_indices
    rw [getD_range_map _ _ _ _ hi]
    rfl
  simp only [fed_contrib]
  rw [hidx]
  exact step_contribution env i (sats_serving env sd i)

/-- Claim C4 counterexample: in a one-depot environment whose depot serves
exactly one satellite at distance 5, the code computes the round trip 10,
while the contribution table as the claim words it (one satellite contributes
0, no round trip) gives 0. -/
theorem C4_counterexample :
    (first_echelon_distances envC4 solC4).1 = 10 ∧
    claimed_first_echelon_distance envC4 solC4 = 0 ∧ (10 : ℚ) ≠ 0 :=
  ⟨by decide, by decide, by decide⟩

/-- Claim C4 as amended: on a satellite-demand cache miss the first-echelon
distance is the sum over depots of a contribution determined by the number
of satellites each depot serves — but shifted by one against the claim's
table, because `len(indices[i])` counts the depot itself: 0 satellites
contribute 0; exactly 1 satellite contributes the round trip 2·d(depot, sat)
(not 0); exactly 2 the depot–sat–sat triangle; 3 or more the solver's tour
cost over the depot-plus-satellites submatrix. -/
theorem C4_first_echelon_depot_contributions (env : Env) (s : Sol)
    (hmiss : ¬ s.sat_demand = some (satellite_demand env s)) :
    (first_echelon_distances env s).1 =
      ((List.range env.product_nr).map (fun i =>
        depot_contribution env i (sats_serving env (satellite_demand env s) i))).sum := by
  simp only [first_echelon_distances, if_neg hmiss]
  rw [foldl_fst_add (fed_body env (satellite_demand env s))
      (fed_contrib env (satellite_demand env s)) (fed_body_fst env (satellite_demand env s))
      (List.range env.product_nr) ((0 : ℚ), ([] : List (List ℕ))), zero_add]
  refine congrArg List.sum (List.map_congr_left ?_)
  intro i hi
  exact fed_contrib_eq env (satellite_demand env s) i (List.mem_range.mp hi)

theorem C4_witness :
    ¬ solC4.sat_demand = some (satellite_demand envC4 solC4) ∧
    (first_echelon_distances envC4 solC4).1 =
      ((List.range envC4.product_nr).map (fun i =>
        depot_contribution envC4 i
          (sats_serving envC4 (satellite_demand envC4 solC4) i))).sum :=
  ⟨by decide, C4_first_echelon_depot_contributions envC4 solC4 (by decide)⟩

/-! ## Crossover (Solution.crossover / cx_wrapper) -/

/-- Claim C5 counterexample: crossing the two single-client parents with the
oracle that swaps the one product-delivery row, the first returned solution
comes back with starting_points [0, 1] although parent 1 went in with
[1, 0] — the repair inside cx_wrapper zeroes the now-unused vehicle 1 and
assigns vehicle 2 its nearest satellite. -/
theorem C5_counterexample :
    (cx_wrapper envC5 1 solC5p1 solC5p2 [1]).map
        (fun out => out.1.starting_points) = some [0, 1] ∧
    solC5p1.starting_points = [1, 0] ∧ ([0, 1] : List ℕ) ≠ [1, 0] :=
  ⟨by decide, by decide, by decide⟩

/-- Claim C5 as amended: the crossover step itself never touches the
starting points — each child of `crossover` keeps its parent's
starting_points array, for every environment, parent pair and random
oracle.  (It is cx_wrapper's subsequent repair that may reassign starting
points, as the counterexample shows.) -/
theorem C5_crossover_preserves_starting_points (env : Env)
    (parent_1 parent_2 : Sol) (r : Rand) :
    ((crossover env parent_1 parent_2 r).1.1).starting_points
        = parent_1.starting_points ∧
    ((crossover env parent_1 parent_2 r).1.2).starting_points
        = parent_2.starting_points := by
  have key : ∀ (l : List ℕ) (acc : (Sol × Sol) × Rand),
      ((l.foldl (cx_body parent_1 parent_2) acc).1.1.starting_points
          = acc.1.1.starting_points) ∧
      ((l.foldl (cx_body parent_1 parent_2) acc).1.2.starting_points
          = acc.1.2.starting_points) := by
    intro l
    induction l with
    | nil =>
      intro acc
      exact ⟨rfl, rfl⟩
    | cons c cs ih =>
      intro acc
      rw [List.foldl_cons]
      refine ⟨(ih _).1.trans ?_, (ih _).2.trans ?_⟩
      · simp only [cx_body]
        split
        · rfl
        · rfl
      · simp only [cx_body]
        split
        · rfl
        · rfl
  exact key (List.range env.client_nr) ((parent_1, parent_2), r)

/-! ## Mutation (Solution.mut_switch_products / mutation) -/

theorem choice_eq_some {α : Type} (l : List α) (r : Rand) (hne : l ≠ []) :
    ∃ x r2, choice l r = some (x, r2) ∧ x ∈ l := by
  match l with
  | [] => exact absurd rfl hne
  | a :: as =>
    refine ⟨(a :: as).getD ((next_nat r).1 % (a :: as).length) a, (next_nat r).2, rfl, ?_⟩
    exact getD_mem_of_lt _ _ _ (Nat.mod_lt _ (by simp))

theorem cp_pairs_mem (env : Env) (cp : ℕ × ℕ) (h : cp ∈ cp_pairs env) :
    cp.1 < env.client_nr ∧ cp.2 < env.product_nr := by
  unfold cp_pairs at h
  simp only [List.mem_flatMap, List.mem_map, List.mem_range] at h
  obtain ⟨c, hc, p, hp, rfl⟩ := h
  exact ⟨hc, hp⟩

theorem set2_get (pd : List (List ℕ)) (c p v : ℕ) (hc : c < pd.length)
    (hp : p < (pd.getD c []).length) :
    ((set2 pd c p v).getD c []).getD p 0 = v := by
  unfold set2
  have h1 : (pd.set c ((pd.getD c []).set p v)).getD c []
      = (pd.getD c []).set p v := by
    rw [List.getD_eq_getElem _ _ (by simpa using hc)]
    simp
  rw [h1, List.getD_eq_getElem _ _ (by simpa using hp)]
  simp [hp]

theorem shuffle_go_perm {α : Type} [DecidableEq α] :
    ∀ (fuel : ℕ) (l : List α) (r : Rand), (shuffle_go fuel l r).1.Perm l := by
  intro fuel
  induction fuel with
  | zero =>
    intro l r
    cases l <;> simp [shuffle_go]
  | succ fuel ih =>
    intro l r
    cases l with
    | nil => simp [shuffle_go]
    | cons a as =>
      simp only [shuffle_go]
      refine List.Perm.trans (List.Perm.cons _ (ih _ _)) ?_
      exact (List.perm_cons_erase (getD_mem_of_lt _ _ _ (Nat.mod_lt _ (by simp)))).symm

theorem shuffle_perm {α : Type} [DecidableEq α] (l : List α) (r : Rand) :
    (shuffle l r).1.Perm l :=
  shuffle_go_perm l.length l r

theorem mut_switch_products_changes (env : Env) (s : Sol) (r : Rand)
    (hcp : (cp_pairs env).filter
      (fun cp => decide ((env.demand.getD cp.1 []).getD cp.2 0 > 0)) ≠ [])
    (hveh : 2 ≤ env.vehicle_nr)
    (hdims : pd_dims env s.product_delivery) :
    ∃ s2 r2, mut_switch_products env s r = some (s2, r2) ∧ solEq s2 s = false := by
  obtain ⟨cp, r2, hch, hmem⟩ := choice_eq_some _ r hcp
  have hmf := List.mem_filter.mp hmem
  obtain ⟨hc1, hc2⟩ := cp_pairs_mem env cp hmf.1
  have hvne : ((List.range env.vehicle_nr).map (· + 1)).filter
      (fun v => decide (v ≠ (s.product_delivery.getD cp.1 []).getD cp.2 0)) ≠ [] := by
    intro hnil
    rw [List.filter_eq_nil_iff] at hnil
    have h1 := hnil 1 (by
      simp only [List.mem_map, List.mem_range]
      exact ⟨0, by omega, rfl⟩)
    have h2 := hnil 2 (by
      simp only [List.mem_map, List.mem_range]
      exact ⟨1, by omega, rfl⟩)
    simp only [decide_eq_true_eq, not_not] at h1 h2
    omega
  obtain ⟨veh, r3, hch2, hmem2⟩ := choice_eq_some _ r2 hvne
  have hvne2 : veh ≠ (s.product_delivery.getD cp.1 []).getD cp.2 0 := by
    have := (List.mem_filter.mp hmem2).2
    simpa using this
  have hrun : mut_switch_products env s r = some ({ s with
      product_delivery := set2 s.product_delivery cp.1 cp.2 veh,
      log := s.log ++ ["Switch products"] }, r3) := by
    simp only [mut_switch_products, hch, hch2]
  refine ⟨_, _, hrun, ?_⟩
  cases hb : (set2 s.product_delivery cp.1 cp.2 veh == s.product_delivery) with
  | true =>
    exfalso
    have heq := eq_of_beq hb
    have hrowmem : s.product_delivery.getD cp.1 [] ∈ s.product_delivery :=
      getD_mem_of_lt _ _ _ (by rw [hdims.1]; exact hc1)
    have hrl : (s.product_delivery.getD cp.1 []).length = env.product_nr :=
      hdims.2 _ hrowmem
    have hread : ((set2 s.product_delivery cp.1 cp.2 veh).getD cp.1 []).getD cp.2 0 = veh :=
      set2_get _ _ _ _ (by rw [hdims.1]; exact hc1) (by rw [hrl]; exact hc2)
    rw [heq] at hread
    exact hvne2 hread.symm
  | false => simp [solEq, hb]

theorem mutation_loop_no_badIdx (env : Env) (fuelW : ℕ) (original : Sol)
    (hcp : (cp_pairs env).filter
      (fun cp => decide ((env.demand.getD cp.1 []).getD cp.2 0 > 0)) ≠ [])
    (hveh : 2 ≤ env.vehicle_nr)
    (hdims : pd_dims env original.product_delivery) :
    ∀ (ops : List ℕ) (s : Sol) (r : Rand),
      (3 ∈ ops ∨ solEq s original = false) →
      mutation_loop env fuelW original ops s r ≠ .error .badIdx := by
  intro ops
  induction ops with
  | nil =>
    intro s r h
    rcases h with h | h
    · simp at h
    · simp [mutation_loop, h]
  | cons m rest ih =>
    intro s r h
    by_cases hse : solEq s original = true
    case neg =>
      have hf : solEq s original = false := by
        revert hse
        cases solEq s original <;> simp
      simp [mutation_loop, hf]
    case pos =>
      have hsp : s.starting_points = original.starting_points ∧
          s.product_delivery = original.product_delivery := by
        simpa only [solEq, Bool.and_eq_true, beq_iff_eq] using hse
      by_cases hm : m = 3
      · subst hm
        obtain ⟨s2, r2, hsw, hse2⟩ := mut_switch_products_changes env s r hcp hveh
          (by rw [hsp.2]; exact hdims)
        simp only [mutation_loop, hse, if_true]
        rw [show mutation_wrapper env fuelW 3 s r = mut_switch_products env s r from rfl,
          hsw]
        refine ih s2 r2 (Or.inr ?_)
        have : solEq s2 original = false := by
          simp only [solEq] at hse2 ⊢
          rw [← hsp.1, ← hsp.2]
          exact hse2
        exact this
      · have h3 : 3 ∈ rest := by
          rcases h with h | h
          · rcases List.mem_cons.mp h with h' | h'
            · exact absurd h'.symm hm
            · exact h'
          · rw [h] at hse
            cases hse
        simp only [mutation_loop, hse, if_true]
        cases hw : mutation_wrapper env fuelW m s r with
        | none => simp
        | some p => exact ih p.1 p.2 (Or.inl h3)

/-- Claim C10: with at least one positive-demand client-product pair and at
least two vehicles (and well-formed product-delivery dimensions),
mut_switch_products always succeeds and strictly changes the solution — the
chosen cell is reassigned to a different vehicle id — and consequently
mutation's escalation loop never runs off the end of the 5-element shuffled
operator list: the muts[i] IndexError (`.error .badIdx`) is unreachable. -/
theorem C10_mutation_index_safe (env : Env) (fuel : ℕ) (s : Sol) (r : Rand)
    (hcp : (cp_pairs env).filter
      (fun cp => decide ((env.demand.getD cp.1 []).getD cp.2 0 > 0)) ≠ [])
    (hveh : 2 ≤ env.vehicle_nr)
    (hdims : pd_dims env s.product_delivery) :
    (∃ s2 r2, mut_switch_products env s r = some (s2, r2) ∧ solEq s2 s = false) ∧
    mutation env fuel s r ≠ .error .badIdx := by
  refine ⟨mut_switch_products_changes env s r hcp hveh hdims, ?_⟩
  simp only [mutation]
  rcases hm : (shuffle [1, 2, 3, 4, 5] r).1 with _ | ⟨m0, mtail⟩
  · exfalso
    have hp := shuffle_perm [1, 2, 3, 4, 5] r
    rw [hm] at hp
    simpa using hp.length_eq
  · have hp := shuffle_perm [1, 2, 3, 4, 5] r
    rw [hm] at hp
    have h3 : 3 ∈ m0 :: mtail := hp.mem_iff.mpr (by decide)
    simp only [List.getD_cons_zero, List.drop_one, List.tail_cons]
    cases hw : mutation_wrapper env fuel m0 s (shuffle [1, 2, 3, 4, 5] r).2 with
    | none => simp
    | some p =>
      obtain ⟨s1, r1⟩ := p
      simp only []
      have hdisj : 3 ∈ mtail ∨ solEq s1 s = false := by
        by_cases hm0 : m0 = 3
        · right
          obtain ⟨s2', r2', hsw, hse⟩ := mut_switch_products_changes env s
            (shuffle [1, 2, 3, 4, 5] r).2 hcp hveh hdims
          rw [show mutation_wrapper env fuel m0 s (shuffle [1, 2, 3, 4, 5] r).2
              = mut_switch_products env s (shuffle [1, 2, 3, 4, 5] r).2 from by
            rw [hm0]
            simp [mutation_wrapper], hsw] at hw
          injection hw with hw1
          rw [show s1 = s2' from (Prod.mk.injEq _ _ _ _ ▸ hw1).1.symm]
          exact hse
        · left
          rcases List.mem_cons.mp h3 with h' | h'
          · exact absurd h'.symm hm0
          · exact h'
      have hloop := mutation_loop_no_badIdx env fuel s hcp hveh hdims mtail s1 r1 hdisj
      cases hl : mutation_loop env fuel s mtail s1 r1 with
      | error e =>
        simp only [hl]
        intro hc
        apply hloop
        rw [hl]
        injection hc with he
        rw [he]
      | ok t =>
        obtain ⟨s2, r2, rest⟩ := t
        simp only [hl]
        cases ht : mutation_tail env fuel rest s2 r2 with
        | none => simp
        | some q =>
          obtain ⟨s3, r3⟩ := q
          simp only [ht]
          cases hc : correct env fuel s3 r3 with
          | none => simp
          | some w =>
            obtain ⟨s4, r4⟩ := w
            simp only [hc]
            simp

theorem C10_witness :
    (cp_pairs envC5).filter
        (fun cp => decide ((envC5.demand.getD cp.1 []).getD cp.2 0 > 0)) ≠ [] ∧
    2 ≤ envC5.vehicle_nr ∧ pd_dims envC5 solC5p1.product_delivery ∧
    ((∃ s2 r2, mut_switch_products envC5 solC5p1 [] = some (s2, r2) ∧
        solEq s2 solC5p1 = false) ∧
      mutation envC5 1 solC5p1 [] ≠ .error .badIdx) :=
  ⟨by decide, by decide, ⟨by decide, by decide⟩,
   C10_mutation_index_safe envC5 1 solC5p1 [] (by decide) (by decide)
     ⟨by decide, by decide⟩⟩

/-! ## Fitness evaluation (exhaustive.evaluate) -/

theorem getD_range (n i : ℕ) (h : i < n) : (List.range n).getD i 0 = i := by
  rw [List.getD_eq_getElem _ _ (by simpa using h)]
  simp

theorem mapM_option_spec {β : Type} (f : ℕ → Option β) (dflt : β) :
    ∀ (l : List ℕ) (out : List β), l.mapM f = some out →
      out.length = l.length ∧
        ∀ i, i < l.length → f (l.getD i 0) = some (out.getD i dflt) := by
  intro l
  induction l with
  | nil =>
    intro out h
    rw [List.mapM_nil] at h
    injection h with h
    subst h
    refine ⟨rfl, ?_⟩
    intro i hi
    simp at hi
  | cons a l ih =>
    intro out h
    rw [List.mapM_cons] at h
    cases hfa : f a with
    | none =>
      rw [hfa] at h
      simp at h
    | some b =>
      rw [hfa] at h
      cases hml : l.mapM f with
      | none =>
        rw [hml] at h
        simp at h
      | some bs =>
        rw [hml] at h
        simp only [Option.bind_eq_bind, Option.some_bind, Option.pure_def] at h
        injection h with h
        subst h
        obtain ⟨ih1, ih2⟩ := ih bs hml
        refine ⟨by simp [ih1], ?_⟩
        intro i hi
        cases i with
        | zero => simpa using hfa
        | succ j =>
          simp only [List.getD_cons_succ]
          exact ih2 j (by simpa using hi)

theorem mapM_option_congr {β : Type} (f g : ℕ → Option β) :
    ∀ (l : List ℕ), (∀ a ∈ l, f a = g a) → l.mapM f = l.mapM g := by
  intro l
  induction l with
  | nil =>
    intro _
    rfl
  | cons a l ih =>
    intro h
    rw [List.mapM_cons, List.mapM_cons, h a (by simp),
      ih (fun x hx => h x (by simp [hx]))]

theorem fed_state (env : Env) (s : Sol) :
    (first_echelon_distances env s).2.starting_points = s.starting_points ∧
    (first_echelon_distances env s).2.client_order = s.client_order ∧
    (first_echelon_distances env s).2.product_delivery = s.product_delivery ∧
    (first_echelon_distances env s).2.l2_distance = s.l2_distance ∧
    (first_echelon_distances env s).2.l2_clients = s.l2_clients ∧
    (first_echelon_distances env s).2.sat_demand = some (satellite_demand env s) ∧
    (first_echelon_distances env s).2.l1_distance = (first_echelon_distances env s).1 := by
  simp only [first_echelon_distances]
  split
  case isTrue h => exact ⟨rfl, rfl, rfl, rfl, rfl, h, rfl⟩
  case isFalse h => exact ⟨rfl, rfl, rfl, rfl, rfl, rfl, rfl⟩

theorem fed_hit (env : Env) (s : Sol)
    (h : s.sat_demand = some (satellite_demand env s)) :
    first_echelon_distances env s = (s.l1_distance, s) := by
  simp only [first_echelon_distances]
  rw [if_pos h]

theorem satellite_demand_congr (env : Env) (s1 s2 : Sol)
    (hsp : s1.starting_points = s2.starting_points)
    (hpd : s1.product_delivery = s2.product_delivery) :
    satellite_demand env s1 = satellite_demand env s2 := by
  unfold satellite_demand
  rw [hsp, hpd]

theorem sed_shape (env : Env) (X : Sol) (dist : List ℚ) (s₂ : Sol)
    (h : second_echelon_distances env X = some (dist, s₂)) :
    ((List.range env.vehicle_nr).mapM
        (second_echelon_veh env X (clients_served_of env X.product_delivery))
      = some dist) ∧
    s₂ = { X with l2_distance := dist,
                  l2_clients := clients_served_of env X.product_delivery } := by
  simp only [second_echelon_distances] at h
  cases hm : (List.range env.vehicle_nr).mapM
      (second_echelon_veh env X (clients_served_of env X.product_delivery)) with
  | none =>
    rw [hm] at h
    simp at h
  | some d =>
    rw [hm] at h
    injection h with h2
    have hd : d = dist := congrArg Prod.fst h2
    subst hd
    exact ⟨rfl, (congrArg Prod.snd h2).symm⟩

theorem sev_idem (env : Env) (X : Sol) (cs : List (List ℕ)) (dist : List ℚ) (veh : ℕ)
    (hveh : veh < dist.length)
    (hfirst : second_echelon_veh env X cs veh = some (dist.getD veh 0)) :
    second_echelon_veh env { X with l2_distance := dist, l2_clients := cs } cs veh
      = some (dist.getD veh 0) := by
  by_cases hlen : (cs.getD veh []).length > 0
  · unfold second_echelon_veh
    split
    · show dist.get? veh = some (dist.getD veh 0)
      rw [List.getD_eq_getElem _ _ hveh]
      exact List.get?_eq_get hveh
    · next hcond => exact absurd ⟨rfl, hlen⟩ hcond
  · have hcs : cs.getD veh [] = [] := by
      cases hc : cs.getD veh [] with
      | nil => rfl
      | cons a as =>
        rw [hc] at hlen
        simp at hlen
    unfold second_echelon_veh at hfirst ⊢
    rw [hcs] at hfirst ⊢
    rw [if_neg (by simp)] at hfirst
    rw [if_neg (by simp)]
    rw [show ({ X with l2_distance := dist, l2_clients := cs } : Sol).starting_points
        = X.starting_points from rfl]
    by_cases hsp : X.starting_points.getD veh 0 > 0
    · rw [if_pos hsp] at hfirst
      exact Option.noConfusion hfirst
    · rw [if_neg hsp] at hfirst
      rw [if_neg hsp]
      injection hfirst with hd
      rw [← hd]

theorem sed_idem (env : Env) (X : Sol) (dist : List ℚ) (s₂ : Sol)
    (h : second_echelon_distances env X = some (dist, s₂)) :
    second_echelon_distances env s₂ = some (dist, s₂) := by
  obtain ⟨hmap, hshape⟩ := sed_shape env X dist s₂ h
  obtain ⟨hlen, hspec⟩ := mapM_option_spec _ (0 : ℚ) _ _ hmap
  rw [List.length_range] at hlen
  subst hshape
  simp only [second_echelon_distances]
  rw [show ({ X with
        l2_distance := dist,
        l2_clients := clients_served_of env X.product_delivery } : Sol).product_delivery
      = X.product_delivery from rfl]
  have hcongr : ∀ a ∈ List.range env.vehicle_nr,
      second_echelon_veh env
        { X with
          l2_distance := dist,
          l2_clients := clients_served_of env X.product_delivery }
        (clients_served_of env X.product_delivery) a
      = second_echelon_veh env X (clients_served_of env X.product_delivery) a := by
    intro veh hveh
    have hlt : veh < env.vehicle_nr := List.mem_range.mp hveh
    have hfirst := hspec veh (by simpa using hlt)
    rw [getD_range _ _ hlt] at hfirst
    exact (sev_idem env X _ dist veh (by omega) hfirst).trans hfirst.symm
  rw [mapM_option_congr _ _ _ hcongr, hmap]

theorem sec_of_sed (env : Env) (X : Sol) (dist : List ℚ) (s₂ : Sol)
    (h : second_echelon_distances env X = some (dist, s₂)) :
    second_echelon_cost env X = some ((List.range env.vehicle_nr).foldl
      (fun acc veh => acc + dist.getD veh 0 * env.cost_per_km.getD veh 0) 0, s₂) := by
  simp only [second_echelon_cost, h]

theorem tot_of (env : Env) (s₂ : Sol) (dist : List ℚ)
    (hhit : first_echelon_distances env s₂ = (s₂.l1_distance, s₂))
    (hsed₂ : second_echelon_distances env s₂ = some (dist, s₂)) :
    total_emissions env s₂ = some (s₂.l1_distance * env.l1_emissions +
      (List.range env.vehicle_nr).foldl
        (fun acc veh => acc + dist.getD veh 0 * env.emissions.getD veh 0) 0, s₂) := by
  simp only [total_emissions, hhit, hsed₂]

theorem evaluate_spec (env : Env) (s : Sol) (dist : List ℚ) (s₂ : Sol)
    (hsed : second_echelon_distances env (first_echelon_distances env s).2
      = some (dist, s₂)) :
    evaluate env s = some (fitness_of env s₂, s₂) := by
  obtain ⟨hsp1, hco1, hpd1, hld1, hlc1, hsd1, hl11⟩ := fed_state env s
  obtain ⟨hmap, hshape⟩ := sed_shape env _ dist s₂ hsed
  have hsp₂ : s₂.starting_points = s.starting_points := by
    rw [hshape]
    exact hsp1
  have hpd₂ : s₂.product_delivery = s.product_delivery := by
    rw [hshape]
    exact hpd1
  have hsd₂ : s₂.sat_demand = some (satellite_demand env s) := by
    rw [hshape]
    exact hsd1
  have hl1₂ : s₂.l1_distance = (first_echelon_distances env s).1 := by
    rw [hshape]
    exact hl11
  have hld₂ : s₂.l2_distance = dist := by rw [hshape]
  have hhit : first_echelon_distances env s₂ = (s₂.l1_distance, s₂) :=
    fed_hit env s₂ (by rw [hsd₂, satellite_demand_congr env s₂ s hsp₂ hpd₂])
  have hsed₂ : second_echelon_distances env s₂ = some (dist, s₂) :=
    sed_idem env _ dist s₂ hsed
  have hsec : second_echelon_cost env (first_echelon_cost env s).2
      = some ((List.range env.vehicle_nr).foldl
        (fun acc veh => acc + dist.getD veh 0 * env.cost_per_km.getD veh 0) 0, s₂) := by
    rw [show (first_echelon_cost env s).2 = (first_echelon_distances env s).2 from rfl]
    exact sec_of_sed env _ dist s₂ hsed
  have htot := tot_of env s₂ dist hhit hsed₂
  simp only [evaluate, hsec, htot]
  rw [show (first_echelon_cost env s).1
      = (first_echelon_distances env s).1 * env.l1_cpk from rfl, ← hl1₂, ← hld₂]
  rfl

/-- Claim C9: whenever fitness evaluation succeeds, evaluating the returned
(cache-refreshed) solution again yields the identical 4-tuple and the
identical state — the lazy distance caches are fixed points — and the tuple
equals the defined formulas: echelon distance × per-km cost and emissions,
and vehicles used = one first-echelon vehicle per depot plus the
second-echelon vehicles with a nonzero starting satellite. -/
theorem C9_evaluate_deterministic (env : Env) (s : Sol) (f : List ℚ) (s' : Sol)
    (h : evaluate env s = some (f, s')) :
    evaluate env s' = some (f, s') ∧ f = fitness_of env s' ∧
    nr_vehicles_used env s' = env.product_nr +
      ((List.range env.vehicle_nr).filter
        (fun veh => s'.starting_points.getD veh 0 > 0)).length := by
  cases hsed : second_echelon_distances env (first_echelon_distances env s).2 with
  | none =>
    exfalso
    have hnone : evaluate env s = none := by
      have hsecn : second_echelon_cost env (first_echelon_cost env s).2 = none := by
        rw [show (first_echelon_cost env s).2
            = (first_echelon_distances env s).2 from rfl]
        simp only [second_echelon_cost, hsed]
      simp only [evaluate, hsecn]
    rw [hnone] at h
    cases h
  | some ds =>
    obtain ⟨dist, s₂⟩ := ds
    have hev := evaluate_spec env s dist s₂ hsed
    rw [hev] at h
    injection h with h2
    have hf : fitness_of env s₂ = f := congrArg Prod.fst h2
    have hs : s₂ = s' := congrArg Prod.snd h2
    subst hs
    subst hf
    refine ⟨?_, rfl, rfl⟩
    obtain ⟨hmap, hshape⟩ := sed_shape env _ dist s₂ hsed
    obtain ⟨hsp1, hco1, hpd1, hld1, hlc1, hsd1, hl11⟩ := fed_state env s
    have hsp₂ : s₂.starting_points = s.starting_points := by
      rw [hshape]
      exact hsp1
    have hpd₂ : s₂.product_delivery = s.product_delivery := by
      rw [hshape]
      exact hpd1
    have hsd₂ : s₂.sat_demand = some (satellite_demand env s) := by
      rw [hshape]
      exact hsd1
    have hhit : first_echelon_distances env s₂ = (s₂.l1_distance, s₂) :=
      fed_hit env s₂ (by rw [hsd₂, satellite_demand_congr env s₂ s hsp₂ hpd₂])
    have hsed₂ : second_echelon_distances env s₂ = some (dist, s₂) :=
      sed_idem env _ dist s₂ hsed
    exact evaluate_spec env s₂ dist s₂ (by rw [hhit]; exact hsed₂)

theorem C9_witness :
    evaluate envC5 solC5p1 = some ([6, 4, 2, 10], solC9out) ∧
    (evaluate envC5 solC9out = some ([6, 4, 2, 10], solC9out) ∧
     ([6, 4, 2, 10] : List ℚ) = fitness_of envC5 solC9out ∧
     nr_vehicles_used envC5 solC9out = envC5.product_nr +
       ((List.range envC5.vehicle_nr).filter
         (fun veh => solC9out.starting_points.getD veh 0 > 0)).length) :=
  ⟨by decide, C9_evaluate_deterministic envC5 solC5p1 [6, 4, 2, 10] solC9out (by decide)⟩

/-! ## Pareto front update (exhaustive.update_front) -/

/-- Claim C1 (code bug): inserting fitnesses (1,2,2,2), (2,1,2,2), (1,1,1,1)
into an initially empty front leaves a front containing both the new member
and a member it dominates — `front.remove` under the live `for` iterator
shifts the next element into the removed slot where the iterator skips it, so
the second of two consecutively dominated members survives and the
non-domination invariant of the Pareto front is violated. -/
theorem C1_update_front_keeps_dominated_member :
    front3 = [(2, [2, 1, 2, 2]), (3, [1, 1, 1, 1])] ∧
    (2, [2, 1, 2, 2]) ∈ front3 ∧ (3, [1, 1, 1, 1]) ∈ front3 ∧
    dominates (front3_fitness 3) (front3_fitness 2) = true :=
  ⟨by decide, by decide, by decide, by decide⟩

/-! ## TSP branch-and-bound (tsptools.tsp) -/

/-- Claim C2 (code bug): on the symmetric 5-point matrix `tsp_bug_matrix`
the solver returns the tour [0,1,3,4,2] at cost 165, yet the permutation
[0,2,1,3,4] is a closed tour of length 155 < 165 — the early `break` over
distance-sorted candidates prunes with a bound that is not monotone in the
candidate (it subtracts the candidate's second-smallest incident edge), so
the returned cost is not the minimum.  (For n = 2 the code even raises
IndexError in compute_lower_bound: `tsp [[0,5],[5,0]] = none`.) -/
theorem C2_tsp_returns_nonminimal_cost :
    (∀ i < 5, ∀ j < 5, dget tsp_bug_matrix i j = dget tsp_bug_matrix j i) ∧
    tsp tsp_bug_matrix = some ([0, 1, 3, 4, 2], ((165 : ℚ) : WithTop ℚ)) ∧
    ([0, 2, 1, 3, 4] : List ℕ).Perm (List.range 5) ∧
    closed_cost tsp_bug_matrix [0, 2, 1, 3, 4] = 155 ∧
    ((155 : ℚ) < 165) ∧
    tsp [[0, 5], [5, 0]] = none :=
  ⟨by decide, by decide, by decide, by decide, by decide, by decide⟩

/-! ## Repair invariants (Solution.correct, claim C3) -/

theorem getD_set_self {α : Type} (l : List α) (i : ℕ) (a d : α) (h : i < l.length) :
    (l.set i a).getD i d = a := by
  rw [List.getD_eq_getElem _ _ (by simpa using h)]
  simp

theorem getD_set_ne {α : Type} (l : List α) (i j : ℕ) (a d : α) (h : i ≠ j) :
    (l.set i a).getD j d = l.getD j d := by
  by_cases hj : j < l.length
  · rw [List.getD_eq_getElem _ _ (by simpa using hj), List.getD_eq_getElem _ _ hj]
    exact List.getElem_set_ne h (by simpa using hj)
  · have h1 : l.length ≤ j := le_of_not_lt hj
    rw [List.getD_eq_default _ _ (by simpa using h1), List.getD_eq_default _ _ h1]

theorem set2_row_ne (pd : List (List ℕ)) (c p v c' : ℕ) (h : c' ≠ c) :
    (set2 pd c p v).getD c' [] = pd.getD c' [] := by
  unfold set2
  exact getD_set_ne _ _ _ _ _ (Ne.symm h)

theorem set2_row_self (pd : List (List ℕ)) (c p v : ℕ) (h : c < pd.length) :
    (set2 pd c p v).getD c [] = (pd.getD c []).set p v := by
  unfold set2
  exact getD_set_self _ _ _ _ h

theorem set2_length (pd : List (List ℕ)) (c p v : ℕ) :
    (set2 pd c p v).length = pd.length := by
  unfold set2
  exact List.length_set _ _ _

theorem set2_dims (env : Env) (pd : List (List ℕ)) (c p v : ℕ)
    (hd : pd_dims env pd) (hc : c < env.client_nr) :
    pd_dims env (set2 pd c p v) := by
  obtain ⟨h1, h2⟩ := hd
  refine ⟨by rw [set2_length, h1], ?_⟩
  intro row hrow
  unfold set2 at hrow
  rcases List.mem_or_eq_of_mem_set hrow with h | h
  · exact h2 _ h
  · subst h
    rw [List.length_set]
    exact h2 _ (getD_mem_of_lt _ _ _ (h1 ▸ hc))

theorem set2_cell_other (pd : List (List ℕ)) (c p v c' p' : ℕ)
    (h : (c', p') ≠ (c, p)) :
    ((set2 pd c p v).getD c' []).getD p' 0 = (pd.getD c' []).getD p' 0 := by
  by_cases hc : c' = c
  · subst hc
    have hp : p' ≠ p := by
      intro he
      exact h (by rw [he])
    by_cases hcl : c' < pd.length
    · rw [set2_row_self _ _ _ _ hcl]
      exact getD_set_ne _ _ _ _ _ (Ne.symm hp)
    · unfold set2
      have h1 : (pd.set c' ((pd.getD c' []).set p v)).getD c' [] = [] :=
        List.getD_eq_default _ _ (by rw [List.length_set]; omega)
      have h2 : pd.getD c' [] = [] := List.getD_eq_default _ _ (by omega)
      rw [h1, h2]
  · rw [set2_row_ne _ _ _ _ _ hc]

theorem foldl_add_ite {γ : Type} (P : γ → Prop) [DecidablePred P] (f : γ → ℤ) :
    ∀ (l : List γ) (a : ℤ),
      l.foldl (fun acc x => if P x then acc + f x else acc) a
        = a + (l.map (fun x => if P x then f x else 0)).sum := by
  intro l
  induction l with
  | nil =>
    intro a
    simp
  | cons x l ih =>
    intro a
    rw [List.foldl_cons, ih, List.map_cons, List.sum_cons]
    by_cases h : P x
    · rw [if_pos h, if_pos h]
      ring
    · rw [if_neg h, if_neg h]
      ring

theorem load_eq_sum (env : Env) (pd : List (List ℕ)) (v : ℕ) :
    vehicle_load env pd v = ((cp_pairs env).map (fun cp =>
      if (pd.getD cp.1 []).getD cp.2 0 = v + 1 then (env.demand.getD cp.1 []).getD cp.2 0
      else 0)).sum := by
  unfold vehicle_load
  rw [foldl_add_ite, zero_add]

theorem sum_map_delta {γ : Type} [DecidableEq γ] (f g : γ → ℤ) (x : γ) :
    ∀ (l : List γ), (∀ y ∈ l, y ≠ x → f y = g y) →
      (l.map f).sum = (l.map g).sum
        + (l.map (fun y => if y = x then (1 : ℤ) else 0)).sum * (f x - g x) := by
  intro l
  induction l with
  | nil =>
    intro _
    simp
  | cons y l ih =>
    intro h
    rw [List.map_cons, List.map_cons, List.map_cons, List.sum_cons, List.sum_cons,
      List.sum_cons, ih (fun z hz hne => h z (List.mem_cons_of_mem _ hz) hne)]
    by_cases hy : y = x
    · subst hy
      rw [if_pos rfl]
      ring
    · rw [h y (List.mem_cons_self _ _) hy, if_neg hy]
      ring

theorem cp_pairs_mem_iff (env : Env) (cp : ℕ × ℕ) :
    cp ∈ cp_pairs env ↔ cp.1 < env.client_nr ∧ cp.2 < env.product_nr := by
  unfold cp_pairs
  simp only [List.mem_flatMap, List.mem_map, List.mem_range]
  constructor
  · rintro ⟨c, hc, p, hp, rfl⟩
    exact ⟨hc, hp⟩
  · rintro ⟨h1, h2⟩
    exact ⟨cp.1, h1, ⟨cp.2, h2, rfl⟩⟩

theorem indicator_range_zero (p : ℕ) :
    ∀ (k : ℕ), k ≤ p →
      ((List.range k).map (fun q => if q = p then (1 : ℤ) else 0)).sum = 0 := by
  intro k
  induction k with
  | zero =>
    intro _
    simp
  | succ k ih =>
    intro h
    rw [List.range_succ, List.map_append, List.sum_append, ih (by omega)]
    simp
    omega

theorem indicator_range_sum (p : ℕ) :
    ∀ (k : ℕ), p < k →
      ((List.range k).map (fun q => if q = p then (1 : ℤ) else 0)).sum = 1 := by
  intro k
  induction k with
  | zero =>
    intro h
    omega
  | succ k ih =>
    intro h
    rw [List.range_succ, List.map_append, List.sum_append]
    by_cases hp : p = k
    · subst hp
      rw [indicator_range_zero p p le_rfl]
      simp
    · rw [ih (by omega)]
      simp [Ne.symm hp]

theorem cp_pairs_indicator (env : Env) (c p : ℕ) (hc : c < env.client_nr)
    (hp : p < env.product_nr) :
    ((cp_pairs env).map (fun y => if y = ((c, p) : ℕ × ℕ) then (1 : ℤ) else 0)).sum
      = 1 := by
  have key : ∀ (cl : List ℕ),
      (((cl.flatMap (fun client =>
        (List.range env.product_nr).map (fun product => (client, product)))).map
          (fun y => if y = ((c, p) : ℕ × ℕ) then (1 : ℤ) else 0)).sum)
        = (cl.map (fun a => if a = c then (1 : ℤ) else 0)).sum := by
    intro cl
    induction cl with
    | nil => simp
    | cons a cl ih =>
      rw [List.flatMap_cons, List.map_append, List.sum_append, ih, List.map_cons,
        List.sum_cons, List.map_map]
      by_cases ha : a = c
      · subst ha
        rw [if_pos rfl]
        have hcong : ((fun y => if y = ((a, p) : ℕ × ℕ) then (1 : ℤ) else 0) ∘
            (fun product => (a, product)))
            = (fun q => if q = p then (1 : ℤ) else 0) := by
          funext q
          simp [Function.comp, Prod.ext_iff]
        rw [hcong, indicator_range_sum p _ hp]
      · rw [if_neg ha]
        have hz : ((List.range env.product_nr).map
            ((fun y => if y = ((c, p) : ℕ × ℕ) then (1 : ℤ) else 0) ∘
              (fun product => (a, product)))).sum = 0 := by
          apply List.sum_eq_zero
          intro x hx
          simp only [List.mem_map, Function.comp] at hx
          obtain ⟨q, _, rfl⟩ := hx
          simp [Prod.ext_iff, ha]
        rw [hz]
  show (((List.range env.client_nr).flatMap (fun client =>
    (List.range env.product_nr).map (fun product => (client, product)))).map
      (fun y => if y = ((c, p) : ℕ × ℕ) then (1 : ℤ) else 0)).sum = 1
  rw [key, indicator_range_sum c _ hc]

theorem load_set2_delta (env : Env) (pd : List (List ℕ)) (c p w v : ℕ)
    (hdims : pd_dims env pd) (hc : c < env.client_nr) (hp : p < env.product_nr) :
    vehicle_load env (set2 pd c p w) v
      = vehicle_load env pd v
        + (if w = v + 1 then (env.demand.getD c []).getD p 0 else 0)
        - (if (pd.getD c []).getD p 0 = v + 1
            then (env.demand.getD c []).getD p 0 else 0) := by
  have hagree : ∀ y ∈ cp_pairs env, y ≠ (c, p) →
      (fun cp => if ((set2 pd c p w).getD cp.1 []).getD cp.2 0 = v + 1
        then (env.demand.getD cp.1 []).getD cp.2 0 else 0) y
      = (fun cp => if (pd.getD cp.1 []).getD cp.2 0 = v + 1
        then (env.demand.getD cp.1 []).getD cp.2 0 else 0) y := by
    intro y _ hne
    simp only []
    rw [set2_cell_other pd c p w y.1 y.2 (by rwa [Prod.mk.eta])]
  have hcell : ((set2 pd c p w).getD c []).getD p 0 = w :=
    set2_get pd c p w (hdims.1 ▸ hc)
      (by rw [hdims.2 _ (getD_mem_of_lt _ _ _ (hdims.1 ▸ hc))]; exact hp)
  rw [load_eq_sum, load_eq_sum, sum_map_delta _ _ (c, p) _ hagree,
    cp_pairs_indicator env c p hc hp]
  simp only [hcell]
  ring

theorem mem_clients_of (env : Env) (pd : List (List ℕ)) (v c : ℕ) :
    c ∈ clients_of env pd v ↔ c < env.client_nr ∧ (v + 1) ∈ pd.getD c [] := by
  unfold clients_of
  simp [List.mem_filter, List.mem_range]

theorem clients_served_of_getD (env : Env) (pd : List (List ℕ)) (v : ℕ)
    (hv : v < env.vehicle_nr) :
    (clients_served_of env pd).getD v [] = clients_of env pd v := by
  unfold clients_served_of
  rw [getD_range_map _ _ _ _ hv]
  rfl

theorem length_le_of_nodup_subset {l₁ l₂ : List ℕ} (hn : l₁.Nodup)
    (hs : ∀ x ∈ l₁, x ∈ l₂) : l₁.length ≤ l₂.length := by
  calc l₁.length = l₁.toFinset.card := (List.toFinset_card_of_nodup hn).symm
  _ ≤ l₂.toFinset.card := Finset.card_le_card (fun x hx => by
      rw [List.mem_toFinset] at hx ⊢
      exact hs x hx)
  _ ≤ l₂.length := l₂.toFinset_card_le

theorem clients_of_nodup (env : Env) (pd : List (List ℕ)) (v : ℕ) :
    (clients_of env pd v).Nodup :=
  (List.nodup_range env.client_nr).filter _

theorem filter_length_eq_sum (q : ℕ → Prop) [DecidablePred q] :
    ∀ (l : List ℕ), (((l.filter (fun x => decide (q x))).length : ℤ))
      = (l.map (fun x => if q x then (1 : ℤ) else 0)).sum := by
  intro l
  induction l with
  | nil => simp
  | cons a l ih =>
    rw [List.filter_cons, List.map_cons, List.sum_cons]
    by_cases h : q a
    · rw [if_pos (by simpa using h), if_pos h, List.length_cons]
      push_cast
      rw [ih]
      ring
    · rw [if_neg (by simpa using h), if_neg h, ih]
      ring

theorem lt_length_of_getD_neg (rc : List ℤ) (j : ℕ) (h : rc.getD j 0 < 0) :
    j < rc.length := by
  by_contra hc
  rw [List.getD_eq_default _ _ (by omega)] at h
  omega

theorem mem_set_self (row : List ℕ) (p x : ℕ) (hp : p < row.length) :
    x ∈ row.set p x := by
  have h1 : (row.set p x).getD p 0 = x := getD_set_self row p x 0 hp
  have h2 : (row.set p x).getD p 0 ∈ row.set p x :=
    getD_mem_of_lt (row.set p x) p 0 (by rw [List.length_set]; exact hp)
  rwa [h1] at h2

theorem getD_set_cases {α : Type} (l : List α) (i v : ℕ) (a d : α) :
    (l.set i a).getD v d = l.getD v d ∨
      ((l.set i a).getD v d = a ∧ v = i ∧ i < l.length) := by
  by_cases hv : v = i
  · subst hv
    by_cases hl : v < l.length
    · exact Or.inr ⟨getD_set_self _ _ _ _ hl, rfl, hl⟩
    · left
      rw [List.getD_eq_default _ _ (by rw [List.length_set]; omega),
        List.getD_eq_default _ _ (by omega)]
  · exact Or.inl (getD_set_ne _ _ _ _ _ (fun he => hv he.symm))

theorem rows12_set (cs : List (List ℕ)) (j : ℕ) (row' : List ℕ)
    (h12 : ∀ v, (cs.getD v []).length ≤ 12) (hr : row'.length ≤ 12) :
    ∀ v, ((cs.set j row').getD v []).length ≤ 12 := by
  intro v
  rcases getD_set_cases cs j v row' [] with h | ⟨h, _, _⟩
  · rw [h]
    exact h12 v
  · rw [h]
    exact hr

theorem memP_set (P : ℕ → Prop) (cs : List (List ℕ)) (j : ℕ) (row' : List ℕ)
    (hm : ∀ v c, c ∈ cs.getD v [] → P c) (hr : ∀ c ∈ row', P c) :
    ∀ v c, c ∈ (cs.set j row').getD v [] → P c := by
  intro v c hc
  rcases getD_set_cases cs j v row' [] with h | ⟨h, _, _⟩
  · rw [h] at hc
    exact hm v c hc
  · rw [h] at hc
    exact hr c hc

theorem overflow_step_inv (env : Env) (hd : nonneg_demand env) (i client product : ℕ)
    (hc : client < env.client_nr) (hp : product < env.product_nr)
    (st : Sol × List (List ℕ) × List ℤ × ℤ × Rand)
    (h : os_inv env st.1 st.2.1 st.2.2.1 st.2.2.2.1) :
    os_inv env (overflow_step env i client product st).1
      (overflow_step env i client product st).2.1
      (overflow_step env i client product st).2.2.1
      (overflow_step env i client product st).2.2.2.1 := by
  obtain ⟨s, cs, rc, ov, r⟩ := st
  simp only [] at h
  obtain ⟨hdims, ⟨hcslen, hcsmem, hcsub⟩, hcs12, hrclen, hrcspec, hovge⟩ := h
  unfold overflow_step
  simp only []
  by_cases hguard : ((s.product_delivery.getD client []).getD product 0 ≠ 0 ∧
      rc.getD ((s.product_delivery.getD client []).getD product 0 - 1) 0 < 0)
  case neg =>
    rw [if_neg hguard]
    exact ⟨hdims, ⟨hcslen, hcsmem, hcsub⟩, hcs12, hrclen, hrcspec, hovge⟩
  case pos =>
    rw [if_pos hguard]
    obtain ⟨hv0, hneg⟩ := hguard
    split
    · exact ⟨hdims, ⟨hcslen, hcsmem, hcsub⟩, hcs12, hrclen, hrcspec, hovge⟩
    · next k hk =>
      -- notation
      have hv1 : ((s.product_delivery.getD client []).getD product 0 - 1) + 1
          = (s.product_delivery.getD client []).getD product 0 :=
        Nat.succ_pred_eq_of_pos (Nat.pos_of_ne_zero hv0)
      have hvn : (s.product_delivery.getD client []).getD product 0 - 1
          < env.vehicle_nr := hrclen ▸ lt_length_of_getD_neg rc _ hneg
      have hkmem : k ∈ (List.range env.vehicle_nr).filter (fun ve =>
          decide (rc.getD ve 0 ≥ (env.demand.getD client []).getD product 0) &&
            (decide ((cs.getD ve []).length < 12) || (cs.getD ve []).contains client)) :=
        (shuffle_perm _ _).mem_iff.mp (List.mem_of_find?_eq_some hk)
      have hkr := List.mem_filter.mp hkmem
      have hkn : k < env.vehicle_nr := List.mem_range.mp hkr.1
      have hkprops := hkr.2
      simp only [Bool.and_eq_true, Bool.or_eq_true, decide_eq_true_eq] at hkprops
      have hkcap : (env.demand.getD client []).getD product 0 ≤ rc.getD k 0 := hkprops.1
      have hkelig : (cs.getD k []).length < 12 ∨ client ∈ cs.getD k [] := by
        rcases hkprops.2 with h | h
        · exact Or.inl h
        · exact Or.inr (by simpa using h)
      have hdmd0 : 0 ≤ (env.demand.getD client []).getD product 0 := hd client hc product hp
      have hkne : k ≠ (s.product_delivery.getD client []).getD product 0 - 1 := by
        intro he
        rw [← he] at hneg
        omega
      have hrowlen : (s.product_delivery.getD client []).length = env.product_nr :=
        hdims.2 _ (getD_mem_of_lt _ _ _ (hdims.1 ▸ hc))
      -- name the pieces
      have hdims2 : pd_dims env (set2 s.product_delivery client product (k + 1)) :=
        set2_dims env _ client product (k + 1) hdims hc
      -- cs2 facts
      have hcs2len : (if (cs.getD k []).contains client then cs
          else cs.set k (cs.getD k [] ++ [client])).length = env.vehicle_nr := by
        split
        · exact hcslen
        · rw [List.length_set]
          exact hcslen
      have hcs2mem : ∀ v c, c ∈ (if (cs.getD k []).contains client then cs
          else cs.set k (cs.getD k [] ++ [client])).getD v [] → c < env.client_nr := by
        split
        · exact hcsmem
        · refine memP_set _ cs k _ hcsmem ?_
          intro c hcm
          rcases List.mem_append.mp hcm with h | h
          · exact hcsmem k c h
          · rw [List.mem_singleton.mp h]
            exact hc
      have hcs2twelve : ∀ v, ((if (cs.getD k []).contains client then cs
          else cs.set k (cs.getD k [] ++ [client])).getD v []).length ≤ 12 := by
        split
        · exact hcs12
        · next hncont =>
          refine rows12_set cs k _ hcs12 ?_
          rw [List.length_append]
          rcases hkelig with h | h
          · simp only [List.length_singleton]
            omega
          · exact absurd h (by simpa using hncont)
      have hcs2k : client ∈ (if (cs.getD k []).contains client then cs
          else cs.set k (cs.getD k [] ++ [client])).getD k [] := by
        split
        · next hcont => simpa using hcont
        · have hkl : k < cs.length := by
            rw [hcslen]
            exact hkn
          rw [getD_set_self _ _ _ _ hkl]
          simp
      have hcs2sup : ∀ v c', c' ∈ cs.getD v [] →
          c' ∈ (if (cs.getD k []).contains client then cs
            else cs.set k (cs.getD k [] ++ [client])).getD v [] := by
        intro v c' hm
        split
        · exact hm
        · rcases getD_set_cases cs k v (cs.getD k [] ++ [client]) [] with h | ⟨h, hv, _⟩
          · rw [h]
            exact hm
          · rw [h]
            subst hv
            exact List.mem_append.mpr (Or.inl hm)
      -- cs3 facts, over the erase-if
      have hcs3len : (if ((set2 s.product_delivery client product (k + 1)).getD
            client []).contains ((s.product_delivery.getD client []).getD product 0)
          then (if (cs.getD k []).contains client then cs
            else cs.set k (cs.getD k [] ++ [client]))
          else (if (cs.getD k []).contains client then cs
            else cs.set k (cs.getD k [] ++ [client])).set
              ((s.product_delivery.getD client []).getD product 0 - 1)
              (((if (cs.getD k []).contains client then cs
                else cs.set k (cs.getD k [] ++ [client])).getD
                  ((s.product_delivery.getD client []).getD product 0 - 1) []).erase
                client)).length = env.vehicle_nr := by
        split
        · exact hcs2len
        · rw [List.length_set]
          exact hcs2len
      have hcs3mem : ∀ v c', c' ∈ (if ((set2 s.product_delivery client product
            (k + 1)).getD client []).contains
            ((s.product_delivery.getD client []).getD product 0)
          then (if (cs.getD k []).contains client then cs
            else cs.set k (cs.getD k [] ++ [client]))
          else (if (cs.getD k []).contains client then cs
            else cs.set k (cs.getD k [] ++ [client])).set
              ((s.product_delivery.getD client []).getD product 0 - 1)
              (((if (cs.getD k []).contains client then cs
                else cs.set k (cs.getD k [] ++ [client])).getD
                  ((s.product_delivery.getD client []).getD product 0 - 1) []).erase
                client)).getD v [] → c' < env.client_nr := by
        split
        · exact hcs2mem
        · refine memP_set _ _ _ _ hcs2mem ?_
          intro c' hcm
          exact hcs2mem _ c' (List.mem_of_mem_erase hcm)
      have hcs3twelve : ∀ v, ((if ((set2 s.product_delivery client product
            (k + 1)).getD client []).contains
            ((s.product_delivery.getD client []).getD product 0)
          then (if (cs.getD k []).contains client then cs
            else cs.set k (cs.getD k [] ++ [client]))
          else (if (cs.getD k []).contains client then cs
            else cs.set k (cs.getD k [] ++ [client])).set
              ((s.product_delivery.getD client []).getD product 0 - 1)
              (((if (cs.getD k []).contains client then cs
                else cs.set k (cs.getD k [] ++ [client])).getD
                  ((s.product_delivery.getD client []).getD product 0 - 1) []).erase
                client)).getD v []).length ≤ 12 := by
        split
        · exact hcs2twelve
        · refine rows12_set _ _ _ hcs2twelve ?_
          exact le_trans (List.erase_sublist _ _).length_le (hcs2twelve _)
      have hsub3 : ∀ v, v < env.vehicle_nr → ∀ c',
          c' ∈ clients_of env (set2 s.product_delivery client product (k + 1)) v →
          c' ∈ (if ((set2 s.product_delivery client product (k + 1)).getD
            client []).contains ((s.product_delivery.getD client []).getD product 0)
          then (if (cs.getD k []).contains client then cs
            else cs.set k (cs.getD k [] ++ [client]))
          else (if (cs.getD k []).contains client then cs
            else cs.set k (cs.getD k [] ++ [client])).set
              ((s.product_delivery.getD client []).getD product 0 - 1)
              (((if (cs.getD k []).contains client then cs
                else cs.set k (cs.getD k [] ++ [client])).getD
                  ((s.product_delivery.getD client []).getD product 0 - 1) []).erase
                client)).getD v [] := by
        intro v hv c' hcl
        rw [mem_clients_of] at hcl
        obtain ⟨hc'lt, hvmem⟩ := hcl
        by_cases hcc : c' = client
        case neg =>
          rw [set2_row_ne _ _ _ _ _ hcc] at hvmem
          have hin2 : c' ∈ (if (cs.getD k []).contains client then cs
              else cs.set k (cs.getD k [] ++ [client])).getD v [] :=
            hcs2sup v c' (hcsub v hv c' ((mem_clients_of env _ v c').mpr ⟨hc'lt, hvmem⟩))
          split
          · exact hin2
          · rcases getD_set_cases (if (cs.getD k []).contains client then cs
                else cs.set k (cs.getD k [] ++ [client]))
                ((s.product_delivery.getD client []).getD product 0 - 1) v _ []
              with hcase | ⟨hcase, hveq, _⟩
            · rw [hcase]
              exact hin2
            · subst hveq
              rw [hcase]
              exact (List.mem_erase_of_ne hcc).mpr hin2
        case pos =>
          rw [hcc] at hvmem ⊢
          rw [set2_row_self _ _ _ _ (hdims.1 ▸ hc)] at hvmem
          rcases List.mem_or_eq_of_mem_set hvmem with hrow | heq
          · have hin2 : client ∈ (if (cs.getD k []).contains client then cs
                else cs.set k (cs.getD k [] ++ [client])).getD v [] :=
              hcs2sup v client
                (hcsub v hv client ((mem_clients_of env _ v client).mpr ⟨hc, hrow⟩))
            split
            · exact hin2
            · next hncont =>
              rcases getD_set_cases (if (cs.getD k []).contains client then cs
                  else cs.set k (cs.getD k [] ++ [client]))
                  ((s.product_delivery.getD client []).getD product 0 - 1) v _ []
                with hcase | ⟨hcase, hveq, _⟩
              · rw [hcase]
                exact hin2
              · exfalso
                apply hncont
                have hvm2 : ((s.product_delivery.getD client []).getD product 0)
                    ∈ (set2 s.product_delivery client product (k + 1)).getD client [] := by
                  rw [set2_row_self _ _ _ _ (hdims.1 ▸ hc)]
                  rw [hveq] at hvmem
                  rw [hv1] at hvmem
                  exact hvmem
                simpa using hvm2
          · have hvk : v = k := by omega
            rw [hvk]
            split
            · exact hcs2k
            · rcases getD_set_cases (if (cs.getD k []).contains client then cs
                  else cs.set k (cs.getD k [] ++ [client]))
                  ((s.product_delivery.getD client []).getD product 0 - 1) k _ []
                with hcase | ⟨hcase, hveq, _⟩
              · rw [hcase]
                exact hcs2k
              · exact absurd hveq hkne
      -- remaining-capacity facts
      have hkne' : (s.product_delivery.getD client []).getD product 0 - 1 ≠ k :=
        fun he => hkne he.symm
      have hrc2len : (rc.set ((s.product_delivery.getD client []).getD product 0 - 1)
          (rc.getD ((s.product_delivery.getD client []).getD product 0 - 1) 0
            + (env.demand.getD client []).getD product 0)).length = env.vehicle_nr := by
        rw [List.length_set]
        exact hrclen
      have hrc2k : (rc.set ((s.product_delivery.getD client []).getD product 0 - 1)
          (rc.getD ((s.product_delivery.getD client []).getD product 0 - 1) 0
            + (env.demand.getD client []).getD product 0)).getD k 0 = rc.getD k 0 :=
        getD_set_ne _ _ _ _ _ hkne'
      have hrc3k : ((rc.set ((s.product_delivery.getD client []).getD product 0 - 1)
          (rc.getD ((s.product_delivery.getD client []).getD product 0 - 1) 0
            + (env.demand.getD client []).getD product 0)).set k
          ((rc.set ((s.product_delivery.getD client []).getD product 0 - 1)
            (rc.getD ((s.product_delivery.getD client []).getD product 0 - 1) 0
              + (env.demand.getD client []).getD product 0)).getD k 0
            - (env.demand.getD client []).getD product 0)).getD k 0
          = rc.getD k 0 - (env.demand.getD client []).getD product 0 := by
        rw [getD_set_self _ _ _ _ (by rw [hrc2len]; exact hkn), hrc2k]
      have hrc3v : ((rc.set ((s.product_delivery.getD client []).getD product 0 - 1)
          (rc.getD ((s.product_delivery.getD client []).getD product 0 - 1) 0
            + (env.demand.getD client []).getD product 0)).set k
          ((rc.set ((s.product_delivery.getD client []).getD product 0 - 1)
            (rc.getD ((s.product_delivery.getD client []).getD product 0 - 1) 0
              + (env.demand.getD client []).getD product 0)).getD k 0
            - (env.demand.getD client []).getD product 0)).getD
          ((s.product_delivery.getD client []).getD product 0 - 1) 0
          = rc.getD ((s.product_delivery.getD client []).getD product 0 - 1) 0
            + (env.demand.getD client []).getD product 0 := by
        rw [getD_set_ne _ _ _ _ _ hkne, getD_set_self _ _ _ _ (by rw [hrclen]; exact hvn)]
      have hrc3o : ∀ j, j ≠ k →
          j ≠ (s.product_delivery.getD client []).getD product 0 - 1 →
          ((rc.set ((s.product_delivery.getD client []).getD product 0 - 1)
            (rc.getD ((s.product_delivery.getD client []).getD product 0 - 1) 0
              + (env.demand.getD client []).getD product 0)).set k
            ((rc.set ((s.product_delivery.getD client []).getD product 0 - 1)
              (rc.getD ((s.product_delivery.getD client []).getD product 0 - 1) 0
                + (env.demand.getD client []).getD product 0)).getD k 0
              - (env.demand.getD client []).getD product 0)).getD j 0 = rc.getD j 0 := by
        intro j hjk hjv
        rw [getD_set_ne _ _ _ _ _ (fun he => hjk he.symm),
          getD_set_ne _ _ _ _ _ (fun he => hjv he.symm)]
      have hrc3len : ((rc.set ((s.product_delivery.getD client []).getD product 0 - 1)
          (rc.getD ((s.product_delivery.getD client []).getD product 0 - 1) 0
            + (env.demand.getD client []).getD product 0)).set k
          ((rc.set ((s.product_delivery.getD client []).getD product 0 - 1)
            (rc.getD ((s.product_delivery.getD client []).getD product 0 - 1) 0
              + (env.demand.getD client []).getD product 0)).getD k 0
            - (env.demand.getD client []).getD product 0)).length = env.vehicle_nr := by
        rw [List.length_set, hrc2len]
      have hspec3 : ∀ v, v < env.vehicle_nr →
          ((rc.set ((s.product_delivery.getD client []).getD product 0 - 1)
            (rc.getD ((s.product_delivery.getD client []).getD product 0 - 1) 0
              + (env.demand.getD client []).getD product 0)).set k
            ((rc.set ((s.product_delivery.getD client []).getD product 0 - 1)
              (rc.getD ((s.product_delivery.getD client []).getD product 0 - 1) 0
                + (env.demand.getD client []).getD product 0)).getD k 0
              - (env.demand.getD client []).getD product 0)).getD v 0
          = env.capacity.getD v 0
            - vehicle_load env (set2 s.product_delivery client product (k + 1)) v := by
        intro v hv
        have hload := load_set2_delta env s.product_delivery client product (k + 1) v
          hdims hc hp
        by_cases hvk : v = k
        · subst hvk
          rw [hrc3k, hrcspec v hv, hload, if_pos rfl, if_neg (by omega)]
          ring
        · by_cases hvv : v = (s.product_delivery.getD client []).getD product 0 - 1
          · subst hvv
            rw [hrc3v, hrcspec _ hv, hload, if_neg (by omega), if_pos (by omega)]
            ring
          · rw [hrc3o v hvk hvv, hrcspec _ hv, hload, if_neg (by omega),
              if_neg (by omega)]
            ring
      -- overflow bound
      have hind1 : ((List.range env.vehicle_nr).map
          (fun y => if y = (s.product_delivery.getD client []).getD product 0 - 1
            then (1 : ℤ) else 0)).sum = 1 := indicator_range_sum _ _ hvn
      have hindk : ((List.range env.vehicle_nr).map
          (fun y => if y = k then (1 : ℤ) else 0)).sum = 1 := indicator_range_sum _ _ hkn
      have hS2 := sum_map_delta
        (fun y => if (rc.set ((s.product_delivery.getD client []).getD product 0 - 1)
          (rc.getD ((s.product_delivery.getD client []).getD product 0 - 1) 0
            + (env.demand.getD client []).getD product 0)).getD y 0 < 0
          then (1 : ℤ) else 0)
        (fun y => if rc.getD y 0 < 0 then (1 : ℤ) else 0)
        ((s.product_delivery.getD client []).getD product 0 - 1)
        (List.range env.vehicle_nr)
        (by
          intro y _ hy
          simp only []
          rw [getD_set_ne _ _ _ _ _ (fun he => hy he.symm)])
      rw [hind1] at hS2
      have hS3 := sum_map_delta
        (fun y => if ((rc.set ((s.product_delivery.getD client []).getD product 0 - 1)
          (rc.getD ((s.product_delivery.getD client []).getD product 0 - 1) 0
            + (env.demand.getD client []).getD product 0)).set k
          ((rc.set ((s.product_delivery.getD client []).getD product 0 - 1)
            (rc.getD ((s.product_delivery.getD client []).getD product 0 - 1) 0
              + (env.demand.getD client []).getD product 0)).getD k 0
            - (env.demand.getD client []).getD product 0)).getD y 0 < 0
          then (1 : ℤ) else 0)
        (fun y => if (rc.set ((s.product_delivery.getD client []).getD product 0 - 1)
          (rc.getD ((s.product_delivery.getD client []).getD product 0 - 1) 0
            + (env.demand.getD client []).getD product 0)).getD y 0 < 0
          then (1 : ℤ) else 0)
        k (List.range env.vehicle_nr)
        (by
          intro y _ hy
          simp only []
          rw [getD_set_ne _ _ _ _ _ (fun he => hy he.symm)])
      rw [hindk] at hS3
      have hq3k : (if ((rc.set ((s.product_delivery.getD client []).getD product 0 - 1)
          (rc.getD ((s.product_delivery.getD client []).getD product 0 - 1) 0
            + (env.demand.getD client []).getD product 0)).set k
          ((rc.set ((s.product_delivery.getD client []).getD product 0 - 1)
            (rc.getD ((s.product_delivery.getD client []).getD product 0 - 1) 0
              + (env.demand.getD client []).getD product 0)).getD k 0
            - (env.demand.getD client []).getD product 0)).getD k 0 < 0
          then (1 : ℤ) else 0) = 0 := by
        rw [hrc3k, if_neg (by omega)]
      have hq2k : (if (rc.set ((s.product_delivery.getD client []).getD product 0 - 1)
          (rc.getD ((s.product_delivery.getD client []).getD product 0 - 1) 0
            + (env.demand.getD client []).getD product 0)).getD k 0 < 0
          then (1 : ℤ) else 0) = 0 := by
        rw [hrc2k, if_neg (by omega)]
      have hq2v : (if (rc.set ((s.product_delivery.getD client []).getD product 0 - 1)
          (rc.getD ((s.product_delivery.getD client []).getD product 0 - 1) 0
            + (env.demand.getD client []).getD product 0)).getD
          ((s.product_delivery.getD client []).getD product 0 - 1) 0 < 0
          then (1 : ℤ) else 0)
          = (if rc.getD ((s.product_delivery.getD client []).getD product 0 - 1) 0
            + (env.demand.getD client []).getD product 0 < 0
          then (1 : ℤ) else 0) := by
        rw [getD_set_self _ _ _ _ (by rw [hrclen]; exact hvn)]
      have hqv : (if rc.getD ((s.product_delivery.getD client []).getD product 0 - 1) 0
          < 0 then (1 : ℤ) else 0) = 1 := if_pos hneg
      have hov3 : ((List.range env.vehicle_nr).map
          (fun y => if ((rc.set ((s.product_delivery.getD client []).getD product 0 - 1)
            (rc.getD ((s.product_delivery.getD client []).getD product 0 - 1) 0
              + (env.demand.getD client []).getD product 0)).set k
            ((rc.set ((s.product_delivery.getD client []).getD product 0 - 1)
              (rc.getD ((s.product_delivery.getD client []).getD product 0 - 1) 0
                + (env.demand.getD client []).getD product 0)).getD k 0
              - (env.demand.getD client []).getD product 0)).getD y 0 < 0
            then (1 : ℤ) else 0)).sum ≤
          (if ((rc.set ((s.product_delivery.getD client []).getD product 0 - 1)
            (rc.getD ((s.product_delivery.getD client []).getD product 0 - 1) 0
              + (env.demand.getD client []).getD product 0)).set k
            ((rc.set ((s.product_delivery.getD client []).getD product 0 - 1)
              (rc.getD ((s.product_delivery.getD client []).getD product 0 - 1) 0
                + (env.demand.getD client []).getD product 0)).getD k 0
              - (env.demand.getD client []).getD product 0)).getD
            ((s.product_delivery.getD client []).getD product 0 - 1) 0 ≥ 0
          then ov - 1 else ov) := by
        rw [hS3, hS2]
        simp only [hq3k, hq2k, hq2v, hqv, hrc3v]
        by_cases hge : rc.getD ((s.product_delivery.getD client []).getD product 0 - 1) 0
            + (env.demand.getD client []).getD product 0 ≥ 0
        · rw [if_pos hge, if_neg (by omega)]
          omega
        · rw [if_neg hge, if_pos (by omega)]
          omega
      exact ⟨hdims2, ⟨hcs3len, hcs3mem, hsub3⟩, hcs3twelve, hrc3len, hspec3, hov3⟩

theorem overflow_client_inv (env : Env) (hd : nonneg_demand env) (i client : ℕ)
    (hc : client < env.client_nr)
    (st : Sol × List (List ℕ) × List ℤ × ℤ × Rand)
    (h : os_inv env st.1 st.2.1 st.2.2.1 st.2.2.2.1) :
    os_inv env (overflow_client env i client st).1
      (overflow_client env i client st).2.1
      (overflow_client env i client st).2.2.1
      (overflow_client env i client st).2.2.2.1 := by
  obtain ⟨s, cs, rc, ov, r⟩ := st
  simp only [] at h
  unfold overflow_client
  simp only []
  have key : ∀ (ps : List ℕ), (∀ p ∈ ps, p < env.product_nr) →
      ∀ (st2 : Sol × List (List ℕ) × List ℤ × ℤ × Rand),
        os_inv env st2.1 st2.2.1 st2.2.2.1 st2.2.2.2.1 →
        os_inv env
          (ps.foldl (fun st3 product => overflow_step env i client product st3) st2).1
          (ps.foldl (fun st3 product => overflow_step env i client product st3) st2).2.1
          (ps.foldl (fun st3 product =>
            overflow_step env i client product st3) st2).2.2.1
          (ps.foldl (fun st3 product =>
            overflow_step env i client product st3) st2).2.2.2.1 := by
    intro ps
    induction ps with
    | nil =>
      intro _ st2 h2
      exact h2
    | cons p ps ih =>
      intro hps st2 h2
      rw [List.foldl_cons]
      exact ih (fun q hq => hps q (List.mem_cons_of_mem _ hq)) _
        (overflow_step_inv env hd i client p hc (hps p (List.mem_cons_self _ _)) st2 h2)
  exact key _ (fun p hp => List.mem_range.mp ((shuffle_perm _ _).mem_iff.mp hp))
    (s, cs, rc, ov, (shuffle (List.range env.product_nr) r).2) h

theorem overflow_pass_inv (env : Env) (hd : nonneg_demand env) (i : ℕ) :
    ∀ (cl : List ℕ), (∀ c ∈ cl, c < env.client_nr) →
      ∀ (st : Sol × List (List ℕ) × List ℤ × ℤ × Rand),
        os_inv env st.1 st.2.1 st.2.2.1 st.2.2.2.1 →
        os_inv env (overflow_pass env i cl st).1 (overflow_pass env i cl st).2.1
          (overflow_pass env i cl st).2.2.1 (overflow_pass env i cl st).2.2.2.1 := by
  intro cl
  induction cl with
  | nil =>
    intro _ st h
    exact h
  | cons c cl ih =>
    intro hcl st h
    show os_inv env (overflow_pass env i cl (overflow_client env i c st)).1
      (overflow_pass env i cl (overflow_client env i c st)).2.1
      (overflow_pass env i cl (overflow_client env i c st)).2.2.1
      (overflow_pass env i cl (overflow_client env i c st)).2.2.2.1
    exact ih (fun q hq => hcl q (List.mem_cons_of_mem _ hq)) _
      (overflow_client_inv env hd i c (hcl c (List.mem_cons_self _ _)) st h)

theorem exit_sol_ok (env : Env) (s : Sol) (cs : List (List ℕ)) (rc : List ℤ) (ov : ℤ)
    (hinv : os_inv env s cs rc ov) (hov : ¬ ov > 0) :
    sol_ok env s.product_delivery := by
  obtain ⟨hdims, ⟨hcslen, hcsmem, hcsub⟩, hcs12, hrclen, hrcspec, hovge⟩ := hinv
  refine ⟨hdims, ?_, ?_⟩
  · intro v hv
    have hnonneg : 0 ≤ rc.getD v 0 := by
      by_contra hneg
      push_neg at hneg
      have hmem : (if rc.getD v 0 < 0 then (1 : ℤ) else 0)
          ∈ (List.range env.vehicle_nr).map
            (fun i => if rc.getD i 0 < 0 then (1 : ℤ) else 0) :=
        List.mem_map.mpr ⟨v, List.mem_range.mpr hv, rfl⟩
      have hall : ∀ x ∈ (List.range env.vehicle_nr).map
          (fun i => if rc.getD i 0 < 0 then (1 : ℤ) else 0), 0 ≤ x := by
        intro x hx
        rcases List.mem_map.mp hx with ⟨j, _, hj⟩
        rw [← hj]
        split
        · omega
        · omega
      have hterm := List.single_le_sum hall _ hmem
      rw [if_pos hneg] at hterm
      have : (1 : ℤ) ≤ ov := le_trans hterm hovge
      omega
    have := hrcspec v hv
    omega
  · intro v hv
    exact le_trans
      (length_le_of_nodup_subset (clients_of_nodup env s.product_delivery v)
        (hcsub v hv)) (hcs12 v)

theorem loop_go_inv (env : Env) (hd : nonneg_demand env)
    (gcf : Rand → Option (Sol × Rand))
    (hQ : ∀ r s' r', gcf r = some (s', r') → sol_ok env s'.product_delivery) :
    ∀ (fuel i : ℕ) (s : Sol) (cs : List (List ℕ)) (rc : List ℤ) (ov : ℤ) (r : Rand)
      (out : Sol × List (List ℕ) × Rand),
      os_inv env s cs rc ov →
      correct_overflow_loop_go env gcf fuel i s cs rc ov r = some out →
      sol_ok env out.1.product_delivery := by
  intro fuel
  induction fuel with
  | zero =>
    intro i s cs rc ov r out hinv hrun
    unfold correct_overflow_loop_go at hrun
    by_cases hov : ov > 0
    · rw [if_pos hov] at hrun
      cases hrun
    · rw [if_neg hov] at hrun
      injection hrun with he
      rw [← he]
      exact exit_sol_ok env s cs rc ov hinv hov
  | succ fuel ih =>
    intro i s cs rc ov r out hinv hrun
    unfold correct_overflow_loop_go at hrun
    by_cases hov : ov > 0
    case neg =>
      rw [if_neg hov] at hrun
      injection hrun with he
      rw [← he]
      exact exit_sol_ok env s cs rc ov hinv hov
    case pos =>
      rw [if_pos hov] at hrun
      simp only [] at hrun
      have hpass := overflow_pass_inv env hd i (shuffle (List.range env.client_nr) r).1
        (fun c hcm => List.mem_range.mp ((shuffle_perm _ _).mem_iff.mp hcm))
        (s, cs, rc, ov, (shuffle (List.range env.client_nr) r).2) hinv
      rcases hst : overflow_pass env i (shuffle (List.range env.client_nr) r).1
          (s, cs, rc, ov, (shuffle (List.range env.client_nr) r).2)
        with ⟨s2, cs2, rc2, ov2, r2⟩
      rw [hst] at hrun hpass
      simp only [] at hrun hpass
      by_cases hregen : (i + 1 > 2 ∧ rc2 = rc)
      · rw [if_pos hregen] at hrun
        cases hgc : gcf r2 with
        | none =>
          rw [hgc] at hrun
          cases hrun
        | some sr =>
          obtain ⟨sol, r3⟩ := sr
          rw [hgc] at hrun
          simp only [] at hrun
          injection hrun with he
          rw [← he]
          exact hQ r2 sol r3 hgc
      · rw [if_neg hregen] at hrun
        exact ih (i + 1) s2 cs2 rc2 ov2 r2 out hpass hrun

theorem choice_mem {α : Type} (l : List α) (r : Rand) (x : α) (r2 : Rand)
    (h : choice l r = some (x, r2)) : x ∈ l := by
  match l with
  | [] => cases h
  | a :: as =>
    simp only [choice] at h
    have hx : (a :: as).getD ((next_nat r).1 % (a :: as).length) a = x :=
      congrArg Prod.fst (Option.some_injective _ h)
    rw [← hx]
    have hlt : (next_nat r).1 % (a :: as).length < (a :: as).length :=
      Nat.mod_lt _ (by simp)
    rw [List.getD_eq_getElem _ _ hlt]
    exact List.getElem_mem _

theorem limit_products_nil (env : Env) (veh client : ℕ) (available : List ℕ)
    (s : Sol) (cs : List (List ℕ)) (r : Rand) :
    limit_products env veh client available [] (s, cs, r) = some (s, cs, r) := rfl

theorem limit_products_cons (env : Env) (veh client : ℕ) (available : List ℕ)
    (p : ℕ) (ps : List ℕ) (s : Sol) (cs : List (List ℕ)) (r : Rand) :
    limit_products env veh client available (p :: ps) (s, cs, r)
      = if (s.product_delivery.getD client []).getD p 0 = veh + 1 then
          match choice available r with
          | none => none
          | some (new_veh, r2) =>
            limit_products env veh client available ps
              ({ s with
                 product_delivery := set2 s.product_delivery client p (new_veh + 1) },
               (if (cs.getD new_veh []).contains client then cs
                else cs.set new_veh ((cs.getD new_veh []) ++ [client])), r2)
        else limit_products env veh client available ps (s, cs, r) := rfl

/-- Adding a client to a clients_served row (append unless already listed):
length, membership and per-row growth facts. -/
theorem add_client_facts (cs : List (List ℕ)) (j client : ℕ) (hj : j < cs.length) :
    ((if (cs.getD j []).contains client then cs
       else cs.set j ((cs.getD j []) ++ [client])).length = cs.length) ∧
    client ∈ (if (cs.getD j []).contains client then cs
       else cs.set j ((cs.getD j []) ++ [client])).getD j [] ∧
    (∀ v c, c ∈ (if (cs.getD j []).contains client then cs
       else cs.set j ((cs.getD j []) ++ [client])).getD v [] →
       c ∈ cs.getD v [] ∨ c = client) ∧
    (∀ v c, c ∈ cs.getD v [] → c ∈ (if (cs.getD j []).contains client then cs
       else cs.set j ((cs.getD j []) ++ [client])).getD v []) ∧
    (∀ v, (if (cs.getD j []).contains client then cs
       else cs.set j ((cs.getD j []) ++ [client])).getD v [] = cs.getD v [] ∨
       (client ∉ cs.getD v [] ∧ v = j ∧
        (if (cs.getD j []).contains client then cs
         else cs.set j ((cs.getD j []) ++ [client])).getD v []
          = cs.getD v [] ++ [client])) := by
  by_cases hcont : (cs.getD j []).contains client
  · rw [if_pos hcont]
    exact ⟨rfl, by simpa using hcont, fun v c hc => Or.inl hc, fun v c hc => hc,
      fun v => Or.inl rfl⟩
  · rw [if_neg hcont]
    refine ⟨List.length_set _ _ _, ?_, ?_, ?_, ?_⟩
    · rw [getD_set_self _ _ _ _ hj]
      simp
    · intro v c hc
      rcases getD_set_cases cs j v ((cs.getD j []) ++ [client]) [] with h | ⟨h, hv, _⟩
      · rw [h] at hc
        exact Or.inl hc
      · rw [h] at hc
        rcases List.mem_append.mp hc with h1 | h1
        · rw [hv]
          exact Or.inl h1
        · exact Or.inr (List.mem_singleton.mp h1)
    · intro v c hc
      rcases getD_set_cases cs j v ((cs.getD j []) ++ [client]) [] with h | ⟨h, hv, _⟩
      · rw [h]
        exact hc
      · rw [h]
        rw [hv] at hc
        exact List.mem_append.mpr (Or.inl hc)
    · intro v
      rcases getD_set_cases cs j v ((cs.getD j []) ++ [client]) [] with h | ⟨h, hv, _⟩
      · exact Or.inl h
      · refine Or.inr ⟨?_, hv, by rw [h, hv]⟩
        rw [hv]
        simpa using hcont

/-- Invariant preservation and change characterization of the per-product
reassignment loop inside Solution.limit_clients: the invariant is kept, only
the excess client's delivery row changes, no cell is rewritten back to the
overloaded vehicle, all processed products leave it, and each clients_served
row either stays or gains exactly the excess client (an eligible row only). -/
theorem limit_products_inv (env : Env) (veh client : ℕ) (available : List ℕ)
    (hav : ∀ a ∈ available, a ≠ veh ∧ a < env.vehicle_nr)
    (hcl : client < env.client_nr) :
    ∀ (products : List ℕ) (s : Sol) (cs : List (List ℕ)) (r : Rand)
      (out : Sol × List (List ℕ) × Rand),
      (∀ p ∈ products, p < env.product_nr) →
      limit_products env veh client available products (s, cs, r) = some out →
      lc_inv env s.product_delivery cs →
      lc_inv env out.1.product_delivery out.2.1 ∧
      (∀ c', c' ≠ client →
        out.1.product_delivery.getD c' [] = s.product_delivery.getD c' []) ∧
      (∀ q, (out.1.product_delivery.getD client []).getD q 0 = veh + 1 →
        (s.product_delivery.getD client []).getD q 0 = veh + 1) ∧
      (∀ q ∈ products, (out.1.product_delivery.getD client []).getD q 0 ≠ veh + 1) ∧
      (∀ v, out.2.1.getD v [] = cs.getD v [] ∨
        (v ∈ available ∧ client ∉ cs.getD v [] ∧
          out.2.1.getD v [] = cs.getD v [] ++ [client])) := by
  intro products
  induction products with
  | nil =>
    intro s cs r out hb hrun hinv
    rw [limit_products_nil] at hrun
    injection hrun with he
    rw [← he]
    exact ⟨hinv, fun c' _ => rfl, fun q hq => hq,
      fun q hq => absurd hq (List.not_mem_nil q), fun v => Or.inl rfl⟩
  | cons p ps ih =>
    intro s cs r out hb hrun hinv
    rw [limit_products_cons] at hrun
    by_cases hcell : (s.product_delivery.getD client []).getD p 0 = veh + 1
    case neg =>
      rw [if_neg hcell] at hrun
      have hres := ih s cs r out (fun q hq => hb q (List.mem_cons_of_mem _ hq)) hrun hinv
      obtain ⟨h1, h2, h3, h4, h5⟩ := hres
      refine ⟨h1, h2, h3, ?_, h5⟩
      intro q hq
      rcases List.mem_cons.mp hq with hq1 | hq1
      · intro hcon
        rw [hq1] at hcon
        exact hcell (h3 p hcon)
      · exact h4 q hq1
    case pos =>
      rw [if_pos hcell] at hrun
      cases hch : choice available r with
      | none =>
        rw [hch] at hrun
        cases hrun
      | some nr =>
        obtain ⟨new_veh, r2⟩ := nr
        rw [hch] at hrun
        have hrun2 : limit_products env veh client available ps
            ({ s with
               product_delivery := set2 s.product_delivery client p (new_veh + 1) },
             (if (cs.getD new_veh []).contains client then cs
              else cs.set new_veh ((cs.getD new_veh []) ++ [client])), r2)
            = some out := hrun
        obtain ⟨hd0, hcslen, hmlt, hsub⟩ := hinv
        have hmemnv : new_veh ∈ available := choice_mem available r new_veh r2 hch
        have hnv := hav new_veh hmemnv
        have hnvlt : new_veh < cs.length := by
          rw [hcslen]
          exact hnv.2
        obtain ⟨halen, hamem, hashrink, hasup, haG⟩ := add_client_facts cs new_veh client hnvlt
        have hpd_len : client < s.product_delivery.length := by
          rw [hd0.1]
          exact hcl
        have hrow2 : (set2 s.product_delivery client p (new_veh + 1)).getD client []
            = (s.product_delivery.getD client []).set p (new_veh + 1) :=
          set2_row_self _ _ _ _ hpd_len
        have hrlen : (s.product_delivery.getD client []).length = env.product_nr :=
          hd0.2 _ (getD_mem_of_lt _ _ _ hpd_len)
        have hplt : p < (s.product_delivery.getD client []).length := by
          rw [hrlen]
          exact hb p (List.mem_cons_self _ _)
        have hinv2 : lc_inv env
            (set2 s.product_delivery client p (new_veh + 1))
            (if (cs.getD new_veh []).contains client then cs
             else cs.set new_veh ((cs.getD new_veh []) ++ [client])) := by
          refine ⟨set2_dims env _ client p _ hd0 hcl, by rw [halen]; exact hcslen, ?_, ?_⟩
          · intro v c hc
            rcases hashrink v c hc with h | h
            · exact hmlt v c h
            · rw [h]
              exact hcl
          · intro v hv c hc
            rw [mem_clients_of] at hc
            obtain ⟨hclt, hmempd⟩ := hc
            by_cases hcc : c = client
            · rw [hcc, hrow2] at hmempd
              rcases List.mem_or_eq_of_mem_set hmempd with hmo | heq
              · rw [hcc]
                exact hasup v client (hsub v hv client
                  ((mem_clients_of env _ v client).mpr ⟨hcl, hmo⟩))
              · have hveq : v = new_veh := by omega
                rw [hcc, hveq]
                exact hamem
            · rw [set2_row_ne _ _ _ _ _ hcc] at hmempd
              exact hasup v c (hsub v hv c ((mem_clients_of env _ v c).mpr ⟨hclt, hmempd⟩))
        have hres := ih _ _ r2 out (fun q hq => hb q (List.mem_cons_of_mem _ hq)) hrun2 hinv2
        simp only [] at hres
        obtain ⟨hlc2, hrowo, hNW, hproc, hG2⟩ := hres
        have hne := hnv.1
        refine ⟨hlc2, ?_, ?_, ?_, ?_⟩
        · intro c' hnec
          rw [hrowo c' hnec]
          exact set2_row_ne _ _ _ _ _ hnec
        · intro q hq
          have h2 := hNW q hq
          rw [hrow2] at h2
          by_cases hqp : q = p
          · rw [hqp, getD_set_self _ _ _ _ hplt] at h2
            omega
          · rw [getD_set_ne _ _ _ _ _ (Ne.symm hqp)] at h2
            exact h2
        · intro q hq
          rcases List.mem_cons.mp hq with hq1 | hq1
          · intro hcon
            have h2 := hNW q hcon
            rw [hrow2, hq1, getD_set_self _ _ _ _ hplt] at h2
            omega
          · exact hproc q hq1
        · intro v
          rcases hG2 v with h | ⟨hvav, hnotin, happ⟩
          · rcases haG v with h0 | ⟨hnin0, hveq0, happ0⟩
            · exact Or.inl (h.trans h0)
            · refine Or.inr ⟨?_, hnin0, h.trans happ0⟩
              rw [hveq0]
              exact hmemnv
          · rcases haG v with h0 | ⟨hnin0, hveq0, happ0⟩
            · refine Or.inr ⟨hvav, ?_, ?_⟩
              · rw [← h0]
                exact hnotin
              · rw [happ, h0]
            · refine absurd ?_ hnotin
              rw [happ0]
              exact List.mem_append.mpr (Or.inr (List.mem_singleton.mpr rfl))

theorem limit_one_zero (env : Env) (max_nr veh : ℕ) (s : Sol) (cs : List (List ℕ))
    (r : Rand) : limit_one env max_nr veh 0 (s, cs, r) = none := rfl

theorem limit_one_succ (env : Env) (max_nr veh fuelL : ℕ) (s : Sol)
    (cs : List (List ℕ)) (r : Rand) :
    limit_one env max_nr veh (fuelL + 1) (s, cs, r)
      = if (cs.getD veh []).length > max_nr then
          match choice (cs.getD veh []) r with
          | none => none
          | some (client_to_remove, r2) =>
            match limit_products env veh client_to_remove
                ((List.range env.vehicle_nr).filter (fun ve =>
                  decide (ve ≠ veh) &&
                    (decide ((cs.getD ve []).length < max_nr) ||
                      (cs.getD ve []).contains client_to_remove)))
                (List.range env.product_nr) (s, cs, r2) with
            | none => none
            | some (s2, cs2, r3) =>
              limit_one env max_nr veh fuelL
                (s2, cs2.set veh ((cs2.getD veh []).erase client_to_remove), r3)
        else some (s, cs, r) := rfl

/-- Invariant preservation and growth bound of the per-vehicle
`while len(clients_served[veh]) > 12` loop of Solution.limit_clients: when
the loop returns, the invariant holds, the processed vehicle's row is within
the cap, and every other row is within the cap or no longer than before. -/
theorem limit_one_inv (env : Env) (veh : ℕ) (hveh : veh < env.vehicle_nr) :
    ∀ (fuelL : ℕ) (s : Sol) (cs : List (List ℕ)) (r : Rand)
      (out : Sol × List (List ℕ) × Rand),
      limit_one env 12 veh fuelL (s, cs, r) = some out →
      lc_inv env s.product_delivery cs →
      lc_inv env out.1.product_delivery out.2.1 ∧
      (out.2.1.getD veh []).length ≤ 12 ∧
      (∀ v, (out.2.1.getD v []).length ≤ 12 ∨
        (out.2.1.getD v []).length ≤ (cs.getD v []).length) := by
  intro fuelL
  induction fuelL with
  | zero =>
    intro s cs r out hrun hinv
    rw [limit_one_zero] at hrun
    cases hrun
  | succ fuelL ih =>
    intro s cs r out hrun hinv
    rw [limit_one_succ] at hrun
    by_cases hlen : (cs.getD veh []).length > 12
    case neg =>
      rw [if_neg hlen] at hrun
      injection hrun with he
      rw [← he]
      refine ⟨hinv, ?_, fun v => Or.inr le_rfl⟩
      simp only []
      omega
    case pos =>
      rw [if_pos hlen] at hrun
      cases hch : choice (cs.getD veh []) r with
      | none =>
        rw [hch] at hrun
        cases hrun
      | some cr =>
        obtain ⟨client, r2⟩ := cr
        rw [hch] at hrun
        replace hrun : (match limit_products env veh client
            ((List.range env.vehicle_nr).filter (fun ve =>
              decide (ve ≠ veh) &&
                (decide ((cs.getD ve []).length < 12) ||
                  (cs.getD ve []).contains client)))
            (List.range env.product_nr) (s, cs, r2) with
          | none => none
          | some (s2, cs2, r3) =>
            limit_one env 12 veh fuelL
              (s2, cs2.set veh ((cs2.getD veh []).erase client), r3)) = some out := hrun
        have hclmem : client ∈ cs.getD veh [] := choice_mem _ _ _ _ hch
        have hcl : client < env.client_nr := hinv.2.2.1 veh client hclmem
        have hav : ∀ a ∈ (List.range env.vehicle_nr).filter (fun ve =>
            decide (ve ≠ veh) &&
              (decide ((cs.getD ve []).length < 12) ||
                (cs.getD ve []).contains client)),
            a ≠ veh ∧ a < env.vehicle_nr := by
          intro a ha
          have h1 := List.mem_filter.mp ha
          refine ⟨?_, List.mem_range.mp h1.1⟩
          have h2 := h1.2
          simp only [Bool.and_eq_true, decide_eq_true_eq] at h2
          exact h2.1
        cases hlp : limit_products env veh client
            ((List.range env.vehicle_nr).filter (fun ve =>
              decide (ve ≠ veh) &&
                (decide ((cs.getD ve []).length < 12) ||
                  (cs.getD ve []).contains client)))
            (List.range env.product_nr) (s, cs, r2) with
        | none =>
          rw [hlp] at hrun
          cases hrun
        | some mid =>
          obtain ⟨s2, cs2, r3⟩ := mid
          rw [hlp] at hrun
          have hrun2 : limit_one env 12 veh fuelL
              (s2, cs2.set veh ((cs2.getD veh []).erase client), r3) = some out := hrun
          have hmid := limit_products_inv env veh client _ hav hcl
            (List.range env.product_nr) s cs r2 (s2, cs2, r3)
            (fun q hq => List.mem_range.mp hq) hlp hinv
          simp only [] at hmid
          obtain ⟨hlc2, hrowo, hNW, hproc, hG⟩ := hmid
          have hvehrow : cs2.getD veh [] = cs.getD veh [] := by
            rcases hG veh with h | ⟨hmem, _, _⟩
            · exact h
            · exact absurd rfl (hav veh hmem).1
          obtain ⟨hd2, hlen2, hmlt2, hsub2⟩ := hlc2
          have hinv3 : lc_inv env s2.product_delivery
              (cs2.set veh ((cs2.getD veh []).erase client)) := by
            refine ⟨hd2, by rw [List.length_set]; exact hlen2, ?_, ?_⟩
            · exact memP_set (fun c => c < env.client_nr) cs2 veh _ hmlt2
                (fun c hcm => hmlt2 veh c (List.mem_of_mem_erase hcm))
            · intro v hv c hc
              rcases getD_set_cases cs2 veh v ((cs2.getD veh []).erase client) []
                with hca | ⟨hca, hveq, _⟩
              · rw [hca]
                exact hsub2 v hv c hc
              · rw [hca]
                rw [hveq] at hc
                have hcne : c ≠ client := by
                  intro he
                  rw [he, mem_clients_of] at hc
                  obtain ⟨_, hvm⟩ := hc
                  obtain ⟨idx, hilt, hix⟩ := List.getElem_of_mem hvm
                  have hclen2 : client < s2.product_delivery.length := by
                    rw [hd2.1]
                    exact hcl
                  have hrl : (s2.product_delivery.getD client []).length
                      = env.product_nr := hd2.2 _ (getD_mem_of_lt _ _ _ hclen2)
                  have hgd : (s2.product_delivery.getD client []).getD idx 0 = veh + 1 := by
                    rw [List.getD_eq_getElem _ _ hilt, hix]
                  exact hproc idx (List.mem_range.mpr (by rw [← hrl]; exact hilt)) hgd
                exact (List.mem_erase_of_ne hcne).mpr (hsub2 veh hveh c hc)
          have hrec := ih s2 (cs2.set veh ((cs2.getD veh []).erase client)) r3 out
            hrun2 hinv3
          obtain ⟨hfin, hfveh, hfG⟩ := hrec
          refine ⟨hfin, hfveh, ?_⟩
          intro v
          rcases hfG v with h | h
          · exact Or.inl h
          · rcases getD_set_cases cs2 veh v ((cs2.getD veh []).erase client) []
              with hca | ⟨hca, hveq, _⟩
            · rw [hca] at h
              rcases hG v with hg | ⟨hmemav, hnotin, happ⟩
              · rw [hg] at h
                exact Or.inr h
              · have hpred := (List.mem_filter.mp hmemav).2
                simp only [Bool.and_eq_true, Bool.or_eq_true, decide_eq_true_eq] at hpred
                rcases hpred.2 with hlt | hcont
                · rw [happ, List.length_append] at h
                  simp only [List.length_singleton] at h
                  exact Or.inl (by omega)
                · exact absurd (by simpa using hcont) hnotin
            · rw [hca] at h
              rw [hveq] at h ⊢
              refine Or.inr ?_
              calc (out.2.1.getD veh []).length
                  ≤ ((cs2.getD veh []).erase client).length := h
                _ ≤ (cs2.getD veh []).length := (List.erase_sublist _ _).length_le
                _ = (cs.getD veh []).length := by rw [hvehrow]

theorem foldl_none_absorb {γ δ : Type} (F : Option γ → δ → Option γ)
    (hF : ∀ v, F none v = none) : ∀ (T : List δ), T.foldl F none = none := by
  intro T
  induction T with
  | nil => rfl
  | cons a T ih =>
    rw [List.foldl_cons, hF]
    exact ih

/-- The fold of Solution.limit_clients over the overloaded vehicles: given
that every row is either within the cap or still scheduled, on success every
row ends within the cap and the invariant holds. -/
theorem limit_fold_inv (env : Env) :
    ∀ (T : List ℕ), (∀ v ∈ T, v < env.vehicle_nr) →
    ∀ (s : Sol) (cs : List (List ℕ)) (r : Rand) (out : Sol × List (List ℕ) × Rand),
      T.foldl (fun acc veh =>
        match acc with
        | none => none
        | some (s, cs, r) => limit_one env 12 veh ((cs.getD veh []).length) (s, cs, r))
        (some (s, cs, r)) = some out →
      lc_inv env s.product_delivery cs →
      (∀ v, (cs.getD v []).length ≤ 12 ∨ v ∈ T) →
      lc_inv env out.1.product_delivery out.2.1 ∧
      (∀ v, (out.2.1.getD v []).length ≤ 12) := by
  intro T
  induction T with
  | nil =>
    intro _ s cs r out hrun hinv h12
    rw [List.foldl_nil] at hrun
    injection hrun with he
    rw [← he]
    refine ⟨hinv, ?_⟩
    intro v
    rcases h12 v with h | h
    · exact h
    · exact absurd h (List.not_mem_nil v)
  | cons veh T ih =>
    intro hT s cs r out hrun hinv h12
    rw [List.foldl_cons] at hrun
    replace hrun : T.foldl (fun acc veh =>
        match acc with
        | none => none
        | some (s, cs, r) => limit_one env 12 veh ((cs.getD veh []).length) (s, cs, r))
        (limit_one env 12 veh ((cs.getD veh []).length) (s, cs, r)) = some out := hrun
    cases hlo : limit_one env 12 veh ((cs.getD veh []).length) (s, cs, r) with
    | none =>
      rw [hlo] at hrun
      rw [foldl_none_absorb _ (fun v => rfl) T] at hrun
      cases hrun
    | some mid =>
      obtain ⟨s2, cs2, r2⟩ := mid
      rw [hlo] at hrun
      have hveh : veh < env.vehicle_nr := hT veh (List.mem_cons_self _ _)
      have h1 := limit_one_inv env veh hveh ((cs.getD veh []).length) s cs r
        (s2, cs2, r2) hlo hinv
      simp only [] at h1
      obtain ⟨hlc2, hv12, hG⟩ := h1
      refine ih (fun v hv => hT v (List.mem_cons_of_mem _ hv)) s2 cs2 r2 out hrun hlc2 ?_
      intro v
      rcases hG v with h | h
      · exact Or.inl h
      · rcases h12 v with h0 | h0
        · exact Or.inl (le_trans h h0)
        · rcases List.mem_cons.mp h0 with he | hm
          · rw [he]
            exact Or.inl hv12
          · exact Or.inr hm

/-- Solution.limit_clients: on success the invariant holds and every
clients_served row has at most 12 entries. -/
theorem limit_clients_post (env : Env) (s : Sol) (cs : List (List ℕ)) (r : Rand)
    (out : Sol × List (List ℕ) × Rand)
    (hrun : limit_clients env 12 s cs r = some out)
    (hinv : lc_inv env s.product_delivery cs) :
    lc_inv env out.1.product_delivery out.2.1 ∧
    (∀ v, (out.2.1.getD v []).length ≤ 12) := by
  refine limit_fold_inv env
    ((List.range env.vehicle_nr).filter (fun ve => decide ((cs.getD ve []).length > 12)))
    (fun v hv => List.mem_range.mp (List.mem_filter.mp hv).1) s cs r out hrun hinv ?_
  intro v
  by_cases hv : (cs.getD v []).length ≤ 12
  · exact Or.inl hv
  · refine Or.inr (List.mem_filter.mpr ⟨List.mem_range.mpr ?_,
      by simp only [decide_eq_true_eq]; omega⟩)
    by_contra hge
    have hnil : cs.getD v [] = [] := List.getD_eq_default _ _ (by
      rw [hinv.2.1]
      omega)
    rw [hnil] at hv
    simp at hv

/-- The fold of Solution.determine_overflow: each in-range write decrements
the delivering vehicle's remaining capacity by the cell's demand. -/
theorem det_go (env : Env) (pd : List (List ℕ)) :
    ∀ (l : List (ℕ × ℕ)) (rc : List ℤ),
      ((l.foldl (fun rc cp =>
        if (pd.getD cp.1 []).getD cp.2 0 ≠ 0 then
          rc.set ((pd.getD cp.1 []).getD cp.2 0 - 1)
            (rc.getD ((pd.getD cp.1 []).getD cp.2 0 - 1) 0
              - (env.demand.getD cp.1 []).getD cp.2 0)
        else rc) rc).length = rc.length) ∧
      (∀ v, v < rc.length →
        (l.foldl (fun rc cp =>
          if (pd.getD cp.1 []).getD cp.2 0 ≠ 0 then
            rc.set ((pd.getD cp.1 []).getD cp.2 0 - 1)
              (rc.getD ((pd.getD cp.1 []).getD cp.2 0 - 1) 0
                - (env.demand.getD cp.1 []).getD cp.2 0)
          else rc) rc).getD v 0
          = rc.getD v 0 - (l.map (fun cp =>
              if (pd.getD cp.1 []).getD cp.2 0 = v + 1 then
                (env.demand.getD cp.1 []).getD cp.2 0 else 0)).sum) := by
  intro l
  induction l with
  | nil =>
    intro rc
    refine ⟨rfl, ?_⟩
    intro v _
    simp
  | cons cp l ih =>
    intro rc
    rw [List.foldl_cons]
    by_cases h0 : (pd.getD cp.1 []).getD cp.2 0 ≠ 0
    · rw [if_pos h0]
      have hset := ih (rc.set ((pd.getD cp.1 []).getD cp.2 0 - 1)
        (rc.getD ((pd.getD cp.1 []).getD cp.2 0 - 1) 0
          - (env.demand.getD cp.1 []).getD cp.2 0))
      refine ⟨by rw [hset.1, List.length_set], ?_⟩
      intro v hv
      rw [hset.2 v (by rw [List.length_set]; exact hv)]
      rw [List.map_cons, List.sum_cons]
      by_cases hvv : (pd.getD cp.1 []).getD cp.2 0 = v + 1
      · have hidx : (pd.getD cp.1 []).getD cp.2 0 - 1 = v := by omega
        rw [hidx, getD_set_self _ _ _ _ hv, if_pos hvv]
        ring
      · have hidx : (pd.getD cp.1 []).getD cp.2 0 - 1 ≠ v := by omega
        rw [getD_set_ne _ _ _ _ _ hidx, if_neg hvv]
        ring
    · rw [if_neg h0]
      have hrec := ih rc
      refine ⟨hrec.1, ?_⟩
      intro v hv
      rw [hrec.2 v hv, List.map_cons, List.sum_cons]
      have hvv : ¬ (pd.getD cp.1 []).getD cp.2 0 = v + 1 := by omega
      rw [if_neg hvv]
      ring

/-- Solution.determine_overflow returns one remaining-capacity entry per
vehicle: the vehicle's capacity minus its assigned load. -/
theorem determine_overflow_spec (env : Env) (s : Sol) :
    (determine_overflow env s).length = env.vehicle_nr ∧
    (∀ v, v < env.vehicle_nr →
      (determine_overflow env s).getD v 0
        = env.capacity.getD v 0 - vehicle_load env s.product_delivery v) := by
  have hgo := det_go env s.product_delivery (cp_pairs env) env.capacity
  have hdef : determine_overflow env s
      = (cp_pairs env).foldl (fun rc cp =>
        if (s.product_delivery.getD cp.1 []).getD cp.2 0 ≠ 0 then
          rc.set ((s.product_delivery.getD cp.1 []).getD cp.2 0 - 1)
            (rc.getD ((s.product_delivery.getD cp.1 []).getD cp.2 0 - 1) 0
              - (env.demand.getD cp.1 []).getD cp.2 0)
        else rc) env.capacity := rfl
  refine ⟨by rw [hdef, hgo.1]; rfl, ?_⟩
  intro v hv
  rw [hdef, hgo.2 v hv, load_eq_sum]

/-- Solution.order_client_visits only touches starting_points and
client_order: one vehicle's step leaves product_delivery unchanged. -/
theorem ocv_veh_pd (env : Env) (s : Sol) (veh : ℕ) (vc : List ℕ) (s' : Sol)
    (h : order_client_visits_veh env s veh vc = some s') :
    s'.product_delivery = s.product_delivery := by
  unfold order_client_visits_veh at h
  by_cases hc : (vc = s.l2_clients.getD veh [] ∧ vc.length > 0 ∧
      s.starting_points.getD veh 0 > 0)
  · rw [if_pos hc] at h
    injection h with he
    rw [← he]
  · rw [if_neg hc] at h
    simp only [] at h
    split at h
    · cases h
    · injection h with he
      rw [← he]

/-- The per-vehicle fold of Solution.order_client_visits leaves
product_delivery unchanged. -/
theorem ocv_fold_pd (env : Env) :
    ∀ (csl : List (ℕ × List ℕ)) (s s' : Sol),
      csl.foldl (fun acc p =>
        match acc with
        | none => none
        | some s => order_client_visits_veh env s p.1 p.2) (some s) = some s' →
      s'.product_delivery = s.product_delivery := by
  intro csl
  induction csl with
  | nil =>
    intro s s' h
    rw [List.foldl_nil] at h
    injection h with he
    rw [← he]
  | cons p ps ih =>
    intro s s' h
    rw [List.foldl_cons] at h
    replace h : ps.foldl (fun acc p =>
        match acc with
        | none => none
        | some s => order_client_visits_veh env s p.1 p.2)
        (order_client_visits_veh env s p.1 p.2) = some s' := h
    cases hv : order_client_visits_veh env s p.1 p.2 with
    | none =>
      rw [hv, foldl_none_absorb _ (fun v => rfl) ps] at h
      cases h
    | some s2 =>
      rw [hv] at h
      rw [ih s2 s' h]
      exact ocv_veh_pd env s p.1 p.2 s2 hv

theorem ocv_pd (env : Env) (s : Sol) (cs : List (List ℕ)) (s' : Sol)
    (h : order_client_visits env s cs = some s') :
    s'.product_delivery = s.product_delivery :=
  ocv_fold_pd env cs.enum s s' h

/-- The initial clients_served bookkeeping of Solution.correct satisfies the
limit-stage invariant. -/
theorem clients_served_lc_inv (env : Env) (s : Sol)
    (hdims : pd_dims env s.product_delivery) :
    lc_inv env s.product_delivery (clients_served_of env s.product_delivery) := by
  have hlen : (clients_served_of env s.product_delivery).length = env.vehicle_nr := by
    unfold clients_served_of
    simp
  refine ⟨hdims, hlen, ?_, ?_⟩
  · intro v c hc
    by_cases hv : v < env.vehicle_nr
    · rw [clients_served_of_getD env _ v hv] at hc
      exact ((mem_clients_of env _ v c).mp hc).1
    · rw [List.getD_eq_default _ _ (by omega)] at hc
      cases hc
  · intro v hv c hc
    rw [clients_served_of_getD env _ v hv]
    exact hc

/-- Solution.correct (parameterized by the regeneration continuation): when
it returns, the repaired solution satisfies both capacity and client-count
invariants, provided demands are nonnegative, the input product-delivery
matrix is well-formed, and every regenerated solution satisfies them too. -/
theorem correct_go_inv (env : Env) (hd : nonneg_demand env)
    (gcf : Rand → Option (Sol × Rand))
    (hQ : ∀ r s' r', gcf r = some (s', r') → sol_ok env s'.product_delivery)
    (fuel : ℕ) (s : Sol) (r : Rand) (out : Sol × Rand)
    (hdims : pd_dims env s.product_delivery)
    (hrun : correct_go env gcf fuel s r = some out) :
    sol_ok env out.1.product_delivery := by
  unfold correct_go at hrun
  simp only [] at hrun
  cases hlc : limit_clients env 12 s (clients_served_of env s.product_delivery) r with
  | none =>
    rw [hlc] at hrun
    cases hrun
  | some mid =>
    obtain ⟨s2, cs2, r2⟩ := mid
    rw [hlc] at hrun
    replace hrun : (match correct_overflow_go env gcf fuel s2
        (determine_overflow env s2) cs2 r2 with
      | none => none
      | some (s3, cs3, r3) =>
        match order_client_visits env s3 cs3 with
        | none => none
        | some s4 => some (s4, r3)) = some out := hrun
    have hpost := limit_clients_post env s (clients_served_of env s.product_delivery)
      r (s2, cs2, r2) hlc (clients_served_lc_inv env s hdims)
    simp only [] at hpost
    obtain ⟨⟨hd2, hcslen, hmlt, hsub⟩, h12⟩ := hpost
    cases hco : correct_overflow_go env gcf fuel s2 (determine_overflow env s2) cs2 r2 with
    | none =>
      rw [hco] at hrun
      cases hrun
    | some mid3 =>
      obtain ⟨s3, cs3, r3⟩ := mid3
      rw [hco] at hrun
      replace hrun : (match order_client_visits env s3 cs3 with
        | none => none
        | some s4 => some (s4, r3)) = some out := hrun
      have hdet := determine_overflow_spec env s2
      have hok3 : sol_ok env s3.product_delivery := by
        have hinv : os_inv env s2 cs2 (determine_overflow env s2)
            ((((List.range (determine_overflow env s2).length).filter
              (fun idx => decide ((determine_overflow env s2).getD idx 0 < 0))).length : ℤ)) := by
          refine ⟨hd2, ⟨hcslen, hmlt, hsub⟩, h12, hdet.1, hdet.2, ?_⟩
          rw [filter_length_eq_sum (fun idx => (determine_overflow env s2).getD idx 0 < 0)]
          rw [hdet.1]
        have hloop : correct_overflow_loop_go env gcf fuel 0 s2 cs2
            (determine_overflow env s2)
            ((((List.range (determine_overflow env s2).length).filter
              (fun idx => decide ((determine_overflow env s2).getD idx 0 < 0))).length : ℤ))
            r2 = some (s3, cs3, r3) := hco
        have := loop_go_inv env hd gcf hQ fuel 0 s2 cs2 (determine_overflow env s2)
          ((((List.range (determine_overflow env s2).length).filter
            (fun idx => decide ((determine_overflow env s2).getD idx 0 < 0))).length : ℤ))
          r2 (s3, cs3, r3) hinv hloop
        exact this
      cases hocv : order_client_visits env s3 cs3 with
      | none =>
        rw [hocv] at hrun
        cases hrun
      | some s4 =>
        rw [hocv] at hrun
        injection hrun with he
        rw [← he]
        have hpd4 : s4.product_delivery = s3.product_delivery := ocv_pd env s3 cs3 s4 hocv
        show sol_ok env s4.product_delivery
        rw [hpd4]
        exact hok3

/-- The starting-satellite initialization fold of Solution.generate_chaos
never touches product_delivery. -/
theorem gc_init_pd (env : Env) :
    ∀ (l : List ℕ) (acc : Sol × List ℕ × Rand),
      ((l.foldl (fun (acc : Sol × List ℕ × Rand) veh =>
        let (sol, available, r) := acc
        let prob_r := randint 0 (max 4 env.vehicle_nr) r
        if prob_r.1 > 0 then
          let sat_r := randint 1 env.satellite_nr prob_r.2
          ({ sol with starting_points := sol.starting_points.set veh sat_r.1 },
           available ++ [veh], sat_r.2)
        else
          ({ sol with starting_points := sol.starting_points.set veh 0 },
           available, prob_r.2)) acc).1).product_delivery
        = acc.1.product_delivery := by
  intro l
  induction l with
  | nil =>
    intro acc
    rfl
  | cons a l ih =>
    intro acc
    rw [List.foldl_cons, ih]
    obtain ⟨sol, available, r⟩ := acc
    simp only []
    split
    · rfl
    · rfl

/-- The assignment loop of Solution.generate_chaos keeps the
product-delivery matrix well-formed: every write targets a listed client
row. -/
theorem chaos_assign_dims (env : Env) :
    ∀ (l : List (ℕ × ℕ)), (∀ cp ∈ l, cp.1 < env.client_nr) →
    ∀ (st : Sol × List (List ℕ) × List ℕ × Rand)
      (out : Sol × List (List ℕ) × List ℕ × Rand),
      chaos_assign env l st = .ok out →
      pd_dims env st.1.product_delivery →
      pd_dims env out.1.product_delivery := by
  intro l
  induction l with
  | nil =>
    intro _ st out h hdims
    replace h : (Except.ok st : Except GcErr (Sol × List (List ℕ) × List ℕ × Rand))
        = .ok out := h
    injection h with he
    rw [← he]
    exact hdims
  | cons cp l ih =>
    intro hb st out h hdims
    obtain ⟨c, p⟩ := cp
    obtain ⟨sol, cs, available, r⟩ := st
    simp only [] at hdims
    simp only [chaos_assign] at h
    by_cases hdm : (env.demand.getD c []).getD p 0 > 0
    · rw [if_pos hdm] at h
      split at h
      · cases h
      · next sol2 available2 r2 href =>
        have hpd2 : sol2.product_delivery = sol.product_delivery := by
          split at href
          · split at href
            · cases href
            · injection href with he
              exact (congrArg (fun t => t.1.product_delivery) he).symm
          · split at href
            · cases href
            · injection href with he
              exact (congrArg (fun t => t.1.product_delivery) he).symm
        split at h
        · cases h
        · next veh r3 hch =>
          refine ih (fun q hq => hb q (List.mem_cons_of_mem _ hq)) _ out h ?_
          show pd_dims env (set2 sol2.product_delivery c p (veh + 1))
          rw [hpd2]
          exact set2_dims env _ c p _ hdims (hb (c, p) (List.mem_cons_self _ _))
    · rw [if_neg hdm] at h
      exact ih (fun q hq => hb q (List.mem_cons_of_mem _ hq)) _ out h hdims

/-- Solution.generate_chaos always returns a fully repaired solution:
capacity and client-count invariants hold (claim C3's regeneration path). -/
theorem gc_sol_ok (env : Env) (hd : nonneg_demand env) :
    ∀ (fuel : ℕ) (r : Rand) (s' : Sol) (r' : Rand),
      generate_chaos env fuel r = some (s', r') →
      sol_ok env s'.product_delivery := by
  intro fuel
  induction fuel with
  | zero =>
    intro r s' r' h
    cases h
  | succ fuel ih =>
    intro r s' r' h
    simp only [generate_chaos] at h
    split at h
    · cases h
    · next => exact ih _ s' r' h
    · next sol2 a b r2 hca =>
        have hdims0 : pd_dims env
            (List.replicate env.client_nr (List.replicate env.product_nr 0)) := by
          refine ⟨List.length_replicate _ _, ?_⟩
          intro row hrow
          rw [List.eq_of_mem_replicate hrow]
          exact List.length_replicate _ _
        have hdims2 : pd_dims env sol2.product_delivery := by
          refine chaos_assign_dims env (cp_pairs env)
            (fun q hq => (cp_pairs_mem env q hq).1) _ _ hca ?_
          show pd_dims env (((List.range env.vehicle_nr).foldl _
            (empty_solution env "Chaos", [], r)).1).product_delivery
          rw [gc_init_pd]
          exact hdims0
        exact correct_go_inv env hd (fun r' => generate_chaos env fuel r')
          (fun rr ss rr2 hh => ih rr ss rr2 hh) (fuel + 1) sol2 r2 (s', r') hdims2 h

/-- C3: whenever Solution.correct returns — in an environment with
nonnegative demands and on a candidate whose product-delivery matrix is
well-formed — every vehicle's total assigned demand (summed over all
client-product cells naming it) is within that vehicle's capacity, and no
vehicle serves more than 12 distinct clients.  The statement covers the
anti-stall safeguard: a wholesale chaos-regenerated replacement re-enters
the same repair, so the returned solution satisfies the invariants on that
path too. -/
theorem C3_correct_capacity_and_client_limit (env : Env) (fuel : ℕ) (s : Sol)
    (r : Rand) (out : Sol × Rand)
    (hd : nonneg_demand env)
    (hdims : pd_dims env s.product_delivery)
    (hrun : correct env fuel s r = some out) :
    (∀ v, v < env.vehicle_nr →
      vehicle_load env out.1.product_delivery v ≤ env.capacity.getD v 0) ∧
    (∀ v, v < env.vehicle_nr →
      (clients_of env out.1.product_delivery v).length ≤ 12) := by
  have h := correct_go_inv env hd (fun r' => generate_chaos env fuel r')
    (fun rr ss rr2 hh => gc_sol_ok env hd fuel rr ss rr2 hh) fuel s r out hdims hrun
  exact ⟨h.2.1, h.2.2⟩

theorem C3_witness :
    vehicle_load envC5 solC5p1.product_delivery 0 ≤ envC5.capacity.getD 0 0 ∧
    (clients_of envC5 solC5p1.product_delivery 0).length ≤ 12 := by
  have h := C3_correct_capacity_and_client_limit envC5 1 solC5p1 [] (solC5p1, [])
    (by
      intro c hc p hp
      have hcn : envC5.client_nr = 1 := rfl
      have hpn : envC5.product_nr = 1 := rfl
      rw [hcn] at hc
      rw [hpn] at hp
      have hc0 : c = 0 := by omega
      have hp0 : p = 0 := by omega
      rw [hc0, hp0]
      decide)
    ⟨by decide, by decide⟩ rfl
  exact ⟨h.1 0 (by decide), h.2 0 (by decide)⟩

end VRP
